import Mathlib

/-!
# XPBD cloth simulation (`src/xpbd.cpp`): a shallow embedding

The C++ program works on `float`.  The embedding idealises `float` as an
arbitrary linearly ordered field `F` (exact arithmetic, no rounding).  Two
things of IEEE arithmetic are kept explicit:

* a division whose denominator is zero has no finite result (the program
  continues with an infinity or a NaN), so a division of the source whose
  denominator can be zero is a checked division and a function executing
  one returns `Option`: `none` stands for "the result is not finite";
* `sqrt` (used by `glm::length` and `glm::normalize`) is a parameter of the
  definitions; theorems that need it assume `IsSqrt sqrt`.

Pointers into `std::vector<CParticle>` are indices into a list.  The type `int`
is the integers: the grid indices and the key-driven counters of a run stay far
from the 32-bit range (`special_iteration_le` bounds the iteration count by
20 plus the number of key events).
-/

namespace XPBD

/-! ## Numbers and `glm::vec3` -/

/-- Checked division: `a / b`, no result when the denominator is zero. -/
def fdiv {F : Type} [LinearOrderedField F] (a b : F) : Option F :=
  if b = 0 then none else some (a / b)

/-- The square-root function the definitions are parameterised by is a real
square root: non-negative, and squaring to its argument on non-negative input. -/
def IsSqrt {F : Type} [LinearOrderedField F] (sqrt : F → F) : Prop :=
  ∀ x : F, 0 ≤ x → 0 ≤ sqrt x ∧ sqrt x * sqrt x = x

/-- The constant `FLT_EPSILON` of `<cfloat>`: 2⁻²³. -/
def FLT_EPSILON {F : Type} [LinearOrderedField F] : F := 1 / 8388608

/-- The type `glm::vec3`. -/
@[ext]
structure Vec3 (F : Type) where
  x : F
  y : F
  z : F
deriving DecidableEq, Repr

namespace Vec3

variable {F : Type} [LinearOrderedField F]

/-- The vector `glm::vec3(0, 0, 0)`. -/
def zero : Vec3 F := ⟨0, 0, 0⟩

/-- Componentwise `operator+`. -/
def add (a b : Vec3 F) : Vec3 F := ⟨a.x + b.x, a.y + b.y, a.z + b.z⟩

/-- Componentwise `operator-`. -/
def sub (a b : Vec3 F) : Vec3 F := ⟨a.x - b.x, a.y - b.y, a.z - b.z⟩

/-- The `vec3 * float` operator. -/
def mulS (a : Vec3 F) (s : F) : Vec3 F := ⟨a.x * s, a.y * s, a.z * s⟩

/-- The `float * vec3` operator. -/
def smul (s : F) (a : Vec3 F) : Vec3 F := ⟨s * a.x, s * a.y, s * a.z⟩

/-- The `vec3 / float` operator: one denominator for the three components. -/
def divS (a : Vec3 F) (s : F) : Option (Vec3 F) :=
  if s = 0 then none else some ⟨a.x / s, a.y / s, a.z / s⟩

/-- The function `glm::dot`. -/
def dot (a b : Vec3 F) : F := a.x * b.x + a.y * b.y + a.z * b.z

end Vec3

namespace glm

variable {F : Type} [LinearOrderedField F]

/-- The function `glm::length(v) = sqrt(dot(v, v))`. -/
def length (sqrt : F → F) (v : Vec3 F) : F := sqrt (Vec3.dot v v)

/-- The function `glm::inversesqrt(x) = 1 / sqrt(x)`. -/
def inversesqrt (sqrt : F → F) (x : F) : Option F := fdiv 1 (sqrt x)

/-- The function `glm::normalize(v) = v * inversesqrt(dot(v, v))`. -/
def normalize (sqrt : F → F) (v : Vec3 F) : Option (Vec3 F) :=
  (inversesqrt sqrt (Vec3.dot v v)).map (fun r => Vec3.mulS v r)

end glm

/-! ## `enum eMode` and `MODE_COMPLIANCE` -/

/-- Enumerator `eModePBD`. -/
def eModePBD : Int := 0
/-- Enumerator `eModeXPBD_Concrete`. -/
def eModeXPBD_Concrete : Int := 1
/-- Enumerator `eModeXPBD_Wood`. -/
def eModeXPBD_Wood : Int := 2
/-- Enumerator `eModeXPBD_Leather`. -/
def eModeXPBD_Leather : Int := 3
/-- Enumerator `eModeXPBD_Tendon`. -/
def eModeXPBD_Tendon : Int := 4
/-- Enumerator `eModeXPBD_Rubber`. -/
def eModeXPBD_Rubber : Int := 5
/-- Enumerator `eModeXPBD_Muscle`. -/
def eModeXPBD_Muscle : Int := 6
/-- Enumerator `eModeXPBD_Fat`. -/
def eModeXPBD_Fat : Int := 7
/-- Enumerator `eModeMax`. -/
def eModeMax : Int := 8

/-- The initialiser list of `MODE_COMPLIANCE[eModeMax]`, the decimal literals read exactly. -/
def MODE_COMPLIANCE_TABLE {F : Type} [LinearOrderedField F] : List F :=
  [ 0,
    4 / 100000000000,
    16 / 100000000000,
    1 / 1000000000,
    2 / 1000000000,
    1 / 10000000,
    2 / 100000,
    1 / 10000 ]

/-- The lookup `MODE_COMPLIANCE[m]` with an `int` index: no value outside the array. -/
def MODE_COMPLIANCE {F : Type} [LinearOrderedField F] (m : Int) : Option F :=
  if 0 ≤ m then (MODE_COMPLIANCE_TABLE : List F)[m.toNat]? else none

/-! ## `class CParticle` -/

/-- The data members of `class CParticle`. -/
structure CParticle (F : Type) where
  m_InvMass : F
  m_Position : Vec3 F
  m_OldPosition : Vec3 F
  m_Acceleration : Vec3 F
deriving DecidableEq, Repr

namespace CParticle

variable {F : Type} [LinearOrderedField F]

/-- The constructor `CParticle(inv_mass, position, acceleration)`. -/
def new (inv_mass : F) (position acceleration : Vec3 F) : CParticle F :=
  { m_InvMass := inv_mass, m_Position := position, m_OldPosition := position,
    m_Acceleration := acceleration }

/-- The method `CParticle::Update(t)`: one Verlet step of a movable particle. -/
def Update (p : CParticle F) (t : F) : CParticle F :=
  if 0 < p.m_InvMass then
    let tmp := p.m_Position
    { p with
      m_Position := Vec3.add p.m_Position
        (Vec3.add (Vec3.sub p.m_Position p.m_OldPosition)
          (Vec3.mulS (Vec3.mulS p.m_Acceleration t) t))
      m_OldPosition := tmp }
  else p

/-- The method `CParticle::AddPosition(pos, is_force)`; the source's default for
`is_force` is `true`. -/
def AddPosition (p : CParticle F) (pos : Vec3 F) (is_force : Bool) : CParticle F :=
  if 0 < p.m_InvMass ∨ is_force = true then
    { p with m_Position := Vec3.add p.m_Position pos }
  else p

end CParticle

/-! ## `class CApplication` and the key handler `special` -/

/-- The public `int` members of `class CApplication`.  The private members `m_Time` and
`m_SolveTime` hold wall-clock measurements and are read by nothing modelled here. -/
structure CApplication where
  m_IterationNum : Int
  m_Mode : Int
  m_OldMode : Int
deriving DecidableEq, Repr

/-- The constructor `CApplication()`. -/
def CApplication.new : CApplication :=
  { m_IterationNum := 20, m_Mode := eModePBD, m_OldMode := eModeMax }

/-- The constant `GLUT_KEY_LEFT` of `glut.h`. -/
def GLUT_KEY_LEFT : Int := 100
/-- The constant `GLUT_KEY_UP` of `glut.h`. -/
def GLUT_KEY_UP : Int := 101
/-- The constant `GLUT_KEY_RIGHT` of `glut.h`. -/
def GLUT_KEY_RIGHT : Int := 102
/-- The constant `GLUT_KEY_DOWN` of `glut.h`. -/
def GLUT_KEY_DOWN : Int := 103

/-- The callback `special(key, x, y)` acting on `g_Application`: four `if` statements in
sequence. -/
def special (app : CApplication) (key : Int) : CApplication :=
  let app1 :=
    if key = GLUT_KEY_UP then { app with m_IterationNum := app.m_IterationNum + 1 } else app
  let app2 :=
    if key = GLUT_KEY_DOWN then
      (if app1.m_IterationNum > 1 then
        { app1 with m_IterationNum := app1.m_IterationNum - 1 } else app1)
    else app1
  let app3 :=
    if key = GLUT_KEY_LEFT then
      (if app2.m_Mode > eModePBD then
        { app2 with m_OldMode := app2.m_Mode, m_Mode := app2.m_Mode - 1 } else app2)
    else app2
  if key = GLUT_KEY_RIGHT then
    (if app3.m_Mode < eModeMax - 1 then
      { app3 with m_OldMode := app3.m_Mode, m_Mode := app3.m_Mode + 1 } else app3)
  else app3

/-- The state of `g_Application` after a sequence of key events, starting from `app`. -/
def specialKeys (app : CApplication) (keys : List Int) : CApplication :=
  keys.foldl special app

/-! ## `class CConstraint` -/

/-- The data members of `class CConstraint`; the two particle pointers are indices into the
particle vector. -/
structure CConstraint (F : Type) where
  m_RestLength : F
  m_Particle1 : Nat
  m_Particle2 : Nat
  m_Stiffness : F
  m_Compliance : F
  m_Lambda : F
deriving DecidableEq, Repr

namespace CConstraint

variable {F : Type} [LinearOrderedField F]

/-- The constructor `CConstraint(p0, p1)`, the pointers `p0`, `p1` given as the indices
`i0`, `i1` and the particles they point to. -/
def new (sqrt : F → F) (i0 i1 : Nat) (p0 p1 : CParticle F) : CConstraint F :=
  let p0_to_p1 := Vec3.sub p1.m_Position p0.m_Position
  { m_RestLength := glm.length sqrt p0_to_p1, m_Particle1 := i0, m_Particle2 := i1,
    m_Stiffness := 1 / 10, m_Compliance := 0, m_Lambda := 0 }

/-- Lines 130–145 of `CConstraint::Solve`, after the `sum_mass == 0` guard: the constraint
with its updated `m_Compliance` and `m_Lambda`, and `correction_vector`. -/
def correction_vector (sqrt : F → F) (app : CApplication) (dt : F) (c : CConstraint F)
    (inv_mass1 inv_mass2 : F) (pos1 pos2 : Vec3 F) : Option (CConstraint F × Vec3 F) :=
  let sum_mass := inv_mass1 + inv_mass2
  let p1_minus_p2 := Vec3.sub pos1 pos2
  let distance := glm.length sqrt p1_minus_p2
  let constraint := distance - c.m_RestLength
  if app.m_Mode ≠ eModePBD then
    let lambda0 := if app.m_OldMode ≠ app.m_Mode then 0 else c.m_Lambda
    (MODE_COMPLIANCE app.m_Mode).bind fun mc =>
    (fdiv mc (dt * dt)).bind fun compliance =>
    (fdiv (-constraint - compliance * lambda0) (sum_mass + compliance)).bind fun dlambda =>
    (Vec3.divS (Vec3.smul dlambda p1_minus_p2) (distance + FLT_EPSILON)).map fun cv =>
      ({ c with m_Compliance := compliance, m_Lambda := lambda0 + dlambda }, cv)
  else
    (glm.normalize sqrt p1_minus_p2).bind fun n =>
    (Vec3.divS (Vec3.mulS (Vec3.smul c.m_Stiffness n) (-constraint)) sum_mass).map fun cv =>
      (c, cv)

/-- The method `CConstraint::Solve(app, dt)` on the two particle objects `p1`, `p2` the
constraint points to (two different objects). -/
def SolvePair (sqrt : F → F) (app : CApplication) (dt : F) (c : CConstraint F)
    (p1 p2 : CParticle F) : Option (CConstraint F × CParticle F × CParticle F) :=
  let inv_mass1 := p1.m_InvMass
  let inv_mass2 := p2.m_InvMass
  let sum_mass := inv_mass1 + inv_mass2
  if sum_mass = 0 then some (c, p1, p2)
  else
    (correction_vector sqrt app dt c inv_mass1 inv_mass2 p1.m_Position p2.m_Position).map
      fun r =>
        (r.1, p1.AddPosition (Vec3.smul inv_mass1 r.2) true,
          p2.AddPosition (Vec3.smul (-inv_mass2) r.2) true)

/-- The value `constraint` of `CConstraint::Solve` (line 132), `Cj(x) = distance − m_RestLength`,
of constraint `c` on the particles `p1`, `p2`. -/
def constraint (sqrt : F → F) (c : CConstraint F) (p1 p2 : CParticle F) : F :=
  glm.length sqrt (Vec3.sub p1.m_Position p2.m_Position) - c.m_RestLength

/-- The outcome of `n` consecutive `CConstraint::Solve(app, dt)` calls on the same constraint
and particles. -/
def SolvePairN (sqrt : F → F) (app : CApplication) (dt : F) :
    Nat → CConstraint F × CParticle F × CParticle F →
      Option (CConstraint F × CParticle F × CParticle F)
  | 0, s => some s
  | n + 1, s => (SolvePair sqrt app dt s.1 s.2.1 s.2.2).bind (SolvePairN sqrt app dt n)

/-- The denominators of the divisions `CConstraint::Solve(app, dt)` executes on `p1`, `p2`,
in execution order (a division by zero ends the list: nothing finite follows it). -/
def SolveDivisors (sqrt : F → F) (app : CApplication) (dt : F) (c : CConstraint F)
    (p1 p2 : CParticle F) : List F :=
  let sum_mass := p1.m_InvMass + p2.m_InvMass
  if sum_mass = 0 then []
  else
    let p1_minus_p2 := Vec3.sub p1.m_Position p2.m_Position
    let distance := glm.length sqrt p1_minus_p2
    let constraint := distance - c.m_RestLength
    if app.m_Mode ≠ eModePBD then
      let lambda0 := if app.m_OldMode ≠ app.m_Mode then 0 else c.m_Lambda
      match (MODE_COMPLIANCE app.m_Mode : Option F) with
      | none => []
      | some mc =>
        match fdiv mc (dt * dt) with
        | none => [dt * dt]
        | some compliance =>
          match fdiv (-constraint - compliance * lambda0) (sum_mass + compliance) with
          | none => [dt * dt, sum_mass + compliance]
          | some _ => [dt * dt, sum_mass + compliance, distance + FLT_EPSILON]
    else
      match glm.normalize sqrt p1_minus_p2 with
      | none => [sqrt (Vec3.dot p1_minus_p2 p1_minus_p2)]
      | some _ => [sqrt (Vec3.dot p1_minus_p2 p1_minus_p2), sum_mass]

/-- The method `CConstraint::Solve(app, dt)` with the particle vector `ps` as the memory the
two pointers refer to: the particles are read through the pointers, and the two
`AddPosition` calls write through them one after the other. -/
def Solve (sqrt : F → F) (app : CApplication) (dt : F) (c : CConstraint F)
    (ps : List (CParticle F)) : Option (CConstraint F × List (CParticle F)) :=
  match ps[c.m_Particle1]?, ps[c.m_Particle2]? with
  | some p1, some p2 =>
    let inv_mass1 := p1.m_InvMass
    let inv_mass2 := p2.m_InvMass
    let sum_mass := inv_mass1 + inv_mass2
    if sum_mass = 0 then some (c, ps)
    else
      (correction_vector sqrt app dt c inv_mass1 inv_mass2 p1.m_Position p2.m_Position).map
        fun r =>
          (r.1,
            List.modify (fun p => p.AddPosition (Vec3.smul (-inv_mass2) r.2) true)
              c.m_Particle2
              (List.modify (fun p => p.AddPosition (Vec3.smul inv_mass1 r.2) true)
                c.m_Particle1 ps))
  | _, _ => none

end CConstraint

/-! ## `class CBall` -/

/-- The data members of `class CBall`. -/
structure CBall (F : Type) where
  m_Frequency : F
  m_Position : Vec3 F
  m_Radius : F
deriving DecidableEq, Repr

namespace CBall

variable {F : Type} [LinearOrderedField F]

/-- The constructor `CBall(radius)`. -/
def new (radius : F) : CBall F :=
  { m_Frequency := 314 / 100 * (4 / 10), m_Position := ⟨0, 0, 0⟩, m_Radius := radius }

/-- The method `CBall::Update(dt)`, with the library function `cos` as a parameter. -/
def Update (cos : F → F) (b : CBall F) (dt : F) : CBall F :=
  let position := { b.m_Position with z := cos b.m_Frequency * 2 }
  let frequency := b.m_Frequency + dt / 5
  { b with
    m_Position := position
    m_Frequency := if frequency > 314 / 100 * 2 then frequency - 314 / 100 * 2 else frequency }

end CBall

/-! ## `class CCloth` -/

/-- The three topology rules, as the comments of the constructor name the `MakeConstraint`
calls. -/
inductive ConstraintKind where
  | structural
  | shear
  | bend
deriving DecidableEq, Repr

/-- One `MakeConstraint(GetParticle(w1, h1), GetParticle(w2, h2))` call of the constructor,
with the rule it belongs to. -/
structure MakeCall where
  kind : ConstraintKind
  w1 : Int
  h1 : Int
  w2 : Int
  h2 : Int
deriving DecidableEq, Repr

/-- The data members of `class CCloth`. -/
structure CCloth (F : Type) where
  m_Width : Int
  m_Height : Int
  m_Particles : List (CParticle F)
  m_Constraints : List (CConstraint F)
deriving DecidableEq, Repr

namespace CCloth

variable {F : Type} [LinearOrderedField F]

/-- The loop `for (int i = 0; i < n; i++)` collecting what each pass of its body appends. -/
def forRange {α : Type} (n : Int) (body : Int → List α) : List α :=
  (List.range n.toNat).flatMap fun i => body (i : Int)

/-- The index `h * m_Width + w` that `GetParticle(w, h)` and the constructor address. -/
def particleIndex (m_Width w h : Int) : Nat := (h * m_Width + w).toNat

/-- The body of the first constraint loop (lines 218–223) at cell `(w, h)`. -/
def structuralShearCalls (m_Width m_Height w h : Int) : List MakeCall :=
  (if w < m_Width - 1 then [⟨.structural, w, h, w + 1, h⟩] else [])
  ++ (if h < m_Height - 1 then [⟨.structural, w, h, w, h + 1⟩] else [])
  ++ (if w < m_Width - 1 ∧ h < m_Height - 1 then
        [⟨.shear, w, h, w + 1, h + 1⟩, ⟨.shear, w + 1, h, w, h + 1⟩]
      else [])

/-- The body of the second constraint loop (lines 228–233) at cell `(w, h)`. -/
def bendCalls (m_Width m_Height w h : Int) : List MakeCall :=
  (if w < m_Width - 2 then [⟨.bend, w, h, w + 2, h⟩] else [])
  ++ (if h < m_Height - 2 then [⟨.bend, w, h, w, h + 2⟩] else [])
  ++ (if w < m_Width - 2 ∧ h < m_Height - 2 then
        [⟨.bend, w, h, w + 2, h + 2⟩, ⟨.bend, w + 2, h, w, h + 2⟩]
      else [])

/-- The `MakeConstraint` calls of the constructor (lines 216–235), in execution order. -/
def makeCalls (m_Width m_Height : Int) : List MakeCall :=
  (forRange m_Width fun w => forRange m_Height fun h =>
      structuralShearCalls m_Width m_Height w h)
  ++ (forRange m_Width fun w => forRange m_Height fun h =>
      bendCalls m_Width m_Height w h)

/-- The particle the first loop of the constructor (lines 204–213) stores at cell `(w, h)`.
The two denominators are the loop bounds, positive inside the loop. -/
def initialParticle (width height : F) (m_Width m_Height w h : Int) : CParticle F :=
  let pos : Vec3 F :=
    ⟨width * ((w : F) / (m_Width : F)) - width * (1 / 2),
     -height * ((h : F) / (m_Height : F)) + height * (1 / 2),
     0⟩
  let gravity : Vec3 F := ⟨0, -98 / 10, 0⟩
  let inv_mass : F :=
    if (h = 0 ∧ w = 0) ∨ (h = 0 ∧ w = m_Width - 1) then 0 else 1 / 10
  CParticle.new inv_mass pos gravity

/-- The particle vector after `resize` and the first loop of the constructor (lines
201–215); `junk` is the indeterminate content of a default-constructed `CParticle`. -/
def initialParticles (junk : CParticle F) (width height : F) (m_Width m_Height : Int) :
    List (CParticle F) :=
  (List.range m_Width.toNat).foldl
    (fun ps (w : Nat) =>
      (List.range m_Height.toNat).foldl
        (fun ps (h : Nat) =>
          ps.set (particleIndex m_Width (w : Int) (h : Int))
            (initialParticle width height m_Width m_Height (w : Int) (h : Int)))
        ps)
    (List.replicate (m_Width * m_Height).toNat junk)

/-- The call `MakeConstraint(GetParticle(w1, h1), GetParticle(w2, h2))` on the particle vector
`ps`: the constraint it appends (`junk` is read where an index is outside the vector). -/
def MakeConstraint (junk : CParticle F) (sqrt : F → F) (m_Width : Int)
    (ps : List (CParticle F)) (k : MakeCall) : CConstraint F :=
  CConstraint.new sqrt (particleIndex m_Width k.w1 k.h1) (particleIndex m_Width k.w2 k.h2)
    (ps.getD (particleIndex m_Width k.w1 k.h1) junk)
    (ps.getD (particleIndex m_Width k.w2 k.h2) junk)

set_option linter.unusedVariables false in
/-- The constructor `CCloth(width, height, num_width, num_height)`; its initialiser list is
`m_Width(num_height), m_Height(num_height)`. -/
def new (junk : CParticle F) (sqrt : F → F) (width height : F) (num_width num_height : Int) :
    CCloth F :=
  let m_Width := num_height
  let m_Height := num_height
  let particles := initialParticles junk width height m_Width m_Height
  { m_Width := m_Width, m_Height := m_Height, m_Particles := particles,
    m_Constraints := (makeCalls m_Width m_Height).map (MakeConstraint junk sqrt m_Width particles) }

/-- Lines 261–266 of `CCloth::Update`: the sphere test and push of one particle. -/
def collide (sqrt : F → F) (ball : CBall F) (p : CParticle F) : Option (CParticle F) :=
  let vec := Vec3.sub p.m_Position ball.m_Position
  let length := glm.length sqrt vec
  let radius := ball.m_Radius * (18 / 10)
  if length < radius then
    (glm.normalize sqrt vec).map fun n => p.AddPosition (Vec3.mulS n (radius - length)) true
  else some p

/-- The particle loop of lines 260–267. -/
def collideAll (sqrt : F → F) (ball : CBall F) : List (CParticle F) → Option (List (CParticle F))
  | [] => some []
  | p :: ps =>
    (collide sqrt ball p).bind fun p1 =>
    (collideAll sqrt ball ps).map fun ps1 => p1 :: ps1

/-- The constraint loop of lines 270–272: every constraint solved once, in vector order, on
the particle vector the earlier solves left. -/
def solveAll (sqrt : F → F) (app : CApplication) (dt : F) :
    List (CConstraint F) → List (CParticle F) →
      Option (List (CConstraint F) × List (CParticle F))
  | [], ps => some ([], ps)
  | c :: cs, ps =>
    (c.Solve sqrt app dt ps).bind fun r =>
    (solveAll sqrt app dt cs r.2).map fun rs => (r.1 :: rs.1, rs.2)

/-- The body of the iteration loop (lines 260–273): collision pass, then constraint pass. -/
def iteration (sqrt : F → F) (app : CApplication) (dt : F) (ball : CBall F)
    (s : List (CConstraint F) × List (CParticle F)) :
    Option (List (CConstraint F) × List (CParticle F)) :=
  (collideAll sqrt ball s.2).bind fun ps => solveAll sqrt app dt s.1 ps

/-- The loop `for (int i = 0; i < iteraion; i++)` of line 259, `n` passes. -/
def iterations (sqrt : F → F) (app : CApplication) (dt : F) (ball : CBall F) :
    Nat → List (CConstraint F) × List (CParticle F) →
      Option (List (CConstraint F) × List (CParticle F))
  | 0, s => some s
  | n + 1, s => (iteration sqrt app dt ball s).bind (iterations sqrt app dt ball n)

/-- The method `CCloth::Update(app, dt, ball, iteraion)`.  The solve-time measurement it
stores in `app` is left out. -/
def Update (sqrt : F → F) (cloth : CCloth F) (app : CApplication) (dt : F) (ball : CBall F)
    (iteraion : Int) : Option (CCloth F) :=
  let integrated := cloth.m_Particles.map fun p => p.Update dt
  (iterations sqrt app dt ball iteraion.toNat (cloth.m_Constraints, integrated)).map fun s =>
    { cloth with m_Particles := s.2, m_Constraints := s.1 }

end CCloth

/-! ## The frame driver -/

/-- What happens to `g_Application` between two moments of a run: a key event handled by
`special`, or a frame (`idle` calling `CCloth::Update`). -/
inductive AppEvent where
  | key (k : Int)
  | frame
deriving DecidableEq, Repr

/-- The application state after one event.  `CCloth::Update` and `CConstraint::Solve` take
`app` by reference, read `m_Mode` and `m_OldMode` and write only `m_SolveTime`, which the
embedding leaves out: a frame leaves the modelled members as they are. -/
def appStep (app : CApplication) : AppEvent → CApplication
  | .key k => special app k
  | .frame => app

/-- The application state after a sequence of events, starting from `app`. -/
def appRun (app : CApplication) (events : List AppEvent) : CApplication :=
  events.foldl appStep app

/-- Lines 372–374 of `idle`: the time step handed to `CBall::Update` and `CCloth::Update`,
from the elapsed time `time` and the stored `m_Time`. -/
def idle_dt {F : Type} [LinearOrderedField F] (time m_Time : F) : F :=
  let dt := time - m_Time
  if dt > 33 / 1000 then 33 / 1000 else dt

/-! ## Theorems -/

/-! ### Auxiliary lemmas: checked division, vectors, square root -/

section Helpers

variable {F : Type} [LinearOrderedField F]

theorem fdiv_of_ne (a : F) {b : F} (h : b ≠ 0) : fdiv a b = some (a / b) := by
  simp [fdiv, h]

theorem fdiv_zero (a : F) : fdiv a (0 : F) = none := by
  simp [fdiv]

theorem fdiv_eq_some_iff (a b r : F) : fdiv a b = some r ↔ b ≠ 0 ∧ r = a / b := by
  unfold fdiv
  split_ifs with h
  · simp [h]
  · simp [h, eq_comm]

theorem Vec3.divS_of_ne (v : Vec3 F) {s : F} (h : s ≠ 0) :
    Vec3.divS v s = some ⟨v.x / s, v.y / s, v.z / s⟩ := by
  simp [Vec3.divS, h]

theorem Vec3.add_zero_vec (v : Vec3 F) : Vec3.add v ⟨0, 0, 0⟩ = v := by
  ext <;> simp [Vec3.add]

theorem Vec3.dot_self_nonneg (v : Vec3 F) : 0 ≤ Vec3.dot v v := by
  unfold Vec3.dot
  nlinarith [mul_self_nonneg v.x, mul_self_nonneg v.y, mul_self_nonneg v.z]

theorem Vec3.dot_self_eq_zero {v : Vec3 F} (h : Vec3.dot v v = 0) : v = ⟨0, 0, 0⟩ := by
  unfold Vec3.dot at h
  have hx : v.x = 0 := by
    nlinarith [mul_self_nonneg v.x, mul_self_nonneg v.y, mul_self_nonneg v.z]
  have hy : v.y = 0 := by
    nlinarith [mul_self_nonneg v.x, mul_self_nonneg v.y, mul_self_nonneg v.z]
  have hz : v.z = 0 := by
    nlinarith [mul_self_nonneg v.x, mul_self_nonneg v.y, mul_self_nonneg v.z]
  ext <;> assumption

theorem Vec3.sub_eq_zero_iff (a b : Vec3 F) : Vec3.sub a b = ⟨0, 0, 0⟩ ↔ a = b := by
  constructor
  · intro h
    have hx := congrArg Vec3.x h
    have hy := congrArg Vec3.y h
    have hz := congrArg Vec3.z h
    simp only [Vec3.sub] at hx hy hz
    ext
    · exact sub_eq_zero.mp hx
    · exact sub_eq_zero.mp hy
    · exact sub_eq_zero.mp hz
  · rintro rfl
    ext <;> simp [Vec3.sub]

theorem length_nonneg {sqrt : F → F} (hs : IsSqrt sqrt) (v : Vec3 F) :
    0 ≤ glm.length sqrt v :=
  (hs _ (Vec3.dot_self_nonneg v)).1

theorem length_mul_self {sqrt : F → F} (hs : IsSqrt sqrt) (v : Vec3 F) :
    glm.length sqrt v * glm.length sqrt v = Vec3.dot v v :=
  (hs _ (Vec3.dot_self_nonneg v)).2

theorem length_pos {sqrt : F → F} (hs : IsSqrt sqrt) {v : Vec3 F} (hv : v ≠ ⟨0, 0, 0⟩) :
    0 < glm.length sqrt v := by
  rcases (length_nonneg hs v).lt_or_eq with h | h
  · exact h
  · exfalso
    apply hv
    apply Vec3.dot_self_eq_zero
    rw [← length_mul_self hs v, ← h, mul_zero]

theorem sqrt_mul_self {sqrt : F → F} (hs : IsSqrt sqrt) {a : F} (ha : 0 ≤ a) :
    sqrt (a * a) = a := by
  obtain ⟨h0, h1⟩ := hs (a * a) (mul_self_nonneg a)
  exact (mul_self_inj h0 ha).mp h1

theorem length_sub_comm (sqrt : F → F) (a b : Vec3 F) :
    glm.length sqrt (Vec3.sub a b) = glm.length sqrt (Vec3.sub b a) := by
  unfold glm.length
  congr 1
  simp only [Vec3.dot, Vec3.sub]
  ring

theorem FLT_EPSILON_pos : (0 : F) < FLT_EPSILON := by
  unfold FLT_EPSILON
  positivity

theorem MODE_COMPLIANCE_pos {m : Int} (h1 : eModePBD < m) (h2 : m < eModeMax) :
    ∃ mc : F, MODE_COMPLIANCE m = some mc ∧ 0 < mc := by
  unfold eModePBD at h1
  unfold eModeMax at h2
  have hm : m = 1 ∨ m = 2 ∨ m = 3 ∨ m = 4 ∨ m = 5 ∨ m = 6 ∨ m = 7 := by omega
  rcases hm with h | h | h | h | h | h | h <;> subst h <;>
    simp [ MODE_COMPLIANCE, MODE_COMPLIANCE_TABLE]

theorem AddPosition_forced (p : CParticle F) (v : Vec3 F) :
    p.AddPosition v true = { p with m_Position := Vec3.add p.m_Position v } := by
  simp [CParticle.AddPosition]

theorem AddPosition_zero (p : CParticle F) (b : Bool) :
    p.AddPosition ⟨0, 0, 0⟩ b = p := by
  unfold CParticle.AddPosition
  split_ifs
  · rw [Vec3.add_zero_vec]
  · rfl

end Helpers

/-! ### `CParticle::Update` -/

section ParticleUpdate

variable {F : Type} [LinearOrderedField F]

/-- C1: `CParticle::Update(dt)` on a particle of positive inverse mass sets the position to
`pos + (pos − oldPos) + acceleration·dt²` and the old position to the pre-update position,
keeping inverse mass and acceleration; on a particle of inverse mass 0 it changes nothing. -/
theorem CParticle_Update_verlet (p : CParticle F) (dt : F) :
    (0 < p.m_InvMass →
      (p.Update dt).m_Position
          = Vec3.add p.m_Position
              (Vec3.add (Vec3.sub p.m_Position p.m_OldPosition)
                (Vec3.smul (dt * dt) p.m_Acceleration))
        ∧ (p.Update dt).m_OldPosition = p.m_Position
        ∧ (p.Update dt).m_InvMass = p.m_InvMass
        ∧ (p.Update dt).m_Acceleration = p.m_Acceleration)
    ∧ (p.m_InvMass = 0 → p.Update dt = p) := by
  constructor
  · intro h
    rw [CParticle.Update, if_pos h]
    refine ⟨?_, rfl, rfl, rfl⟩
    simp only [Vec3.add, Vec3.sub, Vec3.mulS, Vec3.smul]
    ext <;> simp <;> ring
  · intro h
    simp [CParticle.Update, h]

/-- C1, at a concrete particle of inverse mass 1/10 and at a pinned one. -/
theorem CParticle_Update_verlet_witness :
    ((CParticle.new (1 / 10 : ℚ) ⟨1, 2, 0⟩ ⟨0, -98 / 10, 0⟩).Update (1 / 2)).m_Position
        = ⟨1, 2 - 49 / 20, 0⟩
    ∧ (CParticle.new (0 : ℚ) ⟨1, 2, 0⟩ ⟨0, -98 / 10, 0⟩).Update (1 / 2)
        = CParticle.new (0 : ℚ) ⟨1, 2, 0⟩ ⟨0, -98 / 10, 0⟩ := by
  refine ⟨?_, (CParticle_Update_verlet _ _).2 rfl⟩
  rw [((CParticle_Update_verlet (CParticle.new (1 / 10 : ℚ) ⟨1, 2, 0⟩ ⟨0, -98 / 10, 0⟩)
    (1 / 2)).1 (by norm_num [CParticle.new])).1]
  simp only [CParticle.new, Vec3.add, Vec3.sub, Vec3.smul]
  ext <;> norm_num

end ParticleUpdate

/-! ### `CConstraint::Solve` -/

section SolveLemmas

variable {F : Type} [LinearOrderedField F]

/-- The compliant branch of `correction_vector`, the table lookup done. -/
theorem correction_vector_xpbd (sqrt : F → F) (app : CApplication) (dt : F)
    (c : CConstraint F) (w1 w2 : F) (x1 x2 : Vec3 F) (mc : F)
    (hm : app.m_Mode ≠ eModePBD) (hmc : MODE_COMPLIANCE app.m_Mode = some mc) :
    CConstraint.correction_vector sqrt app dt c w1 w2 x1 x2 =
      (fdiv mc (dt * dt)).bind fun compliance =>
      (fdiv (-(glm.length sqrt (Vec3.sub x1 x2) - c.m_RestLength)
            - compliance * (if app.m_OldMode ≠ app.m_Mode then 0 else c.m_Lambda))
          (w1 + w2 + compliance)).bind fun dlambda =>
      (Vec3.divS (Vec3.smul dlambda (Vec3.sub x1 x2))
          (glm.length sqrt (Vec3.sub x1 x2) + FLT_EPSILON)).map fun cv =>
        ({ c with
            m_Compliance := compliance
            m_Lambda := (if app.m_OldMode ≠ app.m_Mode then 0 else c.m_Lambda) + dlambda }, cv) := by
  unfold CConstraint.correction_vector
  simp only [if_pos hm, hmc, Option.some_bind]

/-- The plain-PBD branch of `correction_vector`. -/
theorem correction_vector_pbd (sqrt : F → F) (app : CApplication) (dt : F)
    (c : CConstraint F) (w1 w2 : F) (x1 x2 : Vec3 F) (hm : app.m_Mode = eModePBD) :
    CConstraint.correction_vector sqrt app dt c w1 w2 x1 x2 =
      (glm.normalize sqrt (Vec3.sub x1 x2)).bind fun n =>
      (Vec3.divS (Vec3.mulS (Vec3.smul c.m_Stiffness n)
          (-(glm.length sqrt (Vec3.sub x1 x2) - c.m_RestLength))) (w1 + w2)).map fun cv =>
        (c, cv) := by
  unfold CConstraint.correction_vector
  simp only [hm, ne_eq, not_true_eq_false, if_false]

/-- With the previous mode different from the current one, the compliant branch does not
read `m_Lambda`. -/
theorem correction_vector_reset (sqrt : F → F) (app : CApplication) (dt : F)
    (c : CConstraint F) (w1 w2 : F) (x1 x2 : Vec3 F)
    (hm : app.m_Mode ≠ eModePBD) (hold : app.m_OldMode ≠ app.m_Mode) :
    CConstraint.correction_vector sqrt app dt c w1 w2 x1 x2 =
      CConstraint.correction_vector sqrt app dt { c with m_Lambda := 0 } w1 w2 x1 x2 := by
  unfold CConstraint.correction_vector
  simp only [if_pos hm, if_pos hold]

end SolveLemmas

section SolveExplicit

variable {F : Type} [LinearOrderedField F]

/-- The finite result of `SolvePair` in a compliant mode, all three denominators non-zero. -/
theorem SolvePair_xpbd (sqrt : F → F) (app : CApplication) (dt : F) (c : CConstraint F)
    (p1 p2 : CParticle F) (mc : F)
    (hsum : p1.m_InvMass + p2.m_InvMass ≠ 0)
    (hm : app.m_Mode ≠ eModePBD) (hmc : MODE_COMPLIANCE app.m_Mode = some mc)
    (hdt : dt ≠ 0)
    (h1 : p1.m_InvMass + p2.m_InvMass + mc / (dt * dt) ≠ 0)
    (h2 : glm.length sqrt (Vec3.sub p1.m_Position p2.m_Position) + FLT_EPSILON ≠ 0) :
    CConstraint.SolvePair sqrt app dt c p1 p2 =
      some
        ({ c with
            m_Compliance := mc / (dt * dt)
            m_Lambda := (if app.m_OldMode ≠ app.m_Mode then 0 else c.m_Lambda)
              + (-(glm.length sqrt (Vec3.sub p1.m_Position p2.m_Position) - c.m_RestLength)
                  - mc / (dt * dt) * (if app.m_OldMode ≠ app.m_Mode then 0 else c.m_Lambda))
                / (p1.m_InvMass + p2.m_InvMass + mc / (dt * dt)) },
          p1.AddPosition (Vec3.smul p1.m_InvMass
            (Vec3.mulS (Vec3.smul
              ((-(glm.length sqrt (Vec3.sub p1.m_Position p2.m_Position) - c.m_RestLength)
                  - mc / (dt * dt) * (if app.m_OldMode ≠ app.m_Mode then 0 else c.m_Lambda))
                / (p1.m_InvMass + p2.m_InvMass + mc / (dt * dt)))
              (Vec3.sub p1.m_Position p2.m_Position))
              (1 / (glm.length sqrt (Vec3.sub p1.m_Position p2.m_Position) + FLT_EPSILON))))
            true,
          p2.AddPosition (Vec3.smul (-p2.m_InvMass)
            (Vec3.mulS (Vec3.smul
              ((-(glm.length sqrt (Vec3.sub p1.m_Position p2.m_Position) - c.m_RestLength)
                  - mc / (dt * dt) * (if app.m_OldMode ≠ app.m_Mode then 0 else c.m_Lambda))
                / (p1.m_InvMass + p2.m_InvMass + mc / (dt * dt)))
              (Vec3.sub p1.m_Position p2.m_Position))
              (1 / (glm.length sqrt (Vec3.sub p1.m_Position p2.m_Position) + FLT_EPSILON))))
            true) := by
  unfold CConstraint.SolvePair
  simp only [if_neg hsum]
  rw [correction_vector_xpbd sqrt app dt c _ _ _ _ mc hm hmc, fdiv_of_ne _ (mul_ne_zero hdt hdt)]
  simp only [Option.some_bind]
  rw [fdiv_of_ne _ h1]
  simp only [Option.some_bind]
  rw [Vec3.divS_of_ne _ h2]
  simp only [Option.map_some', Vec3.mulS, Vec3.smul, mul_one_div]

end SolveExplicit

/-! ### The key handler `special` -/

/-- One key event keeps the previous mode different from the current mode. -/
theorem special_oldMode_ne (app : CApplication) (key : Int)
    (h : app.m_OldMode ≠ app.m_Mode) :
    (special app key).m_OldMode ≠ (special app key).m_Mode := by
  unfold special
  simp only [eModePBD, eModeMax]
  split_ifs <;> simp <;> first | exact h | omega

/-- After any key events the previous mode still differs from the current mode. -/
theorem specialKeys_oldMode_ne (keys : List Int) (app : CApplication)
    (h : app.m_OldMode ≠ app.m_Mode) :
    (specialKeys app keys).m_OldMode ≠ (specialKeys app keys).m_Mode := by
  induction keys generalizing app with
  | nil => exact h
  | cons k ks ih => exact ih (special app k) (special_oldMode_ne app k h)

/-- In every application state reached from the constructor by key events the previous mode
differs from the current mode. -/
theorem reachable_oldMode_ne (keys : List Int) :
    (specialKeys CApplication.new keys).m_OldMode
      ≠ (specialKeys CApplication.new keys).m_Mode :=
  specialKeys_oldMode_ne keys CApplication.new (by decide)

/-- The real square root is a square root in the sense of `IsSqrt`. -/
theorem IsSqrt_real : IsSqrt Real.sqrt :=
  fun x hx => ⟨Real.sqrt_nonneg x, Real.mul_self_sqrt hx⟩

section C2

/-- C2 (the code at the failing input): after seven RIGHT keys (mode Fat, previous mode Muscle)
and with `dt = 1/100` (so `α̃ = 1`), two consecutive `Solve` calls on one constraint between a
free particle (inverse mass 1) and a pinned one.  The first leaves `m_Lambda = λ₁ = −1/2`.  The
second resets it: it leaves `m_Lambda = −C / (wSum + α̃)`, the `dLambda` computed from
`m_Lambda = 0`, which is not `λ₁ + (−C − α̃·λ₁) / (wSum + α̃)`. -/
theorem Solve_second_call_resets_lambda :
    ∃ (c1 c2 : CConstraint ℝ) (q1 q2 r1 r2 : CParticle ℝ),
      CConstraint.SolvePair Real.sqrt
          (specialKeys CApplication.new (List.replicate 7 GLUT_KEY_RIGHT)) (1 / 100)
          ⟨1, 0, 1, 1 / 10, 0, 0⟩
          (CParticle.new 1 ⟨2, 0, 0⟩ ⟨0, 0, 0⟩) (CParticle.new 0 ⟨0, 0, 0⟩ ⟨0, 0, 0⟩)
        = some (c1, q1, q2)
      ∧ CConstraint.SolvePair Real.sqrt
          (specialKeys CApplication.new (List.replicate 7 GLUT_KEY_RIGHT)) (1 / 100) c1 q1 q2
        = some (c2, r1, r2)
      ∧ q1.m_InvMass + q2.m_InvMass = 1
      ∧ c1.m_Lambda = -1 / 2
      ∧ c2.m_Compliance = 1
      ∧ c2.m_Lambda
          = -(glm.length Real.sqrt (Vec3.sub q1.m_Position q2.m_Position) - c1.m_RestLength)
              / (q1.m_InvMass + q2.m_InvMass + c2.m_Compliance)
      ∧ c2.m_Lambda
          ≠ c1.m_Lambda
            + (-(glm.length Real.sqrt (Vec3.sub q1.m_Position q2.m_Position) - c1.m_RestLength)
                - c2.m_Compliance * c1.m_Lambda)
              / (q1.m_InvMass + q2.m_InvMass + c2.m_Compliance) := by
  have hmode : (specialKeys CApplication.new (List.replicate 7 GLUT_KEY_RIGHT)).m_Mode = 7 := by
    decide
  have hold : (specialKeys CApplication.new (List.replicate 7 GLUT_KEY_RIGHT)).m_OldMode
      ≠ (specialKeys CApplication.new (List.replicate 7 GLUT_KEY_RIGHT)).m_Mode := by decide
  have hm : (specialKeys CApplication.new (List.replicate 7 GLUT_KEY_RIGHT)).m_Mode
      ≠ eModePBD := by decide
  have hmc : MODE_COMPLIANCE
      (specialKeys CApplication.new (List.replicate 7 GLUT_KEY_RIGHT)).m_Mode
      = some (1 / 10000 : ℝ) := by
    rw [hmode]
    simp [ MODE_COMPLIANCE, MODE_COMPLIANCE_TABLE]
  have hlen : glm.length Real.sqrt (Vec3.sub (⟨2, 0, 0⟩ : Vec3 ℝ) ⟨0, 0, 0⟩) = 2 := by
    have : Vec3.dot (Vec3.sub (⟨2, 0, 0⟩ : Vec3 ℝ) ⟨0, 0, 0⟩)
        (Vec3.sub (⟨2, 0, 0⟩ : Vec3 ℝ) ⟨0, 0, 0⟩) = 2 * 2 := by
      simp [Vec3.dot, Vec3.sub]
    rw [glm.length, this]
    exact Real.sqrt_mul_self (by norm_num)
  have e1 := SolvePair_xpbd Real.sqrt
    (specialKeys CApplication.new (List.replicate 7 GLUT_KEY_RIGHT)) (1 / 100)
    ⟨1, 0, 1, 1 / 10, 0, 0⟩
    (CParticle.new 1 ⟨2, 0, 0⟩ ⟨0, 0, 0⟩) (CParticle.new 0 ⟨0, 0, 0⟩ ⟨0, 0, 0⟩) (1 / 10000)
    (by norm_num [CParticle.new]) hm hmc (by norm_num) (by norm_num [CParticle.new])
    (by
      have := length_nonneg IsSqrt_real
        (Vec3.sub (CParticle.new (1 : ℝ) ⟨2, 0, 0⟩ ⟨0, 0, 0⟩).m_Position
          (CParticle.new (0 : ℝ) ⟨0, 0, 0⟩ ⟨0, 0, 0⟩).m_Position)
      have := FLT_EPSILON_pos (F := ℝ)
      exact ne_of_gt (by linarith))
  have e2 := fun (c1 : CConstraint ℝ) (q1 q2 : CParticle ℝ)
      (hq : q1.m_InvMass + q2.m_InvMass = 1) =>
    SolvePair_xpbd Real.sqrt
      (specialKeys CApplication.new (List.replicate 7 GLUT_KEY_RIGHT)) (1 / 100) c1 q1 q2
      (1 / 10000) (by rw [hq]; norm_num) hm hmc (by norm_num) (by rw [hq]; norm_num)
      (by
        have := length_nonneg IsSqrt_real (Vec3.sub q1.m_Position q2.m_Position)
        have := FLT_EPSILON_pos (F := ℝ)
        exact ne_of_gt (by linarith))
  refine ⟨_, _, _, _, _, _, e1, e2 _ _ _ ?_, ?_, ?_, ?_, ?_, ?_⟩
  · norm_num [CParticle.new, AddPosition_forced]
  · norm_num [CParticle.new, AddPosition_forced]
  · simp only [if_pos hold, CParticle.new, hlen]
    norm_num
  · norm_num
  · simp only [if_pos hold, CParticle.new, hlen, AddPosition_forced]
    norm_num
  · simp only [if_pos hold, CParticle.new, hlen, AddPosition_forced]
    norm_num
    intro h
    linarith

end C2

section C3

variable {F : Type} [LinearOrderedField F]

/-- C3: in a compliant mode, with `wSum ≠ 0`, `dt ≠ 0` and the previous mode different from the
current one, `CConstraint::Solve` behaves as though `m_Lambda` were 0: its whole outcome equals
the outcome on the same constraint with `m_Lambda = 0`; whenever it has a finite result, that
result has `m_Lambda = dLambda = −C / (wSum + α̃)` with `α̃ = MODE_COMPLIANCE[mode] / dt²`,
stores `α̃` as the working compliance, and has the two positions displaced by `±w · dLambda ·
(p1 − p2) / (dist + FLT_EPSILON)`, none of which mentions the prior `m_Lambda`; and the result
is finite for non-negative inverse masses. -/
theorem Solve_mode_switch_reset (sqrt : F → F) (app : CApplication) (dt : F)
    (c : CConstraint F) (p1 p2 : CParticle F)
    (hsum : p1.m_InvMass + p2.m_InvMass ≠ 0)
    (hmode : eModePBD < app.m_Mode ∧ app.m_Mode < eModeMax)
    (hdt : dt ≠ 0)
    (hold : app.m_OldMode ≠ app.m_Mode) :
    ∃ mc : F, MODE_COMPLIANCE app.m_Mode = some mc ∧
      CConstraint.SolvePair sqrt app dt c p1 p2
        = CConstraint.SolvePair sqrt app dt { c with m_Lambda := 0 } p1 p2
      ∧ (∀ r, CConstraint.SolvePair sqrt app dt c p1 p2 = some r →
          let d := Vec3.sub p1.m_Position p2.m_Position
          let dist := glm.length sqrt d
          let dLambda := -(dist - c.m_RestLength) / (p1.m_InvMass + p2.m_InvMass + mc / (dt * dt))
          let cv : Vec3 F := ⟨dLambda * d.x / (dist + FLT_EPSILON),
            dLambda * d.y / (dist + FLT_EPSILON), dLambda * d.z / (dist + FLT_EPSILON)⟩
          r.1.m_Lambda = dLambda
          ∧ r.1.m_Compliance = mc / (dt * dt)
          ∧ r.2.1.m_Position = Vec3.add p1.m_Position (Vec3.smul p1.m_InvMass cv)
          ∧ r.2.2.m_Position = Vec3.add p2.m_Position (Vec3.smul (-p2.m_InvMass) cv))
      ∧ (0 ≤ p1.m_InvMass → 0 ≤ p2.m_InvMass → IsSqrt sqrt →
          (CConstraint.SolvePair sqrt app dt c p1 p2).isSome = true) := by
  obtain ⟨mc, hmc, hpos⟩ := MODE_COMPLIANCE_pos (F := F) hmode.1 hmode.2
  have hm : app.m_Mode ≠ eModePBD := ne_of_gt hmode.1
  have hdd : dt * dt ≠ 0 := mul_ne_zero hdt hdt
  refine ⟨mc, hmc, ?_, ?_, ?_⟩
  · unfold CConstraint.SolvePair
    simp only [if_neg hsum]
    rw [correction_vector_reset sqrt app dt c _ _ _ _ hm hold]
  · intro r hr
    unfold CConstraint.SolvePair at hr
    simp only [if_neg hsum] at hr
    rw [correction_vector_xpbd sqrt app dt c _ _ _ _ mc hm hmc, fdiv_of_ne _ hdd] at hr
    simp only [Option.some_bind, if_pos hold, mul_zero, sub_zero, zero_add] at hr
    by_cases h1 : p1.m_InvMass + p2.m_InvMass + mc / (dt * dt) = 0
    · simp [h1, fdiv_zero] at hr
    · rw [fdiv_of_ne _ h1] at hr
      simp only [Option.some_bind] at hr
      by_cases h2 : glm.length sqrt (Vec3.sub p1.m_Position p2.m_Position) + FLT_EPSILON = 0
      · simp [Vec3.divS, h2] at hr
      · rw [Vec3.divS_of_ne _ h2] at hr
        simp only [Option.map_some', Option.some.injEq] at hr
        subst hr
        simp [AddPosition_forced, Vec3.smul]
  · intro hw1 hw2 hs
    have hα : 0 < mc / (dt * dt) := div_pos hpos (mul_self_pos.mpr hdt)
    have h1 : p1.m_InvMass + p2.m_InvMass + mc / (dt * dt) ≠ 0 := by
      have : 0 < p1.m_InvMass + p2.m_InvMass + mc / (dt * dt) := by linarith
      exact ne_of_gt this
    have h2 : glm.length sqrt (Vec3.sub p1.m_Position p2.m_Position) + FLT_EPSILON ≠ 0 := by
      have := length_nonneg hs (Vec3.sub p1.m_Position p2.m_Position)
      have := FLT_EPSILON_pos (F := F)
      exact ne_of_gt (by linarith)
    unfold CConstraint.SolvePair
    simp only [if_neg hsum]
    rw [correction_vector_xpbd sqrt app dt c _ _ _ _ mc hm hmc, fdiv_of_ne _ hdd]
    simp only [Option.some_bind]
    rw [fdiv_of_ne _ h1]
    simp only [Option.some_bind]
    rw [Vec3.divS_of_ne _ h2]
    rfl

/-- C3 after one RIGHT key (mode Concrete, previous mode PBD), prior `m_Lambda = 5`. -/
theorem Solve_mode_switch_reset_witness :
    CConstraint.SolvePair Real.sqrt (special CApplication.new GLUT_KEY_RIGHT) 1
        ⟨1, 0, 1, 1 / 10, 0, 5⟩
        (CParticle.new 1 ⟨2, 0, 0⟩ ⟨0, 0, 0⟩) (CParticle.new 0 ⟨0, 0, 0⟩ ⟨0, 0, 0⟩)
      = CConstraint.SolvePair Real.sqrt (special CApplication.new GLUT_KEY_RIGHT) 1
        ⟨1, 0, 1, 1 / 10, 0, 0⟩
        (CParticle.new 1 ⟨2, 0, 0⟩ ⟨0, 0, 0⟩) (CParticle.new 0 ⟨0, 0, 0⟩ ⟨0, 0, 0⟩)
    ∧ (CConstraint.SolvePair Real.sqrt (special CApplication.new GLUT_KEY_RIGHT) 1
        ⟨1, 0, 1, 1 / 10, 0, 5⟩
        (CParticle.new 1 ⟨2, 0, 0⟩ ⟨0, 0, 0⟩)
        (CParticle.new 0 ⟨0, 0, 0⟩ ⟨0, 0, 0⟩)).isSome = true := by
  obtain ⟨_, -, h1, -, h3⟩ := Solve_mode_switch_reset Real.sqrt
    (special CApplication.new GLUT_KEY_RIGHT) 1 ⟨1, 0, 1, 1 / 10, 0, 5⟩
    (CParticle.new 1 ⟨2, 0, 0⟩ ⟨0, 0, 0⟩) (CParticle.new 0 ⟨0, 0, 0⟩ ⟨0, 0, 0⟩)
    (by norm_num [CParticle.new]) (by decide) one_ne_zero (by decide)
  exact ⟨h1, h3 (by norm_num [CParticle.new]) (by norm_num [CParticle.new]) IsSqrt_real⟩

end C3

section C4

variable {F : Type} [LinearOrderedField F]

/-- C4: on a constraint whose two particles both have inverse mass 0, `CConstraint::Solve`
returns with the constraint (so `m_Lambda` and `m_Compliance`) and both particles unchanged and
executes no division, for every mode, previous mode, `dt` and positions; the same on any
particle vector holding the two particles. -/
theorem Solve_pinned_pair_noop (sqrt : F → F) (app : CApplication) (dt : F)
    (c : CConstraint F) (p1 p2 : CParticle F)
    (h1 : p1.m_InvMass = 0) (h2 : p2.m_InvMass = 0) :
    CConstraint.SolvePair sqrt app dt c p1 p2 = some (c, p1, p2)
    ∧ CConstraint.SolveDivisors sqrt app dt c p1 p2 = []
    ∧ ∀ ps : List (CParticle F), ps[c.m_Particle1]? = some p1 → ps[c.m_Particle2]? = some p2 →
        CConstraint.Solve sqrt app dt c ps = some (c, ps) := by
  refine ⟨?_, ?_, ?_⟩
  · simp [CConstraint.SolvePair, h1, h2]
  · simp [CConstraint.SolveDivisors, h1, h2]
  · intro ps hp1 hp2
    simp [CConstraint.Solve, hp1, hp2, h1, h2]

/-- C4 at two coincident pinned particles, a compliant mode and `dt = 0`. -/
theorem Solve_pinned_pair_noop_witness :
    CConstraint.SolvePair (fun x : ℚ => x) (special CApplication.new GLUT_KEY_RIGHT) 0
        ⟨1, 0, 1, 1 / 10, 0, 5⟩
        (CParticle.new 0 ⟨3, 3, 3⟩ ⟨0, -98 / 10, 0⟩) (CParticle.new 0 ⟨3, 3, 3⟩ ⟨0, -98 / 10, 0⟩)
      = some (⟨1, 0, 1, 1 / 10, 0, 5⟩,
          CParticle.new 0 ⟨3, 3, 3⟩ ⟨0, -98 / 10, 0⟩, CParticle.new 0 ⟨3, 3, 3⟩ ⟨0, -98 / 10, 0⟩) :=
  (Solve_pinned_pair_noop _ _ _ _ _ _ rfl rfl).1

end C4

/-! ### Plain PBD: one call and repeated calls -/

section PBD

variable {F : Type} [LinearOrderedField F]

theorem sqrt_zero_of_isSqrt {sqrt : F → F} (hs : IsSqrt sqrt) : sqrt 0 = 0 := by
  have := sqrt_mul_self hs (le_refl (0 : F))
  simpa using this

/-- The length of a vector scaled by a non-negative factor. -/
theorem length_smul_of_nonneg {sqrt : F → F} (hs : IsSqrt sqrt) {k : F} (hk : 0 ≤ k)
    (v : Vec3 F) : glm.length sqrt (Vec3.smul k v) = k * glm.length sqrt v := by
  have h : Vec3.dot (Vec3.smul k v) (Vec3.smul k v)
      = (k * glm.length sqrt v) * (k * glm.length sqrt v) := by
    have := length_mul_self hs v
    calc Vec3.dot (Vec3.smul k v) (Vec3.smul k v) = k * k * Vec3.dot v v := by
          simp only [Vec3.dot, Vec3.smul]; ring
      _ = (k * glm.length sqrt v) * (k * glm.length sqrt v) := by rw [← this]; ring
  rw [glm.length, h]
  exact sqrt_mul_self hs (mul_nonneg hk (length_nonneg hs v))

/-- The value of `glm::normalize` on a vector of non-zero length. -/
theorem normalize_of_ne (sqrt : F → F) (v : Vec3 F) (h : glm.length sqrt v ≠ 0) :
    glm.normalize sqrt v = some (Vec3.mulS v (1 / glm.length sqrt v)) := by
  unfold glm.normalize glm.inversesqrt
  rw [fdiv_of_ne _ (show sqrt (Vec3.dot v v) ≠ 0 from h)]
  rfl

/-- The finite result of `SolvePair` in plain-PBD mode, both denominators non-zero. -/
theorem SolvePair_pbd (sqrt : F → F) (app : CApplication) (dt : F) (c : CConstraint F)
    (p1 p2 : CParticle F)
    (hsum : p1.m_InvMass + p2.m_InvMass ≠ 0)
    (hm : app.m_Mode = eModePBD)
    (hlen : glm.length sqrt (Vec3.sub p1.m_Position p2.m_Position) ≠ 0) :
    CConstraint.SolvePair sqrt app dt c p1 p2 =
      some
        (c,
          p1.AddPosition (Vec3.smul p1.m_InvMass
            (Vec3.mulS
              (Vec3.mulS
                (Vec3.smul c.m_Stiffness
                  (Vec3.mulS (Vec3.sub p1.m_Position p2.m_Position)
                    (1 / glm.length sqrt (Vec3.sub p1.m_Position p2.m_Position))))
                (-(glm.length sqrt (Vec3.sub p1.m_Position p2.m_Position) - c.m_RestLength)))
              (1 / (p1.m_InvMass + p2.m_InvMass)))) true,
          p2.AddPosition (Vec3.smul (-p2.m_InvMass)
            (Vec3.mulS
              (Vec3.mulS
                (Vec3.smul c.m_Stiffness
                  (Vec3.mulS (Vec3.sub p1.m_Position p2.m_Position)
                    (1 / glm.length sqrt (Vec3.sub p1.m_Position p2.m_Position))))
                (-(glm.length sqrt (Vec3.sub p1.m_Position p2.m_Position) - c.m_RestLength)))
              (1 / (p1.m_InvMass + p2.m_InvMass)))) true) := by
  unfold CConstraint.SolvePair
  simp only [if_neg hsum]
  rw [correction_vector_pbd sqrt app dt c _ _ _ _ hm, normalize_of_ne sqrt _ hlen]
  simp only [Option.some_bind]
  rw [Vec3.divS_of_ne _ hsum]
  simp only [Option.map_some', Vec3.mulS, Vec3.smul, mul_one_div]

/-- One plain-PBD `Solve` multiplies the constraint error by `1 − m_Stiffness`, whatever the
split of `wSum` between the two particles. -/
theorem SolvePair_pbd_constraint {sqrt : F → F} (hs : IsSqrt sqrt) (app : CApplication)
    (dt : F) (c : CConstraint F) (p1 p2 : CParticle F)
    (hsum : p1.m_InvMass + p2.m_InvMass ≠ 0)
    (hm : app.m_Mode = eModePBD)
    (hpos : p1.m_Position ≠ p2.m_Position)
    (hL : 0 ≤ c.m_RestLength) (hs0 : 0 ≤ c.m_Stiffness) (hs1 : c.m_Stiffness ≤ 1) :
    ∃ q1 q2 : CParticle F,
      CConstraint.SolvePair sqrt app dt c p1 p2 = some (c, q1, q2)
      ∧ q1.m_InvMass = p1.m_InvMass ∧ q2.m_InvMass = p2.m_InvMass
      ∧ (p1.m_InvMass = 0 → q1 = p1) ∧ (p2.m_InvMass = 0 → q2 = p2)
      ∧ (∃ t : F,
          q1.m_Position = Vec3.add p1.m_Position
            (Vec3.smul (p1.m_InvMass * t) (Vec3.sub p1.m_Position p2.m_Position))
          ∧ q2.m_Position = Vec3.add p2.m_Position
            (Vec3.smul (-(p2.m_InvMass * t)) (Vec3.sub p1.m_Position p2.m_Position)))
      ∧ glm.length sqrt (Vec3.sub q1.m_Position q2.m_Position)
          = (1 - c.m_Stiffness) * glm.length sqrt (Vec3.sub p1.m_Position p2.m_Position)
            + c.m_Stiffness * c.m_RestLength
      ∧ CConstraint.constraint sqrt c q1 q2
          = (1 - c.m_Stiffness) * CConstraint.constraint sqrt c p1 p2 := by
  have hd : Vec3.sub p1.m_Position p2.m_Position ≠ ⟨0, 0, 0⟩ := fun h =>
    hpos ((Vec3.sub_eq_zero_iff _ _).mp h)
  have hlen := length_pos hs hd
  have hlen0 : glm.length sqrt (Vec3.sub p1.m_Position p2.m_Position) ≠ 0 := ne_of_gt hlen
  set d := Vec3.sub p1.m_Position p2.m_Position with hd_def
  set len := glm.length sqrt d with hlen_def
  have hk : 0 ≤ ((1 - c.m_Stiffness) * len + c.m_Stiffness * c.m_RestLength) / len := by
    apply div_nonneg _ hlen.le
    have h1 : 0 ≤ (1 - c.m_Stiffness) * len := mul_nonneg (by linarith) hlen.le
    have h2 : 0 ≤ c.m_Stiffness * c.m_RestLength := mul_nonneg hs0 hL
    linarith
  have hres := SolvePair_pbd sqrt app dt c p1 p2 hsum hm hlen0
  rw [← hd_def, ← hlen_def] at hres
  refine ⟨_, _, hres, ?_, ?_, ?_, ?_, ?_, ?_⟩
  · simp [AddPosition_forced]
  · simp [AddPosition_forced]
  · intro h0
    rw [h0]
    have : Vec3.smul (0 : F) (Vec3.mulS (Vec3.mulS (Vec3.smul c.m_Stiffness
        (Vec3.mulS d (1 / len))) (-(len - c.m_RestLength))) (1 / (0 + p2.m_InvMass)))
        = ⟨0, 0, 0⟩ := by
      simp [Vec3.smul]
    rw [this, AddPosition_zero]
  · intro h0
    rw [h0]
    have : Vec3.smul (-(0 : F)) (Vec3.mulS (Vec3.mulS (Vec3.smul c.m_Stiffness
        (Vec3.mulS d (1 / len))) (-(len - c.m_RestLength))) (1 / (p1.m_InvMass + 0)))
        = ⟨0, 0, 0⟩ := by
      simp [Vec3.smul]
    rw [this, AddPosition_zero]
  · refine ⟨c.m_Stiffness * (1 / len) * (-(len - c.m_RestLength))
      * (1 / (p1.m_InvMass + p2.m_InvMass)), ?_, ?_⟩
    · simp only [AddPosition_forced, Vec3.smul, Vec3.mulS, Vec3.add]
      ext <;> simp <;> ring
    · simp only [AddPosition_forced, Vec3.smul, Vec3.mulS, Vec3.add]
      ext <;> simp <;> ring
  · have hsub : Vec3.sub
        (p1.AddPosition (Vec3.smul p1.m_InvMass (Vec3.mulS (Vec3.mulS (Vec3.smul c.m_Stiffness
          (Vec3.mulS d (1 / len))) (-(len - c.m_RestLength)))
          (1 / (p1.m_InvMass + p2.m_InvMass)))) true).m_Position
        (p2.AddPosition (Vec3.smul (-p2.m_InvMass) (Vec3.mulS (Vec3.mulS (Vec3.smul c.m_Stiffness
          (Vec3.mulS d (1 / len))) (-(len - c.m_RestLength)))
          (1 / (p1.m_InvMass + p2.m_InvMass)))) true).m_Position
        = Vec3.smul (((1 - c.m_Stiffness) * len + c.m_Stiffness * c.m_RestLength) / len) d := by
      have hx : d.x = p1.m_Position.x - p2.m_Position.x := rfl
      have hy : d.y = p1.m_Position.y - p2.m_Position.y := rfl
      have hz : d.z = p1.m_Position.z - p2.m_Position.z := rfl
      simp only [AddPosition_forced, Vec3.smul, Vec3.mulS, Vec3.add, Vec3.sub]
      ext
      · simp only [hx]; field_simp; ring
      · simp only [hy]; field_simp; ring
      · simp only [hz]; field_simp; ring
    have hlen' : glm.length sqrt (Vec3.sub
        (p1.AddPosition (Vec3.smul p1.m_InvMass (Vec3.mulS (Vec3.mulS (Vec3.smul c.m_Stiffness
          (Vec3.mulS d (1 / len))) (-(len - c.m_RestLength)))
          (1 / (p1.m_InvMass + p2.m_InvMass)))) true).m_Position
        (p2.AddPosition (Vec3.smul (-p2.m_InvMass) (Vec3.mulS (Vec3.mulS (Vec3.smul c.m_Stiffness
          (Vec3.mulS d (1 / len))) (-(len - c.m_RestLength)))
          (1 / (p1.m_InvMass + p2.m_InvMass)))) true).m_Position)
        = (1 - c.m_Stiffness) * len + c.m_Stiffness * c.m_RestLength := by
      rw [hsub, length_smul_of_nonneg hs hk d, ← hlen_def]
      field_simp
    refine ⟨hlen', ?_⟩
    unfold CConstraint.constraint
    rw [hlen', ← hd_def, ← hlen_def]
    ring

end PBD

section PBDIter

variable {F : Type} [LinearOrderedField F]

/-- Repeated plain-PBD `Solve` calls with `m_Stiffness < 1`: every call has a finite result and
the constraint error after `n` calls is `(1 − m_Stiffness)^n` times the initial one. -/
theorem SolvePairN_pbd_constraint {sqrt : F → F} (hs : IsSqrt sqrt) (app : CApplication)
    (dt : F) (c : CConstraint F) (hm : app.m_Mode = eModePBD)
    (hL : 0 ≤ c.m_RestLength) (hs0 : 0 ≤ c.m_Stiffness) (hs1 : c.m_Stiffness < 1) (n : Nat) :
    ∀ p1 p2 : CParticle F, p1.m_InvMass + p2.m_InvMass ≠ 0 → p1.m_Position ≠ p2.m_Position →
      ∃ q1 q2 : CParticle F,
        CConstraint.SolvePairN sqrt app dt n (c, p1, p2) = some (c, q1, q2)
        ∧ (p1.m_InvMass = 0 → q1 = p1) ∧ (p2.m_InvMass = 0 → q2 = p2)
        ∧ CConstraint.constraint sqrt c q1 q2
            = (1 - c.m_Stiffness) ^ n * CConstraint.constraint sqrt c p1 p2 := by
  induction n with
  | zero =>
    intro p1 p2 _ _
    exact ⟨p1, p2, rfl, fun _ => rfl, fun _ => rfl, by simp⟩
  | succ n ih =>
    intro p1 p2 hsum hpos
    obtain ⟨q1, q2, hq, hw1, hw2, hp1, hp2, -, hlen, hC⟩ :=
      SolvePair_pbd_constraint hs app dt c p1 p2 hsum hm hpos hL hs0 hs1.le
    have hd : Vec3.sub p1.m_Position p2.m_Position ≠ ⟨0, 0, 0⟩ := fun h =>
      hpos ((Vec3.sub_eq_zero_iff _ _).mp h)
    have hl := length_pos hs hd
    have hpos' : q1.m_Position ≠ q2.m_Position := by
      intro h
      have h0 : glm.length sqrt (Vec3.sub q1.m_Position q2.m_Position) = 0 := by
        rw [(Vec3.sub_eq_zero_iff _ _).mpr h]
        simp only [glm.length, Vec3.dot, mul_zero, add_zero]
        exact sqrt_zero_of_isSqrt hs
      rw [h0] at hlen
      have h1 : 0 < (1 - c.m_Stiffness) * glm.length sqrt (Vec3.sub p1.m_Position p2.m_Position) :=
        mul_pos (by linarith) hl
      have h2 : 0 ≤ c.m_Stiffness * c.m_RestLength := mul_nonneg hs0 hL
      linarith
    obtain ⟨r1, r2, hr, hq1, hq2, hC'⟩ := ih q1 q2 (by rw [hw1, hw2]; exact hsum) hpos'
    refine ⟨r1, r2, ?_, ?_, ?_, ?_⟩
    · simp only [CConstraint.SolvePairN, hq, Option.some_bind]
      exact hr
    · intro h
      rw [hq1 (by rw [hw1]; exact h), hp1 h]
    · intro h
      rw [hq2 (by rw [hw2]; exact h), hp2 h]
    · rw [hC', hC, pow_succ]
      ring

end PBDIter

section C7

variable {F : Type} [LinearOrderedField F]

/-- C7: for one constraint between a free particle (inverse mass 1) and a pinned one (inverse
mass 0) at positive separation, with rest length ≥ 0 and stiffness in [0, 1], one plain-PBD
`Solve` call has a finite result that leaves the constraint and the pinned particle unchanged,
moves the free particle along the line through the two, and multiplies the constraint error
`distance − restLength` by `1 − stiffness`; so with stiffness 1 the distance is the rest length
after one call.  With stiffness < 1 (the constructor assigns 1/10) every one of `n` consecutive
calls has a finite result and the error after them is `(1 − stiffness)^n` times the initial
error, which for stiffness > 0 converges to 0. -/
theorem Solve_pbd_convergence [Archimedean F] (sqrt : F → F) (hs : IsSqrt sqrt)
    (app : CApplication) (dt : F) (c : CConstraint F) (p1 p2 : CParticle F)
    (hm : app.m_Mode = eModePBD)
    (hpin : (p1.m_InvMass = 1 ∧ p2.m_InvMass = 0) ∨ (p1.m_InvMass = 0 ∧ p2.m_InvMass = 1))
    (hpos : p1.m_Position ≠ p2.m_Position)
    (hL : 0 ≤ c.m_RestLength) (hs0 : 0 ≤ c.m_Stiffness) (hs1 : c.m_Stiffness ≤ 1) :
    (∃ q1 q2 : CParticle F,
        CConstraint.SolvePair sqrt app dt c p1 p2 = some (c, q1, q2)
        ∧ (p1.m_InvMass = 0 → q1 = p1) ∧ (p2.m_InvMass = 0 → q2 = p2)
        ∧ (∃ t : F,
            q1.m_Position = Vec3.add p1.m_Position
              (Vec3.smul (p1.m_InvMass * t) (Vec3.sub p1.m_Position p2.m_Position))
            ∧ q2.m_Position = Vec3.add p2.m_Position
              (Vec3.smul (-(p2.m_InvMass * t)) (Vec3.sub p1.m_Position p2.m_Position)))
        ∧ CConstraint.constraint sqrt c q1 q2
            = (1 - c.m_Stiffness) * CConstraint.constraint sqrt c p1 p2
        ∧ (c.m_Stiffness = 1 →
            glm.length sqrt (Vec3.sub q1.m_Position q2.m_Position) = c.m_RestLength))
    ∧ (c.m_Stiffness < 1 → ∀ n : Nat, ∃ q1 q2 : CParticle F,
        CConstraint.SolvePairN sqrt app dt n (c, p1, p2) = some (c, q1, q2)
        ∧ (p1.m_InvMass = 0 → q1 = p1) ∧ (p2.m_InvMass = 0 → q2 = p2)
        ∧ CConstraint.constraint sqrt c q1 q2
            = (1 - c.m_Stiffness) ^ n * CConstraint.constraint sqrt c p1 p2)
    ∧ (0 < c.m_Stiffness → c.m_Stiffness < 1 → ∀ ε : F, 0 < ε → ∃ N : Nat, ∀ n : Nat, N ≤ n →
        ∃ q1 q2 : CParticle F,
          CConstraint.SolvePairN sqrt app dt n (c, p1, p2) = some (c, q1, q2)
          ∧ |CConstraint.constraint sqrt c q1 q2| < ε) := by
  have hsum : p1.m_InvMass + p2.m_InvMass ≠ 0 := by
    rcases hpin with ⟨h1, h2⟩ | ⟨h1, h2⟩ <;> rw [h1, h2] <;> norm_num
  refine ⟨?_, ?_, ?_⟩
  · obtain ⟨q1, q2, hq, -, -, hp1, hp2, ht, hlen, hC⟩ :=
      SolvePair_pbd_constraint hs app dt c p1 p2 hsum hm hpos hL hs0 hs1
    refine ⟨q1, q2, hq, hp1, hp2, ht, hC, ?_⟩
    intro h1
    rw [hlen, h1]
    ring
  · intro hlt n
    exact SolvePairN_pbd_constraint hs app dt c hm hL hs0 hlt n p1 p2 hsum hpos
  · intro h0 hlt ε hε
    have hr0 : 0 ≤ 1 - c.m_Stiffness := by linarith
    have hr1 : 1 - c.m_Stiffness < 1 := by linarith
    have hden : 0 < |CConstraint.constraint sqrt c p1 p2| + 1 := by positivity
    obtain ⟨N, hN⟩ := exists_pow_lt_of_lt_one (div_pos hε hden) hr1
    refine ⟨N, fun n hn => ?_⟩
    obtain ⟨q1, q2, hq, -, -, hC⟩ :=
      SolvePairN_pbd_constraint hs app dt c hm hL hs0 hlt n p1 p2 hsum hpos
    refine ⟨q1, q2, hq, ?_⟩
    rw [hC, abs_mul, abs_of_nonneg (pow_nonneg hr0 n)]
    have hle : (1 - c.m_Stiffness) ^ n ≤ (1 - c.m_Stiffness) ^ N :=
      pow_le_pow_of_le_one hr0 hr1.le hn
    have hlt' : (1 - c.m_Stiffness) ^ n < ε / (|CConstraint.constraint sqrt c p1 p2| + 1) :=
      lt_of_le_of_lt hle hN
    calc (1 - c.m_Stiffness) ^ n * |CConstraint.constraint sqrt c p1 p2|
        ≤ (1 - c.m_Stiffness) ^ n * (|CConstraint.constraint sqrt c p1 p2| + 1) := by
          apply mul_le_mul_of_nonneg_left _ (pow_nonneg hr0 n)
          linarith
      _ < ε / (|CConstraint.constraint sqrt c p1 p2| + 1)
            * (|CConstraint.constraint sqrt c p1 p2| + 1) :=
          mul_lt_mul_of_pos_right hlt' hden
      _ = ε := by field_simp

/-- C7 at a free particle at distance 5 from a pinned one, rest length 1, stiffness 1/10, three
calls. -/
theorem Solve_pbd_convergence_witness :
    ∃ q1 q2 : CParticle ℝ,
      CConstraint.SolvePairN Real.sqrt CApplication.new (1 / 60) 3
          (⟨1, 0, 1, 1 / 10, 0, 0⟩,
            CParticle.new 1 ⟨3, 4, 0⟩ ⟨0, 0, 0⟩, CParticle.new 0 ⟨0, 0, 0⟩ ⟨0, 0, 0⟩)
        = some (⟨1, 0, 1, 1 / 10, 0, 0⟩, q1, q2)
      ∧ CConstraint.constraint Real.sqrt ⟨1, 0, 1, 1 / 10, 0, 0⟩ q1 q2
          = (1 - 1 / 10) ^ 3
            * CConstraint.constraint Real.sqrt ⟨1, 0, 1, 1 / 10, 0, 0⟩
                (CParticle.new 1 ⟨3, 4, 0⟩ ⟨0, 0, 0⟩) (CParticle.new 0 ⟨0, 0, 0⟩ ⟨0, 0, 0⟩) := by
  obtain ⟨q1, q2, h1, -, -, h2⟩ :=
    (Solve_pbd_convergence Real.sqrt IsSqrt_real CApplication.new (1 / 60)
      ⟨1, 0, 1, 1 / 10, 0, 0⟩
      (CParticle.new 1 ⟨3, 4, 0⟩ ⟨0, 0, 0⟩) (CParticle.new 0 ⟨0, 0, 0⟩ ⟨0, 0, 0⟩)
      (by decide) (Or.inl ⟨rfl, rfl⟩) (by norm_num [CParticle.new])
      (by norm_num) (by norm_num) (by norm_num)).2.1 (by norm_num) 3
  exact ⟨q1, q2, h1, h2⟩

end C7

/-! ### The rest-length property -/

section C6

variable {F : Type} [LinearOrderedField F]

/-- The rest-length solve, as long as `wSum + α̃` is not zero in a compliant mode. -/
theorem SolvePair_new_of_ne {sqrt : F → F} (hs : IsSqrt sqrt) (app : CApplication) (dt : F)
    (i0 i1 : Nat) (p1 p2 : CParticle F)
    (hsum : p1.m_InvMass + p2.m_InvMass ≠ 0)
    (hpos : p1.m_Position ≠ p2.m_Position)
    (hdt : dt ≠ 0)
    (hden : app.m_Mode = eModePBD ∨ ∃ mc : F, MODE_COMPLIANCE app.m_Mode = some mc
      ∧ p1.m_InvMass + p2.m_InvMass + mc / (dt * dt) ≠ 0) :
    ∃ c' : CConstraint F,
      CConstraint.SolvePair sqrt app dt (CConstraint.new sqrt i0 i1 p1 p2) p1 p2
        = some (c', p1, p2)
      ∧ c'.m_Lambda = 0
      ∧ c'.m_RestLength = glm.length sqrt (Vec3.sub p2.m_Position p1.m_Position) := by
  have hC : glm.length sqrt (Vec3.sub p1.m_Position p2.m_Position)
      - (CConstraint.new sqrt i0 i1 p1 p2).m_RestLength = 0 := by
    simp only [CConstraint.new]
    rw [length_sub_comm sqrt p1.m_Position p2.m_Position, sub_self]
  have hd : Vec3.sub p1.m_Position p2.m_Position ≠ ⟨0, 0, 0⟩ := by
    intro h
    exact hpos ((Vec3.sub_eq_zero_iff _ _).mp h)
  have hlen := length_pos hs hd
  unfold CConstraint.SolvePair
  simp only [if_neg hsum]
  by_cases hm : app.m_Mode = eModePBD
  · rw [correction_vector_pbd sqrt app dt _ _ _ _ _ hm, hC,
      normalize_of_ne sqrt _ (ne_of_gt hlen)]
    simp only [Option.some_bind]
    rw [Vec3.divS_of_ne _ hsum]
    simp only [Option.map_some', Vec3.mulS, Vec3.smul, neg_zero, mul_zero, zero_div,
      AddPosition_zero]
    exact ⟨_, rfl, rfl, rfl⟩
  · rcases hden with hden | ⟨mc, hmc, h1⟩
    · exact absurd hden hm
    · have h2 : glm.length sqrt (Vec3.sub p1.m_Position p2.m_Position) + FLT_EPSILON ≠ 0 := by
        have := FLT_EPSILON_pos (F := F)
        exact ne_of_gt (by linarith)
      rw [correction_vector_xpbd sqrt app dt _ _ _ _ _ mc hm hmc, hC,
        fdiv_of_ne _ (mul_ne_zero hdt hdt)]
      simp only [Option.some_bind]
      rw [fdiv_of_ne _ h1]
      simp only [Option.some_bind]
      rw [Vec3.divS_of_ne _ h2]
      simp only [Option.map_some', Vec3.smul, CConstraint.new, ite_self, neg_zero, mul_zero,
        sub_zero, zero_div, zero_mul, AddPosition_zero, add_zero]
      exact ⟨_, rfl, rfl, rfl⟩

/-- C6: a constraint freshly constructed on two particles at distinct positions with
`wSum ≠ 0` (rest length their distance, `m_Lambda = 0`) and solved at once, in plain-PBD or any
compliant mode with `dt ≠ 0`: every finite result of `Solve` has both particles unchanged and
`m_Lambda = 0`, and for non-negative inverse masses the result is finite. -/
theorem Solve_rest_length (sqrt : F → F) (hs : IsSqrt sqrt) (app : CApplication) (dt : F)
    (i0 i1 : Nat) (p1 p2 : CParticle F)
    (hsum : p1.m_InvMass + p2.m_InvMass ≠ 0)
    (hpos : p1.m_Position ≠ p2.m_Position)
    (hdt : dt ≠ 0)
    (hmode : eModePBD ≤ app.m_Mode ∧ app.m_Mode < eModeMax) :
    (∀ r, CConstraint.SolvePair sqrt app dt (CConstraint.new sqrt i0 i1 p1 p2) p1 p2 = some r →
        r.2.1 = p1 ∧ r.2.2 = p2 ∧ r.1.m_Lambda = 0)
    ∧ (0 ≤ p1.m_InvMass → 0 ≤ p2.m_InvMass →
        ∃ c' : CConstraint F,
          CConstraint.SolvePair sqrt app dt (CConstraint.new sqrt i0 i1 p1 p2) p1 p2
            = some (c', p1, p2)
          ∧ c'.m_Lambda = 0
          ∧ c'.m_RestLength = glm.length sqrt (Vec3.sub p2.m_Position p1.m_Position)) := by
  constructor
  · intro r hr
    by_cases hm : app.m_Mode = eModePBD
    · obtain ⟨c', h, hl, -⟩ :=
        SolvePair_new_of_ne hs app dt i0 i1 p1 p2 hsum hpos hdt (Or.inl hm)
      rw [h, Option.some.injEq] at hr
      rw [← hr]
      exact ⟨rfl, rfl, hl⟩
    · obtain ⟨mc, hmc, -⟩ := MODE_COMPLIANCE_pos (F := F)
        (lt_of_le_of_ne hmode.1 (Ne.symm hm)) hmode.2
      by_cases h1 : p1.m_InvMass + p2.m_InvMass + mc / (dt * dt) = 0
      · exfalso
        unfold CConstraint.SolvePair at hr
        simp only [if_neg hsum] at hr
        rw [correction_vector_xpbd sqrt app dt _ _ _ _ _ mc hm hmc,
          fdiv_of_ne _ (mul_ne_zero hdt hdt)] at hr
        simp only [Option.some_bind, h1, fdiv_zero, Option.none_bind, Option.map_none'] at hr
        exact Option.noConfusion hr
      · obtain ⟨c', h, hl, -⟩ :=
          SolvePair_new_of_ne hs app dt i0 i1 p1 p2 hsum hpos hdt (Or.inr ⟨mc, hmc, h1⟩)
        rw [h, Option.some.injEq] at hr
        rw [← hr]
        exact ⟨rfl, rfl, hl⟩
  · intro hw1 hw2
    apply SolvePair_new_of_ne hs app dt i0 i1 p1 p2 hsum hpos hdt
    by_cases hm : app.m_Mode = eModePBD
    · exact Or.inl hm
    · obtain ⟨mc, hmc, hmcpos⟩ := MODE_COMPLIANCE_pos (F := F)
        (lt_of_le_of_ne hmode.1 (Ne.symm hm)) hmode.2
      have hα : 0 < mc / (dt * dt) := div_pos hmcpos (mul_self_pos.mpr hdt)
      exact Or.inr ⟨mc, hmc, ne_of_gt (by linarith)⟩

/-- C6 at a 3-4-5 pair in the constructor's application state (plain PBD). -/
theorem Solve_rest_length_witness :
    ∃ c' : CConstraint ℝ,
      CConstraint.SolvePair Real.sqrt CApplication.new (1 / 60)
          (CConstraint.new Real.sqrt 0 1
            (CParticle.new (1 / 10) ⟨0, 0, 0⟩ ⟨0, -98 / 10, 0⟩)
            (CParticle.new 0 ⟨3, 4, 0⟩ ⟨0, -98 / 10, 0⟩))
          (CParticle.new (1 / 10) ⟨0, 0, 0⟩ ⟨0, -98 / 10, 0⟩)
          (CParticle.new 0 ⟨3, 4, 0⟩ ⟨0, -98 / 10, 0⟩)
        = some (c', CParticle.new (1 / 10) ⟨0, 0, 0⟩ ⟨0, -98 / 10, 0⟩,
            CParticle.new 0 ⟨3, 4, 0⟩ ⟨0, -98 / 10, 0⟩)
      ∧ c'.m_Lambda = 0 := by
  obtain ⟨c', h1, h2, -⟩ := (Solve_rest_length Real.sqrt IsSqrt_real CApplication.new (1 / 60) 0 1
    (CParticle.new (1 / 10) ⟨0, 0, 0⟩ ⟨0, -98 / 10, 0⟩)
    (CParticle.new 0 ⟨3, 4, 0⟩ ⟨0, -98 / 10, 0⟩)
    (by norm_num [CParticle.new]) (by norm_num [CParticle.new]) (by norm_num) (by decide)).2
    (by norm_num [CParticle.new]) (by norm_num [CParticle.new])
  exact ⟨c', h1, h2⟩

end C6

/-! ### The `CCloth` constructor: topology and size -/

section Topology

open CCloth

/-- The number of `i < n` with `i < m`. -/
theorem sum_range_lt (n : Nat) (m : Int) :
    ((List.range n).map fun i : Nat => if (i : Int) < m then 1 else 0).sum = min n m.toNat := by
  induction n with
  | zero => simp
  | succ n ih =>
    rw [List.sum_range_succ, ih]
    split_ifs with h <;> omega

/-- A sum over a loop range of a term that does not depend on the loop variable. -/
theorem sum_range_const (n c : Nat) :
    ((List.range n).map fun _ : Nat => c).sum = n * c := by
  induction n with
  | zero => simp
  | succ n ih => rw [List.sum_range_succ, ih]; ring

theorem sum_range_add (n : Nat) (f g : Nat → Nat) :
    ((List.range n).map fun i => f i + g i).sum
      = ((List.range n).map f).sum + ((List.range n).map g).sum := by
  induction n with
  | zero => simp
  | succ n ih => rw [List.sum_range_succ, List.sum_range_succ, List.sum_range_succ, ih]; ring

theorem sum_range_mul_left (n c : Nat) (f : Nat → Nat) :
    ((List.range n).map fun i => c * f i).sum = c * ((List.range n).map f).sum := by
  induction n with
  | zero => simp
  | succ n ih => rw [List.sum_range_succ, List.sum_range_succ, ih]; ring

theorem sum_range_mul_right (n c : Nat) (f : Nat → Nat) :
    ((List.range n).map fun i => f i * c).sum = ((List.range n).map f).sum * c := by
  induction n with
  | zero => simp
  | succ n ih => rw [List.sum_range_succ, List.sum_range_succ, ih]; ring

/-- Counting through the double loop of the constructor. -/
theorem countP_forRange_forRange (p : MakeCall → Bool) (W H : Int)
    (body : Int → Int → List MakeCall) :
    List.countP p (forRange W fun w => forRange H fun h => body w h)
      = ((List.range W.toNat).map fun w : Nat =>
          ((List.range H.toNat).map fun h : Nat =>
            List.countP p (body (w : Int) (h : Int))).sum).sum := by
  unfold forRange
  rw [List.countP_flatMap]
  congr 1
  apply List.map_congr_left
  intro w _
  simp only [Function.comp]
  rw [List.countP_flatMap]
  rfl

theorem countP_structural_cell (W H w h : Int) :
    List.countP (fun k => decide (k.kind = ConstraintKind.structural))
        (structuralShearCalls W H w h)
      = (if w < W - 1 then 1 else 0) + (if h < H - 1 then 1 else 0) := by
  unfold structuralShearCalls
  split_ifs <;> simp_all

theorem countP_shear_cell (W H w h : Int) :
    List.countP (fun k => decide (k.kind = ConstraintKind.shear))
        (structuralShearCalls W H w h)
      = 2 * ((if w < W - 1 then 1 else 0) * (if h < H - 1 then 1 else 0)) := by
  unfold structuralShearCalls
  split_ifs <;> simp_all

theorem countP_bend_cell (W H w h : Int) :
    List.countP (fun k => decide (k.kind = ConstraintKind.bend))
        (bendCalls W H w h)
      = (if w < W - 2 then 1 else 0) + (if h < H - 2 then 1 else 0)
        + 2 * ((if w < W - 2 then 1 else 0) * (if h < H - 2 then 1 else 0)) := by
  unfold bendCalls
  split_ifs <;> simp_all

theorem countP_bend_structuralShear (W H w h : Int) :
    List.countP (fun k => decide (k.kind = ConstraintKind.bend))
        (structuralShearCalls W H w h) = 0 := by
  unfold structuralShearCalls
  split_ifs <;> simp_all

theorem countP_structural_bend (W H w h : Int) :
    List.countP (fun k => decide (k.kind = ConstraintKind.structural))
        (bendCalls W H w h) = 0 := by
  unfold bendCalls
  split_ifs <;> simp_all

theorem countP_shear_bend (W H w h : Int) :
    List.countP (fun k => decide (k.kind = ConstraintKind.shear))
        (bendCalls W H w h) = 0 := by
  unfold bendCalls
  split_ifs <;> simp_all

theorem min_toNat_sub (W : Int) (k : Nat) : min W.toNat (W - k).toNat = (W - k).toNat := by
  omega

theorem count_structural (W H : Int) :
    List.countP (fun k => decide (k.kind = ConstraintKind.structural)) (makeCalls W H)
      = (W - 1).toNat * H.toNat + (H - 1).toNat * W.toNat := by
  unfold makeCalls
  rw [List.countP_append, countP_forRange_forRange, countP_forRange_forRange]
  simp only [countP_structural_cell, countP_structural_bend, sum_range_add, sum_range_const,
    sum_range_lt, mul_zero, add_zero]
  rw [sum_range_mul_left, sum_range_lt]
  have hW := min_toNat_sub W 1
  have hH := min_toNat_sub H 1
  simp only [Nat.cast_one] at hW hH
  rw [hW, hH]
  ring

theorem count_shear (W H : Int) :
    List.countP (fun k => decide (k.kind = ConstraintKind.shear)) (makeCalls W H)
      = 2 * (W - 1).toNat * (H - 1).toNat := by
  unfold makeCalls
  rw [List.countP_append, countP_forRange_forRange, countP_forRange_forRange]
  simp only [countP_shear_cell, countP_shear_bend, sum_range_const, sum_range_mul_left,
    sum_range_mul_right, sum_range_lt, mul_zero, add_zero]
  have hW := min_toNat_sub W 1
  have hH := min_toNat_sub H 1
  simp only [Nat.cast_one] at hW hH
  rw [hW, hH]
  ring

theorem count_bend (W H : Int) :
    List.countP (fun k => decide (k.kind = ConstraintKind.bend)) (makeCalls W H)
      = (W - 2).toNat * H.toNat + (H - 2).toNat * W.toNat
        + 2 * (W - 2).toNat * (H - 2).toNat := by
  unfold makeCalls
  rw [List.countP_append, countP_forRange_forRange, countP_forRange_forRange]
  simp only [countP_bend_cell, countP_bend_structuralShear, sum_range_add, sum_range_const,
    sum_range_mul_left, sum_range_mul_right, sum_range_lt, mul_zero, zero_add]
  have hW := min_toNat_sub W 2
  have hH := min_toNat_sub H 2
  simp only [Nat.cast_ofNat] at hW hH
  rw [hW, hH]
  ring

/-- Every `MakeConstraint` call belongs to exactly one of the three rules. -/
theorem length_eq_count_kinds (l : List MakeCall) :
    l.length
      = List.countP (fun k => decide (k.kind = ConstraintKind.structural)) l
        + List.countP (fun k => decide (k.kind = ConstraintKind.shear)) l
        + List.countP (fun k => decide (k.kind = ConstraintKind.bend)) l := by
  induction l with
  | nil => rfl
  | cons k ks ih =>
    rcases k with ⟨kind, w1, h1, w2, h2⟩
    cases kind <;> simp [List.countP_cons, ih] <;> omega

end Topology

section ClothNew

open CCloth

variable {F : Type} [LinearOrderedField F]

/-- A loop whose body keeps the length of the vector keeps it. -/
theorem foldl_length_of_step {α β : Type} (f : List α → β → List α)
    (hf : ∀ l b, (f l b).length = l.length) (bs : List β) (l : List α) :
    (bs.foldl f l).length = l.length := by
  induction bs generalizing l with
  | nil => rfl
  | cons b bs ih => rw [List.foldl_cons, ih, hf]

/-- The first loop of the constructor assigns into the vector: its size stays that of `resize`. -/
theorem initialParticles_length (junk : CParticle F) (width height : F) (W H : Int) :
    (initialParticles junk width height W H).length = (W * H).toNat := by
  unfold initialParticles
  rw [foldl_length_of_step, List.length_replicate]
  intro l w
  apply foldl_length_of_step
  intro l h
  exact List.length_set _ _ _

/-- The constructor stores `num_height` in both `m_Width` and `m_Height` and owns
`num_height · num_height` particles, whatever `num_width` is. -/
theorem CCloth_new_size (junk : CParticle F) (sqrt : F → F) (width height : F)
    (num_width num_height : Int) :
    (CCloth.new junk sqrt width height num_width num_height).m_Width = num_height
    ∧ (CCloth.new junk sqrt width height num_width num_height).m_Height = num_height
    ∧ (CCloth.new junk sqrt width height num_width num_height).m_Particles.length
        = (num_height * num_height).toNat :=
  ⟨rfl, rfl, initialParticles_length junk width height num_height num_height⟩

end ClothNew

section C9

open CCloth

variable {F : Type} [LinearOrderedField F]

/-- C9: the constraint loops of the `CCloth` constructor, run on a grid of `W` columns and `H`
rows, make `(W−1)·H + (H−1)·W` structural, `2·(W−1)·(H−1)` shear and
`(W−2)·H + (H−2)·W + 2·(W−2)·(H−2)` bend constraints, every factor clamped at zero, and
nothing else; the constraint vector of the constructed cloth is the image of these calls for
the grid it stores, so its length is the sum of the three. -/
theorem CCloth_topology_counts (junk : CParticle F) (sqrt : F → F) (width height : F)
    (num_width num_height : Int) (W H : Int) :
    (List.countP (fun k => decide (k.kind = ConstraintKind.structural)) (makeCalls W H)
        = (W - 1).toNat * H.toNat + (H - 1).toNat * W.toNat
      ∧ List.countP (fun k => decide (k.kind = ConstraintKind.shear)) (makeCalls W H)
        = 2 * (W - 1).toNat * (H - 1).toNat
      ∧ List.countP (fun k => decide (k.kind = ConstraintKind.bend)) (makeCalls W H)
        = (W - 2).toNat * H.toNat + (H - 2).toNat * W.toNat
          + 2 * (W - 2).toNat * (H - 2).toNat
      ∧ (makeCalls W H).length
        = ((W - 1).toNat * H.toNat + (H - 1).toNat * W.toNat)
          + 2 * (W - 1).toNat * (H - 1).toNat
          + ((W - 2).toNat * H.toNat + (H - 2).toNat * W.toNat
            + 2 * (W - 2).toNat * (H - 2).toNat))
    ∧ ((CCloth.new junk sqrt width height num_width num_height).m_Constraints
        = (makeCalls (CCloth.new junk sqrt width height num_width num_height).m_Width
              (CCloth.new junk sqrt width height num_width num_height).m_Height).map
            (MakeConstraint junk sqrt
              (CCloth.new junk sqrt width height num_width num_height).m_Width
              (CCloth.new junk sqrt width height num_width num_height).m_Particles)
      ∧ (CCloth.new junk sqrt width height num_width num_height).m_Constraints.length
        = (makeCalls (CCloth.new junk sqrt width height num_width num_height).m_Width
              (CCloth.new junk sqrt width height num_width num_height).m_Height).length) := by
  refine ⟨⟨count_structural W H, count_shear W H, count_bend W H, ?_⟩, rfl, ?_⟩
  · rw [length_eq_count_kinds, count_structural, count_shear, count_bend]
  · simp only [CCloth.new, List.length_map]

end C9

section C10

/-- C10 (the code at the failing input): `CCloth(2, 2, 3, 5)` stores width 5, not the requested
3, and owns 25 particles, not 3 · 5 = 15. -/
theorem CCloth_new_ignores_num_width :
    (CCloth.new (⟨0, ⟨0, 0, 0⟩, ⟨0, 0, 0⟩, ⟨0, 0, 0⟩⟩ : CParticle ℝ) Real.sqrt 2 2 3 5).m_Width = 5
    ∧ (CCloth.new (⟨0, ⟨0, 0, 0⟩, ⟨0, 0, 0⟩, ⟨0, 0, 0⟩⟩ : CParticle ℝ) Real.sqrt 2 2 3 5).m_Height
        = 5
    ∧ (CCloth.new (⟨0, ⟨0, 0, 0⟩, ⟨0, 0, 0⟩, ⟨0, 0, 0⟩⟩ : CParticle ℝ)
        Real.sqrt 2 2 3 5).m_Particles.length = 25 := by
  refine ⟨rfl, rfl, ?_⟩
  rw [(CCloth_new_size _ _ _ _ _ _).2.2]
  decide

end C10

/-! ### The divisions of `CConstraint::Solve` -/

section Divisors

variable {F : Type} [LinearOrderedField F]

/-- The function `SolvePair` has a finite result exactly when the mode indexes `MODE_COMPLIANCE` inside the
array (where the table is read at all) and no executed division has a zero denominator. -/
theorem SolvePair_isSome_iff (sqrt : F → F) (app : CApplication) (dt : F) (c : CConstraint F)
    (p1 p2 : CParticle F) :
    (CConstraint.SolvePair sqrt app dt c p1 p2).isSome = true
      ↔ (p1.m_InvMass + p2.m_InvMass ≠ 0 → app.m_Mode ≠ eModePBD →
            (MODE_COMPLIANCE app.m_Mode : Option F).isSome = true)
        ∧ ∀ d ∈ CConstraint.SolveDivisors sqrt app dt c p1 p2, d ≠ 0 := by
  unfold CConstraint.SolvePair CConstraint.SolveDivisors
  by_cases hsum : p1.m_InvMass + p2.m_InvMass = 0
  · simp [hsum]
  · simp only [hsum, if_false]
    by_cases hm : app.m_Mode = eModePBD
    · rw [correction_vector_pbd sqrt app dt c _ _ _ _ hm]
      simp only [hm, ne_eq, not_true_eq_false, if_false, false_implies, implies_true, true_and]
      unfold glm.normalize glm.inversesqrt fdiv Vec3.divS
      split_ifs <;> simp_all
    · simp only [ne_eq, hm, not_false_eq_true, if_true, true_implies]
      cases hmc : (MODE_COMPLIANCE app.m_Mode : Option F) with
      | none =>
        unfold CConstraint.correction_vector
        simp [hm, hmc]
        exact hsum
      | some mc =>
        rw [correction_vector_xpbd sqrt app dt c _ _ _ _ mc hm hmc]
        by_cases h0 : dt * dt = 0
        · simp [fdiv, h0]
        · by_cases h1 : p1.m_InvMass + p2.m_InvMass + mc / (dt * dt) = 0
          · simp [fdiv, h0, h1]
          · by_cases h2 : glm.length sqrt (Vec3.sub p1.m_Position p2.m_Position)
                + FLT_EPSILON = 0
            · simp [fdiv, Vec3.divS, h0, h1, h2]
            · simp [fdiv, Vec3.divS, h0, h1, h2]

end Divisors

/-! ### `CConstraint::Solve` on the particle vector -/

section ClothSolve

open CCloth

variable {F : Type} [LinearOrderedField F]

theorem Vec3.smul_zero_left (v : Vec3 F) : Vec3.smul (0 : F) v = ⟨0, 0, 0⟩ := by
  simp [Vec3.smul]

theorem Vec3.smul_neg_zero_left (v : Vec3 F) : Vec3.smul (-(0 : F)) v = ⟨0, 0, 0⟩ := by
  simp [Vec3.smul]

/-- The shape of a finite result of `Solve` on a particle vector. -/
theorem Solve_eq_some {sqrt : F → F} {app : CApplication} {dt : F} {c : CConstraint F}
    {ps : List (CParticle F)} {r : CConstraint F × List (CParticle F)}
    (h : CConstraint.Solve sqrt app dt c ps = some r) :
    ∃ p1 p2 : CParticle F, ps[c.m_Particle1]? = some p1 ∧ ps[c.m_Particle2]? = some p2
      ∧ ((p1.m_InvMass + p2.m_InvMass = 0 ∧ r = (c, ps))
        ∨ (p1.m_InvMass + p2.m_InvMass ≠ 0 ∧ ∃ c' cv,
            CConstraint.correction_vector sqrt app dt c p1.m_InvMass p2.m_InvMass
              p1.m_Position p2.m_Position = some (c', cv)
            ∧ r = (c',
              List.modify (fun p => p.AddPosition (Vec3.smul (-p2.m_InvMass) cv) true)
                c.m_Particle2
                (List.modify (fun p => p.AddPosition (Vec3.smul p1.m_InvMass cv) true)
                  c.m_Particle1 ps)))) := by
  unfold CConstraint.Solve at h
  split at h
  · rename_i p1 p2 h1 h2
    refine ⟨p1, p2, h1, h2, ?_⟩
    by_cases hsum : p1.m_InvMass + p2.m_InvMass = 0
    · left
      simp only [hsum, if_true, Option.some.injEq] at h
      exact ⟨hsum, h.symm⟩
    · right
      simp only [hsum, if_false] at h
      cases hcv : CConstraint.correction_vector sqrt app dt c p1.m_InvMass p2.m_InvMass
          p1.m_Position p2.m_Position with
      | none => rw [hcv] at h; simp at h
      | some x =>
        rw [hcv] at h
        simp only [Option.map_some', Option.some.injEq] at h
        exact ⟨hsum, x.1, x.2, rfl, h.symm⟩
  · simp at h

/-- The function `correction_vector` keeps the two particle indices of the constraint. -/
theorem correction_vector_indices {sqrt : F → F} {app : CApplication} {dt : F}
    {c c' : CConstraint F} {w1 w2 : F} {x1 x2 cv : Vec3 F}
    (h : CConstraint.correction_vector sqrt app dt c w1 w2 x1 x2 = some (c', cv)) :
    c'.m_Particle1 = c.m_Particle1 ∧ c'.m_Particle2 = c.m_Particle2 := by
  by_cases hm : app.m_Mode = eModePBD
  · rw [correction_vector_pbd sqrt app dt c _ _ _ _ hm] at h
    simp only [Option.bind_eq_some, Option.map_eq_some', Prod.mk.injEq] at h
    obtain ⟨_, _, _, _, hc, _⟩ := h
    rw [← hc]
    exact ⟨rfl, rfl⟩
  · cases hmc : (MODE_COMPLIANCE app.m_Mode : Option F) with
    | none =>
      unfold CConstraint.correction_vector at h
      simp [hm, hmc] at h
    | some mc =>
      rw [correction_vector_xpbd sqrt app dt c _ _ _ _ mc hm hmc] at h
      simp only [Option.bind_eq_some, Option.map_eq_some', Prod.mk.injEq] at h
      obtain ⟨_, _, _, _, _, _, hc, _⟩ := h
      rw [← hc]
      exact ⟨rfl, rfl⟩

/-- The method `Solve` keeps the two particle indices of the constraint. -/
theorem Solve_indices {sqrt : F → F} {app : CApplication} {dt : F} {c : CConstraint F}
    {ps : List (CParticle F)} {r : CConstraint F × List (CParticle F)}
    (h : CConstraint.Solve sqrt app dt c ps = some r) :
    r.1.m_Particle1 = c.m_Particle1 ∧ r.1.m_Particle2 = c.m_Particle2 := by
  obtain ⟨p1, p2, -, -, hr | hr⟩ := Solve_eq_some h
  · rw [hr.2]
    exact ⟨rfl, rfl⟩
  · obtain ⟨-, c', cv, hcv, hr⟩ := hr
    rw [hr]
    exact correction_vector_indices hcv

/-- The method `Solve` writes only through its two pointers. -/
theorem Solve_getElem?_of_ne {sqrt : F → F} {app : CApplication} {dt : F} {c : CConstraint F}
    {ps : List (CParticle F)} {r : CConstraint F × List (CParticle F)}
    (h : CConstraint.Solve sqrt app dt c ps = some r) (j : Nat)
    (h1 : c.m_Particle1 ≠ j) (h2 : c.m_Particle2 ≠ j) :
    r.2[j]? = ps[j]? := by
  obtain ⟨p1, p2, -, -, hr | hr⟩ := Solve_eq_some h
  · rw [hr.2]
  · obtain ⟨-, c', cv, -, hr⟩ := hr
    rw [hr]
    simp only
    rw [List.getElem?_modify_ne _ _ h2, List.getElem?_modify_ne _ _ h1]

/-- A `Solve` with a finite result leaves every particle of inverse mass 0 as it is. -/
theorem Solve_getElem?_of_pinned {sqrt : F → F} {app : CApplication} {dt : F}
    {c : CConstraint F} {ps : List (CParticle F)} {r : CConstraint F × List (CParticle F)}
    (h : CConstraint.Solve sqrt app dt c ps = some r) (j : Nat) (p : CParticle F)
    (hp : ps[j]? = some p) (hw : p.m_InvMass = 0) :
    r.2[j]? = some p := by
  obtain ⟨p1, p2, hp1, hp2, hr | hr⟩ := Solve_eq_some h
  · rw [hr.2]
    exact hp
  · obtain ⟨-, c', cv, -, hr⟩ := hr
    rw [hr]
    simp only
    have step1 : (List.modify (fun p => p.AddPosition (Vec3.smul p1.m_InvMass cv) true)
        c.m_Particle1 ps)[j]? = some p := by
      rw [List.getElem?_modify, hp]
      by_cases e : c.m_Particle1 = j
      · have : p1 = p := by
          rw [e, hp] at hp1
          exact (Option.some.inj hp1).symm
        subst this
        simp [e, hw, Vec3.smul_zero_left, AddPosition_zero]
      · simp [e]
    rw [List.getElem?_modify, step1]
    by_cases e : c.m_Particle2 = j
    · have : p2 = p := by
        rw [e, hp] at hp2
        exact (Option.some.inj hp2).symm
      subst this
      simp [e, hw, Vec3.smul_zero_left, AddPosition_zero]
    · simp [e]

/-- The shape of a finite result of the constraint loop on a non-empty vector. -/
theorem solveAll_cons_eq_some {sqrt : F → F} {app : CApplication} {dt : F}
    {c : CConstraint F} {cs : List (CConstraint F)} {ps : List (CParticle F)}
    {r : List (CConstraint F) × List (CParticle F)}
    (h : solveAll sqrt app dt (c :: cs) ps = some r) :
    ∃ r1 rs, CConstraint.Solve sqrt app dt c ps = some r1
      ∧ solveAll sqrt app dt cs r1.2 = some rs ∧ r = (r1.1 :: rs.1, rs.2) := by
  simp only [solveAll, Option.bind_eq_some, Option.map_eq_some'] at h
  obtain ⟨r1, h1, rs, h2, h3⟩ := h
  exact ⟨r1, rs, h1, h2, h3.symm⟩

/-- The constraint loop leaves every particle of inverse mass 0 as it is. -/
theorem solveAll_getElem?_of_pinned {sqrt : F → F} {app : CApplication} {dt : F}
    (cs : List (CConstraint F)) (ps : List (CParticle F))
    (r : List (CConstraint F) × List (CParticle F))
    (h : solveAll sqrt app dt cs ps = some r) (j : Nat) (p : CParticle F)
    (hp : ps[j]? = some p) (hw : p.m_InvMass = 0) :
    r.2[j]? = some p := by
  induction cs generalizing ps r with
  | nil =>
    simp only [solveAll, Option.some.injEq] at h
    rw [← h]
    exact hp
  | cons c cs ih =>
    obtain ⟨r1, rs, h1, h2, h3⟩ := solveAll_cons_eq_some h
    rw [h3]
    exact ih r1.2 rs h2 (Solve_getElem?_of_pinned h1 j p hp hw)

/-- The constraint loop leaves a particle no constraint points to as it is, and keeps the
indices of every constraint. -/
theorem solveAll_getElem?_of_ne {sqrt : F → F} {app : CApplication} {dt : F}
    (cs : List (CConstraint F)) (ps : List (CParticle F))
    (r : List (CConstraint F) × List (CParticle F))
    (h : solveAll sqrt app dt cs ps = some r) (j : Nat)
    (hj : ∀ c ∈ cs, c.m_Particle1 ≠ j ∧ c.m_Particle2 ≠ j) :
    r.2[j]? = ps[j]? ∧ ∀ c ∈ r.1, c.m_Particle1 ≠ j ∧ c.m_Particle2 ≠ j := by
  induction cs generalizing ps r with
  | nil =>
    simp only [solveAll, Option.some.injEq] at h
    rw [← h]
    exact ⟨rfl, fun c hc => by simp at hc⟩
  | cons c cs ih =>
    obtain ⟨r1, rs, h1, h2, h3⟩ := solveAll_cons_eq_some h
    have hc := hj c (List.mem_cons_self _ _)
    obtain ⟨e, hrest⟩ := ih r1.2 rs h2 (fun c' hc' => hj c' (List.mem_cons_of_mem _ hc'))
    rw [h3]
    refine ⟨?_, ?_⟩
    · rw [e]
      exact Solve_getElem?_of_ne h1 j hc.1 hc.2
    · intro c' hc'
      rcases List.mem_cons.mp hc' with rfl | hc'
      · obtain ⟨i1, i2⟩ := Solve_indices h1
        rw [i1, i2]
        exact hc
      · exact hrest c' hc'

end ClothSolve

/-! ### `CCloth::Update`: collision pass, iterations -/

section ClothCollide

open CCloth

variable {F : Type} [LinearOrderedField F]

/-- A particle not inside the inflated sphere is left as it is by the sphere test. -/
theorem collide_of_not_lt (sqrt : F → F) (ball : CBall F) (p : CParticle F)
    (h : ball.m_Radius * (18 / 10)
      ≤ glm.length sqrt (Vec3.sub p.m_Position ball.m_Position)) :
    collide sqrt ball p = some p := by
  unfold collide
  simp only [if_neg (not_lt.mpr h)]

/-- After the sphere test and push a particle is not inside the inflated sphere: it is left
where it was, at distance at least `1.8 · radius`, or pushed to exactly that distance. -/
theorem collide_outside {sqrt : F → F} (hs : IsSqrt sqrt) (ball : CBall F)
    (p q : CParticle F) (h : collide sqrt ball p = some q) :
    ball.m_Radius * (18 / 10) ≤ glm.length sqrt (Vec3.sub q.m_Position ball.m_Position) := by
  unfold collide at h
  by_cases hlt : glm.length sqrt (Vec3.sub p.m_Position ball.m_Position)
      < ball.m_Radius * (18 / 10)
  · simp only [if_pos hlt] at h
    have hne : glm.length sqrt (Vec3.sub p.m_Position ball.m_Position) ≠ 0 := by
      intro h0
      unfold glm.normalize glm.inversesqrt at h
      rw [show sqrt (Vec3.dot (Vec3.sub p.m_Position ball.m_Position)
        (Vec3.sub p.m_Position ball.m_Position)) = 0 from h0, fdiv_zero] at h
      simp at h
    rw [normalize_of_ne sqrt _ hne] at h
    simp only [Option.map_some', Option.some.injEq] at h
    have hlen0 := length_nonneg hs (Vec3.sub p.m_Position ball.m_Position)
    have hlenpos : 0 < glm.length sqrt (Vec3.sub p.m_Position ball.m_Position) :=
      lt_of_le_of_ne hlen0 (Ne.symm hne)
    have hk : 0 ≤ ball.m_Radius * (18 / 10)
        / glm.length sqrt (Vec3.sub p.m_Position ball.m_Position) :=
      div_nonneg (le_trans hlen0 hlt.le) hlen0
    have hsub : Vec3.sub q.m_Position ball.m_Position
        = Vec3.smul (ball.m_Radius * (18 / 10)
            / glm.length sqrt (Vec3.sub p.m_Position ball.m_Position))
          (Vec3.sub p.m_Position ball.m_Position) := by
      rw [← h]
      generalize glm.length sqrt (Vec3.sub p.m_Position ball.m_Position) = len at hne
      simp only [AddPosition_forced, Vec3.smul, Vec3.mulS, Vec3.add, Vec3.sub]
      ext <;> simp <;> field_simp <;> ring
    rw [hsub, length_smul_of_nonneg hs hk]
    rw [div_mul_cancel₀ _ hne]
  · simp only [if_neg hlt, Option.some.injEq] at h
    rw [← h]
    exact not_lt.mp hlt

/-- The particle loop of the collision pass works particle by particle. -/
theorem collideAll_getElem? {sqrt : F → F} {ball : CBall F} (ps qs : List (CParticle F))
    (h : collideAll sqrt ball ps = some qs) (j : Nat) (p : CParticle F)
    (hp : ps[j]? = some p) :
    ∃ q, collide sqrt ball p = some q ∧ qs[j]? = some q := by
  induction ps generalizing qs j with
  | nil => simp at hp
  | cons a as ih =>
    simp only [collideAll, Option.bind_eq_some, Option.map_eq_some'] at h
    obtain ⟨a1, ha1, as1, has1, hqs⟩ := h
    rw [← hqs]
    cases j with
    | zero =>
      simp only [List.getElem?_cons_zero, Option.some.injEq] at hp
      rw [← hp]
      exact ⟨a1, ha1, by simp⟩
    | succ j =>
      simp only [List.getElem?_cons_succ] at hp
      obtain ⟨q, hq1, hq2⟩ := ih as1 has1 j hp
      exact ⟨q, hq1, by simpa using hq2⟩

/-- The shape of a finite result of one iteration. -/
theorem iteration_eq_some {sqrt : F → F} {app : CApplication} {dt : F} {ball : CBall F}
    {s r : List (CConstraint F) × List (CParticle F)}
    (h : iteration sqrt app dt ball s = some r) :
    ∃ ps, collideAll sqrt ball s.2 = some ps ∧ solveAll sqrt app dt s.1 ps = some r := by
  simpa only [iteration, Option.bind_eq_some] using h

/-- An iteration with a finite result leaves a pinned particle outside the inflated sphere as
it is. -/
theorem iteration_getElem?_of_pinned {sqrt : F → F} {app : CApplication} {dt : F}
    {ball : CBall F} {s r : List (CConstraint F) × List (CParticle F)}
    (h : iteration sqrt app dt ball s = some r) (j : Nat) (p : CParticle F)
    (hp : s.2[j]? = some p) (hw : p.m_InvMass = 0)
    (hout : ball.m_Radius * (18 / 10)
      ≤ glm.length sqrt (Vec3.sub p.m_Position ball.m_Position)) :
    r.2[j]? = some p := by
  obtain ⟨ps, h1, h2⟩ := iteration_eq_some h
  obtain ⟨q, hq1, hq2⟩ := collideAll_getElem? s.2 ps h1 j p hp
  rw [collide_of_not_lt sqrt ball p hout, Option.some.injEq] at hq1
  rw [← hq1] at hq2
  exact solveAll_getElem?_of_pinned s.1 ps r h2 j p hq2 hw

/-- The iteration loop leaves a pinned particle outside the inflated sphere as it is. -/
theorem iterations_getElem?_of_pinned {sqrt : F → F} {app : CApplication} {dt : F}
    {ball : CBall F} (n : Nat) (s r : List (CConstraint F) × List (CParticle F))
    (h : iterations sqrt app dt ball n s = some r) (j : Nat) (p : CParticle F)
    (hp : s.2[j]? = some p) (hw : p.m_InvMass = 0)
    (hout : ball.m_Radius * (18 / 10)
      ≤ glm.length sqrt (Vec3.sub p.m_Position ball.m_Position)) :
    r.2[j]? = some p := by
  induction n generalizing s with
  | zero =>
    simp only [iterations, Option.some.injEq] at h
    rw [← h]
    exact hp
  | succ n ih =>
    simp only [iterations, Option.bind_eq_some] at h
    obtain ⟨s1, h1, h2⟩ := h
    exact ih s1 h2 (iteration_getElem?_of_pinned h1 j p hp hw hout)

/-- An iteration with a finite result leaves a particle that no constraint points to outside
the inflated sphere, and no constraint points to it afterwards. -/
theorem iteration_outside_of_free {sqrt : F → F} (hs : IsSqrt sqrt) {app : CApplication}
    {dt : F} {ball : CBall F} {s r : List (CConstraint F) × List (CParticle F)}
    (h : iteration sqrt app dt ball s = some r) (j : Nat) (p : CParticle F)
    (hp : s.2[j]? = some p)
    (hj : ∀ c ∈ s.1, c.m_Particle1 ≠ j ∧ c.m_Particle2 ≠ j) :
    (∃ q, r.2[j]? = some q ∧ collide sqrt ball p = some q
      ∧ ball.m_Radius * (18 / 10)
        ≤ glm.length sqrt (Vec3.sub q.m_Position ball.m_Position))
    ∧ ∀ c ∈ r.1, c.m_Particle1 ≠ j ∧ c.m_Particle2 ≠ j := by
  obtain ⟨ps, h1, h2⟩ := iteration_eq_some h
  obtain ⟨q, hq1, hq2⟩ := collideAll_getElem? s.2 ps h1 j p hp
  obtain ⟨e, hrest⟩ := solveAll_getElem?_of_ne s.1 ps r h2 j hj
  exact ⟨⟨q, by rw [e]; exact hq2, hq1, collide_outside hs ball p q hq1⟩, hrest⟩

/-- After at least one iteration with a finite result a particle that no constraint points to
is outside the inflated sphere. -/
theorem iterations_outside_of_free {sqrt : F → F} (hs : IsSqrt sqrt) {app : CApplication}
    {dt : F} {ball : CBall F} (n : Nat) (s r : List (CConstraint F) × List (CParticle F))
    (h : iterations sqrt app dt ball (n + 1) s = some r) (j : Nat) (p : CParticle F)
    (hp : s.2[j]? = some p)
    (hj : ∀ c ∈ s.1, c.m_Particle1 ≠ j ∧ c.m_Particle2 ≠ j) :
    ∃ q, r.2[j]? = some q
      ∧ ball.m_Radius * (18 / 10)
        ≤ glm.length sqrt (Vec3.sub q.m_Position ball.m_Position) := by
  induction n generalizing s p with
  | zero =>
    simp only [iterations, Option.bind_eq_some, Option.some.injEq] at h
    obtain ⟨s1, h1, h2⟩ := h
    obtain ⟨⟨q, hq, -, hout⟩, -⟩ := iteration_outside_of_free hs h1 j p hp hj
    rw [← h2]
    exact ⟨q, hq, hout⟩
  | succ n ih =>
    rw [iterations] at h
    simp only [Option.bind_eq_some] at h
    obtain ⟨s1, h1, h2⟩ := h
    obtain ⟨⟨q, hq, -, -⟩, hj1⟩ := iteration_outside_of_free hs h1 j p hp hj
    exact ih s1 h2 q hq hj1

end ClothCollide

section Eval

open CCloth

variable {F : Type} [LinearOrderedField F]

/-- The length of a vector along the x axis. -/
theorem length_axis {sqrt : F → F} (hs : IsSqrt sqrt) (a : F) :
    glm.length sqrt ⟨a, 0, 0⟩ = |a| := by
  have h : Vec3.dot (⟨a, 0, 0⟩ : Vec3 F) ⟨a, 0, 0⟩ = |a| * |a| := by
    simp [Vec3.dot]
  rw [glm.length, h]
  exact sqrt_mul_self hs (abs_nonneg a)

/-- The sphere push of a particle inside the inflated sphere and off its centre. -/
theorem collide_of_lt (sqrt : F → F) (ball : CBall F) (p : CParticle F)
    (hlt : glm.length sqrt (Vec3.sub p.m_Position ball.m_Position) < ball.m_Radius * (18 / 10))
    (hne : glm.length sqrt (Vec3.sub p.m_Position ball.m_Position) ≠ 0) :
    collide sqrt ball p
      = some (p.AddPosition
          (Vec3.mulS
            (Vec3.mulS (Vec3.sub p.m_Position ball.m_Position)
              (1 / glm.length sqrt (Vec3.sub p.m_Position ball.m_Position)))
            (ball.m_Radius * (18 / 10)
              - glm.length sqrt (Vec3.sub p.m_Position ball.m_Position))) true) := by
  unfold collide
  simp only [if_pos hlt]
  rw [normalize_of_ne sqrt _ hne]
  rfl

end Eval

section Example

open CCloth

/-- The collision pass of the example frame. -/
theorem example_collideAll :
    collideAll Real.sqrt (CBall.new 1)
        [⟨1, ⟨1, 0, 0⟩, ⟨0, 0, 0⟩, ⟨0, 0, 0⟩⟩, ⟨0, ⟨-5, 0, 0⟩, ⟨-5, 0, 0⟩, ⟨0, 0, 0⟩⟩,
          ⟨1, ⟨1, 0, 0⟩, ⟨0, 0, 0⟩, ⟨0, 0, 0⟩⟩]
      = some [⟨1, ⟨9 / 5, 0, 0⟩, ⟨0, 0, 0⟩, ⟨0, 0, 0⟩⟩, ⟨0, ⟨-5, 0, 0⟩, ⟨-5, 0, 0⟩, ⟨0, 0, 0⟩⟩,
          ⟨1, ⟨9 / 5, 0, 0⟩, ⟨0, 0, 0⟩, ⟨0, 0, 0⟩⟩] := by
  have hA : glm.length Real.sqrt (Vec3.sub (⟨1, 0, 0⟩ : Vec3 ℝ) (CBall.new (1 : ℝ)).m_Position)
      = 1 := by
    rw [show Vec3.sub (⟨1, 0, 0⟩ : Vec3 ℝ) (CBall.new (1 : ℝ)).m_Position = ⟨1, 0, 0⟩ by
      simp [Vec3.sub, CBall.new], length_axis IsSqrt_real]
    norm_num
  have hB : glm.length Real.sqrt (Vec3.sub (⟨-5, 0, 0⟩ : Vec3 ℝ) (CBall.new (1 : ℝ)).m_Position)
      = 5 := by
    rw [show Vec3.sub (⟨-5, 0, 0⟩ : Vec3 ℝ) (CBall.new (1 : ℝ)).m_Position = ⟨-5, 0, 0⟩ by
      simp [Vec3.sub, CBall.new], length_axis IsSqrt_real]
    norm_num
  have cA : collide Real.sqrt (CBall.new 1) (⟨1, ⟨1, 0, 0⟩, ⟨0, 0, 0⟩, ⟨0, 0, 0⟩⟩ : CParticle ℝ)
      = some ⟨1, ⟨9 / 5, 0, 0⟩, ⟨0, 0, 0⟩, ⟨0, 0, 0⟩⟩ := by
    rw [collide_of_lt Real.sqrt _ _ (by rw [hA]; norm_num [CBall.new]) (by rw [hA]; norm_num)]
    simp only [hA, AddPosition_forced]
    norm_num [Vec3.add, Vec3.mulS, Vec3.sub, CBall.new]
  have cB : collide Real.sqrt (CBall.new 1)
      (⟨0, ⟨-5, 0, 0⟩, ⟨-5, 0, 0⟩, ⟨0, 0, 0⟩⟩ : CParticle ℝ)
      = some ⟨0, ⟨-5, 0, 0⟩, ⟨-5, 0, 0⟩, ⟨0, 0, 0⟩⟩ := by
    apply collide_of_not_lt
    rw [hB]
    norm_num [CBall.new]
  simp only [collideAll, cA, cB, Option.some_bind, Option.map_some']

end Example

section Bridge

open CCloth

variable {F : Type} [LinearOrderedField F]

theorem modify_of_getElem? {α : Type} (f : α → α) (l : List α) (i : Nat) (a : α)
    (h : l[i]? = some a) : List.modify f i l = l.set i (f a) := by
  induction l generalizing i with
  | nil => simp at h
  | cons b bs ih =>
    cases i with
    | zero =>
      simp only [List.getElem?_cons_zero, Option.some.injEq] at h
      rw [List.modify_zero_cons, h]
      rfl
    | succ i =>
      simp only [List.getElem?_cons_succ] at h
      rw [List.modify_succ_cons, ih i h]
      rfl

theorem set_of_getElem? {α : Type} (l : List α) (i : Nat) (a : α)
    (h : l[i]? = some a) : l.set i a = l := by
  induction l generalizing i with
  | nil => simp at h
  | cons b bs ih =>
    cases i with
    | zero =>
      simp only [List.getElem?_cons_zero, Option.some.injEq] at h
      rw [h]
      rfl
    | succ i =>
      simp only [List.getElem?_cons_succ] at h
      rw [List.set_cons_succ, ih i h]

/-- The method `Solve` on a particle vector, for a constraint whose two pointers are different and valid:
`SolvePair` on the two particles, written back. -/
theorem Solve_eq_SolvePair (sqrt : F → F) (app : CApplication) (dt : F) (c : CConstraint F)
    (ps : List (CParticle F)) (p1 p2 : CParticle F)
    (h1 : ps[c.m_Particle1]? = some p1) (h2 : ps[c.m_Particle2]? = some p2)
    (hne : c.m_Particle1 ≠ c.m_Particle2) :
    CConstraint.Solve sqrt app dt c ps
      = (CConstraint.SolvePair sqrt app dt c p1 p2).map fun r =>
          (r.1, (ps.set c.m_Particle1 r.2.1).set c.m_Particle2 r.2.2) := by
  unfold CConstraint.Solve CConstraint.SolvePair
  simp only [h1, h2]
  by_cases hsum : p1.m_InvMass + p2.m_InvMass = 0
  · simp only [hsum, if_true, Option.map_some']
    rw [set_of_getElem? ps _ p1 h1, set_of_getElem? ps _ p2 h2]
  · simp only [hsum, if_false, Option.map_map]
    congr 1
    funext r
    simp only [Function.comp]
    rw [modify_of_getElem? _ ps _ p1 h1,
      modify_of_getElem? _ _ _ p2 (by rw [List.getElem?_set_ne hne]; exact h2)]

end Bridge

section Example

open CCloth

/-- The constraint pass of the example frame. -/
theorem example_solveAll :
    solveAll Real.sqrt CApplication.new 1 [⟨1, 0, 1, 1 / 10, 0, 0⟩]
        [⟨1, ⟨9 / 5, 0, 0⟩, ⟨0, 0, 0⟩, ⟨0, 0, 0⟩⟩, ⟨0, ⟨-5, 0, 0⟩, ⟨-5, 0, 0⟩, ⟨0, 0, 0⟩⟩,
          ⟨1, ⟨9 / 5, 0, 0⟩, ⟨0, 0, 0⟩, ⟨0, 0, 0⟩⟩]
      = some ([⟨1, 0, 1, 1 / 10, 0, 0⟩],
        [⟨1, ⟨61 / 50, 0, 0⟩, ⟨0, 0, 0⟩, ⟨0, 0, 0⟩⟩, ⟨0, ⟨-5, 0, 0⟩, ⟨-5, 0, 0⟩, ⟨0, 0, 0⟩⟩,
          ⟨1, ⟨9 / 5, 0, 0⟩, ⟨0, 0, 0⟩, ⟨0, 0, 0⟩⟩]) := by
  have hlen : glm.length Real.sqrt (Vec3.sub (⟨9 / 5, 0, 0⟩ : Vec3 ℝ) ⟨-5, 0, 0⟩) = 34 / 5 := by
    rw [show Vec3.sub (⟨9 / 5, 0, 0⟩ : Vec3 ℝ) ⟨-5, 0, 0⟩ = ⟨34 / 5, 0, 0⟩ by
      norm_num [Vec3.sub], length_axis IsSqrt_real]
    norm_num
  have hpair : CConstraint.SolvePair Real.sqrt CApplication.new 1
      (⟨1, 0, 1, 1 / 10, 0, 0⟩ : CConstraint ℝ)
      ⟨1, ⟨9 / 5, 0, 0⟩, ⟨0, 0, 0⟩, ⟨0, 0, 0⟩⟩ ⟨0, ⟨-5, 0, 0⟩, ⟨-5, 0, 0⟩, ⟨0, 0, 0⟩⟩
      = some (⟨1, 0, 1, 1 / 10, 0, 0⟩, ⟨1, ⟨61 / 50, 0, 0⟩, ⟨0, 0, 0⟩, ⟨0, 0, 0⟩⟩,
          ⟨0, ⟨-5, 0, 0⟩, ⟨-5, 0, 0⟩, ⟨0, 0, 0⟩⟩) := by
    rw [SolvePair_pbd Real.sqrt _ _ _ _ _ (by norm_num) (by decide) (by rw [hlen]; norm_num)]
    simp only [hlen, AddPosition_forced]
    norm_num [Vec3.add, Vec3.mulS, Vec3.smul, Vec3.sub]
  have hsolve := Solve_eq_SolvePair Real.sqrt CApplication.new 1
    (⟨1, 0, 1, 1 / 10, 0, 0⟩ : CConstraint ℝ)
    [⟨1, ⟨9 / 5, 0, 0⟩, ⟨0, 0, 0⟩, ⟨0, 0, 0⟩⟩, ⟨0, ⟨-5, 0, 0⟩, ⟨-5, 0, 0⟩, ⟨0, 0, 0⟩⟩,
      ⟨1, ⟨9 / 5, 0, 0⟩, ⟨0, 0, 0⟩, ⟨0, 0, 0⟩⟩]
    ⟨1, ⟨9 / 5, 0, 0⟩, ⟨0, 0, 0⟩, ⟨0, 0, 0⟩⟩ ⟨0, ⟨-5, 0, 0⟩, ⟨-5, 0, 0⟩, ⟨0, 0, 0⟩⟩
    rfl rfl (by decide)
  rw [hpair] at hsolve
  simp only [solveAll, hsolve, Option.map_some', Option.some_bind]
  rfl

/-- One frame of a three-particle cloth in plain-PBD mode: particle 0 (free, at the ball's
centre, moving along x) is tied to particle 1 (pinned) by a stretched constraint, particle 2
(free, same state as particle 0) is tied to nothing. -/
theorem example_Update :
    CCloth.Update Real.sqrt
        { m_Width := 3, m_Height := 1,
          m_Particles :=
            [⟨1, ⟨0, 0, 0⟩, ⟨-1, 0, 0⟩, ⟨0, 0, 0⟩⟩, ⟨0, ⟨-5, 0, 0⟩, ⟨-5, 0, 0⟩, ⟨0, 0, 0⟩⟩,
              ⟨1, ⟨0, 0, 0⟩, ⟨-1, 0, 0⟩, ⟨0, 0, 0⟩⟩],
          m_Constraints := [⟨1, 0, 1, 1 / 10, 0, 0⟩] }
        CApplication.new 1 (CBall.new 1) 1
      = some
        { m_Width := 3, m_Height := 1,
          m_Particles :=
            [⟨1, ⟨61 / 50, 0, 0⟩, ⟨0, 0, 0⟩, ⟨0, 0, 0⟩⟩, ⟨0, ⟨-5, 0, 0⟩, ⟨-5, 0, 0⟩, ⟨0, 0, 0⟩⟩,
              ⟨1, ⟨9 / 5, 0, 0⟩, ⟨0, 0, 0⟩, ⟨0, 0, 0⟩⟩],
          m_Constraints := [⟨1, 0, 1, 1 / 10, 0, 0⟩] } := by
  have hint : List.map (fun p : CParticle ℝ => p.Update 1)
      [⟨1, ⟨0, 0, 0⟩, ⟨-1, 0, 0⟩, ⟨0, 0, 0⟩⟩, ⟨0, ⟨-5, 0, 0⟩, ⟨-5, 0, 0⟩, ⟨0, 0, 0⟩⟩,
        ⟨1, ⟨0, 0, 0⟩, ⟨-1, 0, 0⟩, ⟨0, 0, 0⟩⟩]
      = [⟨1, ⟨1, 0, 0⟩, ⟨0, 0, 0⟩, ⟨0, 0, 0⟩⟩, ⟨0, ⟨-5, 0, 0⟩, ⟨-5, 0, 0⟩, ⟨0, 0, 0⟩⟩,
        ⟨1, ⟨1, 0, 0⟩, ⟨0, 0, 0⟩, ⟨0, 0, 0⟩⟩] := by
    norm_num [CParticle.Update, Vec3.add, Vec3.sub, Vec3.mulS]
  unfold CCloth.Update
  simp only [hint]
  rw [show (1 : Int).toNat = 1 from rfl]
  simp only [iterations, iteration, example_collideAll, example_solveAll, Option.some_bind,
    Option.map_some']

end Example

section UpdateLemmas

open CCloth

variable {F : Type} [LinearOrderedField F]

/-- The shape of a finite result of `CCloth::Update`. -/
theorem Update_eq_some {sqrt : F → F} {cloth cloth' : CCloth F} {app : CApplication} {dt : F}
    {ball : CBall F} {iteraion : Int}
    (h : CCloth.Update sqrt cloth app dt ball iteraion = some cloth') :
    ∃ s, iterations sqrt app dt ball iteraion.toNat
          (cloth.m_Constraints, cloth.m_Particles.map fun p => p.Update dt) = some s
      ∧ cloth'.m_Particles = s.2 := by
  unfold CCloth.Update at h
  simp only [Option.map_eq_some'] at h
  obtain ⟨s, hs, hc⟩ := h
  exact ⟨s, hs, by rw [← hc]⟩

end UpdateLemmas

section C5

open CCloth

variable {F : Type} [LinearOrderedField F]

/-- C5 (counterexample): one frame with `dt = 0` in mode Concrete (one RIGHT key) on a cloth of
a pinned particle at (−5, 0, 0) and a free one at (−6, 0, 0), both at rest and outside the
inflated sphere of the ball at the origin, joined by one constraint.  The solve divides
`MODE_COMPLIANCE[mode]` by `dt · dt = 0`, so the frame has no finite result: the pinned
particle does not keep its position. -/
theorem Update_pinned_dt_zero_not_finite :
    (CBall.new (1 : ℝ)).m_Radius * (18 / 10)
        ≤ glm.length Real.sqrt (Vec3.sub (⟨-5, 0, 0⟩ : Vec3 ℝ) (CBall.new (1 : ℝ)).m_Position)
    ∧ CCloth.Update Real.sqrt
        { m_Width := 2, m_Height := 1,
          m_Particles :=
            [⟨0, ⟨-5, 0, 0⟩, ⟨-5, 0, 0⟩, ⟨0, -98 / 10, 0⟩⟩,
              ⟨1 / 10, ⟨-6, 0, 0⟩, ⟨-6, 0, 0⟩, ⟨0, -98 / 10, 0⟩⟩],
          m_Constraints := [⟨1, 0, 1, 1 / 10, 0, 0⟩] }
        (special CApplication.new GLUT_KEY_RIGHT) 0 (CBall.new 1) 1
      = none := by
  have hB : glm.length Real.sqrt (Vec3.sub (⟨-5, 0, 0⟩ : Vec3 ℝ) (CBall.new (1 : ℝ)).m_Position)
      = 5 := by
    rw [show Vec3.sub (⟨-5, 0, 0⟩ : Vec3 ℝ) (CBall.new (1 : ℝ)).m_Position = ⟨-5, 0, 0⟩ by
      simp [Vec3.sub, CBall.new], length_axis IsSqrt_real]
    norm_num
  have hA : glm.length Real.sqrt (Vec3.sub (⟨-6, 0, 0⟩ : Vec3 ℝ) (CBall.new (1 : ℝ)).m_Position)
      = 6 := by
    rw [show Vec3.sub (⟨-6, 0, 0⟩ : Vec3 ℝ) (CBall.new (1 : ℝ)).m_Position = ⟨-6, 0, 0⟩ by
      simp [Vec3.sub, CBall.new], length_axis IsSqrt_real]
    norm_num
  refine ⟨by rw [hB]; norm_num [CBall.new], ?_⟩
  have hint : List.map (fun p : CParticle ℝ => p.Update 0)
      [⟨0, ⟨-5, 0, 0⟩, ⟨-5, 0, 0⟩, ⟨0, -98 / 10, 0⟩⟩,
        ⟨1 / 10, ⟨-6, 0, 0⟩, ⟨-6, 0, 0⟩, ⟨0, -98 / 10, 0⟩⟩]
      = [⟨0, ⟨-5, 0, 0⟩, ⟨-5, 0, 0⟩, ⟨0, -98 / 10, 0⟩⟩,
        ⟨1 / 10, ⟨-6, 0, 0⟩, ⟨-6, 0, 0⟩, ⟨0, -98 / 10, 0⟩⟩] := by
    norm_num [CParticle.Update, Vec3.add, Vec3.sub, Vec3.mulS]
  have cB : collide Real.sqrt (CBall.new 1)
      (⟨0, ⟨-5, 0, 0⟩, ⟨-5, 0, 0⟩, ⟨0, -98 / 10, 0⟩⟩ : CParticle ℝ)
      = some ⟨0, ⟨-5, 0, 0⟩, ⟨-5, 0, 0⟩, ⟨0, -98 / 10, 0⟩⟩ := by
    apply collide_of_not_lt
    rw [hB]
    norm_num [CBall.new]
  have cA : collide Real.sqrt (CBall.new 1)
      (⟨1 / 10, ⟨-6, 0, 0⟩, ⟨-6, 0, 0⟩, ⟨0, -98 / 10, 0⟩⟩ : CParticle ℝ)
      = some ⟨1 / 10, ⟨-6, 0, 0⟩, ⟨-6, 0, 0⟩, ⟨0, -98 / 10, 0⟩⟩ := by
    apply collide_of_not_lt
    rw [hA]
    norm_num [CBall.new]
  have hmc : MODE_COMPLIANCE (special CApplication.new GLUT_KEY_RIGHT).m_Mode
      = some (4 / 100000000000 : ℝ) := by
    rw [show (special CApplication.new GLUT_KEY_RIGHT).m_Mode = 1 by decide]
    simp [ MODE_COMPLIANCE, MODE_COMPLIANCE_TABLE]
  have hpair : CConstraint.SolvePair Real.sqrt (special CApplication.new GLUT_KEY_RIGHT) 0
      (⟨1, 0, 1, 1 / 10, 0, 0⟩ : CConstraint ℝ)
      ⟨0, ⟨-5, 0, 0⟩, ⟨-5, 0, 0⟩, ⟨0, -98 / 10, 0⟩⟩
      ⟨1 / 10, ⟨-6, 0, 0⟩, ⟨-6, 0, 0⟩, ⟨0, -98 / 10, 0⟩⟩ = none := by
    have hcv : CConstraint.correction_vector Real.sqrt
        (special CApplication.new GLUT_KEY_RIGHT) 0 (⟨1, 0, 1, 1 / 10, 0, 0⟩ : CConstraint ℝ)
        0 (1 / 10) ⟨-5, 0, 0⟩ ⟨-6, 0, 0⟩ = none := by
      rw [correction_vector_xpbd Real.sqrt _ _ _ _ _ _ _ _ (by decide) hmc, mul_zero, fdiv_zero]
      rfl
    unfold CConstraint.SolvePair
    simp only [hcv, Option.map_none']
    norm_num
  have hsolve := Solve_eq_SolvePair Real.sqrt (special CApplication.new GLUT_KEY_RIGHT) 0
    (⟨1, 0, 1, 1 / 10, 0, 0⟩ : CConstraint ℝ)
    [⟨0, ⟨-5, 0, 0⟩, ⟨-5, 0, 0⟩, ⟨0, -98 / 10, 0⟩⟩,
      ⟨1 / 10, ⟨-6, 0, 0⟩, ⟨-6, 0, 0⟩, ⟨0, -98 / 10, 0⟩⟩]
    ⟨0, ⟨-5, 0, 0⟩, ⟨-5, 0, 0⟩, ⟨0, -98 / 10, 0⟩⟩
    ⟨1 / 10, ⟨-6, 0, 0⟩, ⟨-6, 0, 0⟩, ⟨0, -98 / 10, 0⟩⟩
    rfl rfl (by decide)
  rw [hpair] at hsolve
  unfold CCloth.Update
  simp only [hint]
  rw [show (1 : Int).toNat = 1 from rfl]
  simp only [iterations, iteration, collideAll, cA, cB, solveAll, hsolve, Option.some_bind,
    Option.map_some', Option.none_bind, Option.map_none']

/-- C5 (amended): whenever every value `CCloth::Update` computes is finite, so that the frame
has a finite result `some cloth'`, every particle of inverse mass 0 whose computed distance from
the collider centre is at least `1.8 · radius` on entry is the same particle (position
included) in the result, for every cloth state, mode, `dt`, iteration count and collider.
Finiteness is the hypothesis `h`; in the exact arithmetic of the embedding it fails exactly
when an executed division has a zero denominator, and in `float` it also fails on overflow
(`0 · inf` is a NaN that line 146 would add to the pinned particle). -/
theorem Update_pinned_fixed (sqrt : F → F) (cloth cloth' : CCloth F) (app : CApplication)
    (dt : F) (ball : CBall F) (iteraion : Int)
    (h : CCloth.Update sqrt cloth app dt ball iteraion = some cloth')
    (j : Nat) (p : CParticle F) (hp : cloth.m_Particles[j]? = some p)
    (hw : p.m_InvMass = 0)
    (hout : ball.m_Radius * (18 / 10)
      ≤ glm.length sqrt (Vec3.sub p.m_Position ball.m_Position)) :
    cloth'.m_Particles[j]? = some p := by
  obtain ⟨s, hs, hc⟩ := Update_eq_some h
  rw [hc]
  apply iterations_getElem?_of_pinned _ _ s hs j p _ hw hout
  rw [List.getElem?_map, hp]
  simp [CParticle.Update, hw]

/-- C5 (amended) on the frame of `example_Update`: the pinned particle 1 keeps its state. -/
theorem Update_pinned_fixed_witness :
    (CCloth.mk 3 1
        [⟨1, ⟨61 / 50, 0, 0⟩, ⟨0, 0, 0⟩, ⟨0, 0, 0⟩⟩, ⟨0, ⟨-5, 0, 0⟩, ⟨-5, 0, 0⟩, ⟨0, 0, 0⟩⟩,
          (⟨1, ⟨9 / 5, 0, 0⟩, ⟨0, 0, 0⟩, ⟨0, 0, 0⟩⟩ : CParticle ℝ)]
        [⟨1, 0, 1, 1 / 10, 0, 0⟩]).m_Particles[1]?
      = some ⟨0, ⟨-5, 0, 0⟩, ⟨-5, 0, 0⟩, ⟨0, 0, 0⟩⟩ :=
  Update_pinned_fixed Real.sqrt _ _ _ _ _ _ example_Update 1 _ rfl rfl (by
    rw [show Vec3.sub (⟨-5, 0, 0⟩ : Vec3 ℝ) (CBall.new (1 : ℝ)).m_Position = ⟨-5, 0, 0⟩ by
      simp [Vec3.sub, CBall.new], length_axis IsSqrt_real]
    norm_num [CBall.new])

end C5

section C8

open CCloth

variable {F : Type} [LinearOrderedField F]

/-- C8 (counterexample): the frame of `example_Update`, one iteration in plain-PBD mode.
Particle 0 starts at the ball's centre, is integrated to distance 1, pushed by the collision
pass to distance 9/5 = 1.8 · radius, and then pulled back by the constraint pass to distance
61/50 < 9/5, where `Update` leaves it. -/
theorem Update_constraint_pulls_back_inside :
    (⟨0, 0, 0⟩ : Vec3 ℝ) = (CBall.new (1 : ℝ)).m_Position
    ∧ ∃ cloth' : CCloth ℝ,
      CCloth.Update Real.sqrt
          { m_Width := 3, m_Height := 1,
            m_Particles :=
              [⟨1, ⟨0, 0, 0⟩, ⟨-1, 0, 0⟩, ⟨0, 0, 0⟩⟩, ⟨0, ⟨-5, 0, 0⟩, ⟨-5, 0, 0⟩, ⟨0, 0, 0⟩⟩,
                ⟨1, ⟨0, 0, 0⟩, ⟨-1, 0, 0⟩, ⟨0, 0, 0⟩⟩],
            m_Constraints := [⟨1, 0, 1, 1 / 10, 0, 0⟩] }
          CApplication.new 1 (CBall.new 1) 1
        = some cloth'
      ∧ ∃ p : CParticle ℝ, cloth'.m_Particles[0]? = some p
        ∧ glm.length Real.sqrt (Vec3.sub p.m_Position (CBall.new (1 : ℝ)).m_Position) = 61 / 50
        ∧ glm.length Real.sqrt (Vec3.sub p.m_Position (CBall.new (1 : ℝ)).m_Position)
            < (CBall.new (1 : ℝ)).m_Radius * (18 / 10) := by
  refine ⟨rfl, _, example_Update, ⟨1, ⟨61 / 50, 0, 0⟩, ⟨0, 0, 0⟩, ⟨0, 0, 0⟩⟩, rfl, ?_⟩
  have hlen : glm.length Real.sqrt
      (Vec3.sub (⟨61 / 50, 0, 0⟩ : Vec3 ℝ) (CBall.new (1 : ℝ)).m_Position) = 61 / 50 := by
    rw [show Vec3.sub (⟨61 / 50, 0, 0⟩ : Vec3 ℝ) (CBall.new (1 : ℝ)).m_Position
        = ⟨61 / 50, 0, 0⟩ by simp [Vec3.sub, CBall.new], length_axis IsSqrt_real]
    norm_num
  refine ⟨hlen, ?_⟩
  rw [hlen]
  norm_num [CBall.new]

/-- C8 (amended): the sphere test and push of the collision pass leaves every particle it
returns at distance at least `1.8 · radius` from the collider centre; and after a
`CCloth::Update` with iteration count ≥ 1 and a finite result, every particle that no
constraint points to is at distance at least `1.8 · radius` from the collider centre. -/
theorem Update_collision_containment (sqrt : F → F) (hs : IsSqrt sqrt)
    (cloth cloth' : CCloth F) (app : CApplication) (dt : F) (ball : CBall F) (iteraion : Int)
    (hit : 1 ≤ iteraion)
    (h : CCloth.Update sqrt cloth app dt ball iteraion = some cloth') :
    (∀ p q : CParticle F, collide sqrt ball p = some q →
        ball.m_Radius * (18 / 10)
          ≤ glm.length sqrt (Vec3.sub q.m_Position ball.m_Position))
    ∧ (∀ (j : Nat) (p : CParticle F), cloth.m_Particles[j]? = some p →
        (∀ c ∈ cloth.m_Constraints, c.m_Particle1 ≠ j ∧ c.m_Particle2 ≠ j) →
        ∃ q : CParticle F, cloth'.m_Particles[j]? = some q
          ∧ ball.m_Radius * (18 / 10)
            ≤ glm.length sqrt (Vec3.sub q.m_Position ball.m_Position)) := by
  refine ⟨fun p q hq => collide_outside hs ball p q hq, ?_⟩
  intro j p hp hj
  obtain ⟨s, hsome, hc⟩ := Update_eq_some h
  obtain ⟨n, hn⟩ : ∃ n, iteraion.toNat = n + 1 :=
    Nat.exists_eq_succ_of_ne_zero (by omega)
  rw [hn] at hsome
  rw [hc]
  exact iterations_outside_of_free hs n _ s hsome j (p.Update dt)
    (by rw [List.getElem?_map, hp]; rfl) hj

/-- C8 (amended) on the frame of `example_Update`: particle 2, tied to nothing, ends at distance
at least 9/5. -/
theorem Update_collision_containment_witness :
    ∃ q : CParticle ℝ,
      (CCloth.mk 3 1
        [⟨1, ⟨61 / 50, 0, 0⟩, ⟨0, 0, 0⟩, ⟨0, 0, 0⟩⟩, ⟨0, ⟨-5, 0, 0⟩, ⟨-5, 0, 0⟩, ⟨0, 0, 0⟩⟩,
          (⟨1, ⟨9 / 5, 0, 0⟩, ⟨0, 0, 0⟩, ⟨0, 0, 0⟩⟩ : CParticle ℝ)]
        [⟨1, 0, 1, 1 / 10, 0, 0⟩]).m_Particles[2]? = some q
      ∧ (CBall.new (1 : ℝ)).m_Radius * (18 / 10)
          ≤ glm.length Real.sqrt (Vec3.sub q.m_Position (CBall.new (1 : ℝ)).m_Position) :=
  (Update_collision_containment Real.sqrt IsSqrt_real _ _ _ _ _ 1 (le_refl 1)
    example_Update).2 2 _ rfl (by decide)

end C8

/-! ### Zero separation and compliance scaling -/

section C12

variable {F : Type} [LinearOrderedField F]

/-- In a compliant mode with `dt ≠ 0` and non-negative inverse masses, `wSum ≠ 0`, every
division `Solve` executes has a non-zero denominator, whatever the separation: the
`FLT_EPSILON` guard of line 141 covers distance 0. -/
theorem SolveDivisors_xpbd_ne_zero {sqrt : F → F} (hs : IsSqrt sqrt) (app : CApplication)
    (dt : F) (c : CConstraint F) (p1 p2 : CParticle F)
    (hw1 : 0 ≤ p1.m_InvMass) (hw2 : 0 ≤ p2.m_InvMass)
    (hsum : p1.m_InvMass + p2.m_InvMass ≠ 0)
    (hmode : eModePBD < app.m_Mode ∧ app.m_Mode < eModeMax) (hdt : dt ≠ 0) :
    (CConstraint.SolvePair sqrt app dt c p1 p2).isSome = true
    ∧ ∀ d ∈ CConstraint.SolveDivisors sqrt app dt c p1 p2, d ≠ 0 := by
  obtain ⟨mc, hmc, hpos⟩ := MODE_COMPLIANCE_pos (F := F) hmode.1 hmode.2
  have hm : app.m_Mode ≠ eModePBD := ne_of_gt hmode.1
  have hα : 0 < mc / (dt * dt) := div_pos hpos (mul_self_pos.mpr hdt)
  have h1 : p1.m_InvMass + p2.m_InvMass + mc / (dt * dt) ≠ 0 := ne_of_gt (by linarith)
  have h2 : glm.length sqrt (Vec3.sub p1.m_Position p2.m_Position) + FLT_EPSILON ≠ 0 := by
    have := length_nonneg hs (Vec3.sub p1.m_Position p2.m_Position)
    have := FLT_EPSILON_pos (F := F)
    exact ne_of_gt (by linarith)
  have hsome : (CConstraint.SolvePair sqrt app dt c p1 p2).isSome = true := by
    rw [SolvePair_xpbd sqrt app dt c p1 p2 mc hsum hm hmc hdt h1 h2]
    rfl
  exact ⟨hsome, ((SolvePair_isSome_iff sqrt app dt c p1 p2).mp hsome).2⟩

/-- C12 (the code at the failing input): in plain-PBD mode (the constructor's mode) a
constraint between a free particle (inverse mass 1/10) and a pinned one, both at (1, 2, 0).
The first division `Solve` executes is the `1 / sqrt(dot(v, v))` of `glm::normalize`, with
denominator `sqrt 0 = 0`; the call has no finite result. -/
theorem Solve_pbd_zero_separation_divides_by_zero :
    CConstraint.SolveDivisors Real.sqrt CApplication.new (1 / 60)
        (⟨0, 0, 1, 1 / 10, 0, 0⟩ : CConstraint ℝ)
        ⟨1 / 10, ⟨1, 2, 0⟩, ⟨1, 2, 0⟩, ⟨0, -98 / 10, 0⟩⟩
        ⟨0, ⟨1, 2, 0⟩, ⟨1, 2, 0⟩, ⟨0, -98 / 10, 0⟩⟩ = [0]
    ∧ CConstraint.SolvePair Real.sqrt CApplication.new (1 / 60)
        (⟨0, 0, 1, 1 / 10, 0, 0⟩ : CConstraint ℝ)
        ⟨1 / 10, ⟨1, 2, 0⟩, ⟨1, 2, 0⟩, ⟨0, -98 / 10, 0⟩⟩
        ⟨0, ⟨1, 2, 0⟩, ⟨1, 2, 0⟩, ⟨0, -98 / 10, 0⟩⟩ = none := by
  have hn : glm.normalize Real.sqrt (Vec3.sub (⟨1, 2, 0⟩ : Vec3 ℝ) ⟨1, 2, 0⟩) = none := by
    simp [glm.normalize, glm.inversesqrt, fdiv, Vec3.sub, Vec3.dot]
  have hd : Real.sqrt (Vec3.dot (Vec3.sub (⟨1, 2, 0⟩ : Vec3 ℝ) ⟨1, 2, 0⟩)
      (Vec3.sub (⟨1, 2, 0⟩ : Vec3 ℝ) ⟨1, 2, 0⟩)) = 0 := by
    simp [Vec3.sub, Vec3.dot]
  constructor
  · unfold CConstraint.SolveDivisors
    have hm : ¬ (CApplication.new.m_Mode ≠ eModePBD) := by decide
    simp only [hm, if_false, hn, hd]
    norm_num
  · have hcv : CConstraint.correction_vector Real.sqrt CApplication.new (1 / 60)
        (⟨0, 0, 1, 1 / 10, 0, 0⟩ : CConstraint ℝ) (1 / 10) 0 ⟨1, 2, 0⟩ ⟨1, 2, 0⟩ = none := by
      rw [correction_vector_pbd Real.sqrt _ _ _ _ _ _ _ (by decide), hn]
      rfl
    unfold CConstraint.SolvePair
    simp only [hcv, Option.map_none']
    norm_num

end C12

section C13

variable {F : Type} [LinearOrderedField F]

/-- C13: in a compliant mode `m` with `dt ≠ 0`, a `Solve` that passes the `sum_mass` guard
stores `MODE_COMPLIANCE[m] / dt²` as `m_Compliance` and uses it in `dLambda`;
with the time step `dt / 2` the stored value is exactly 4 times that; the results are finite
for non-negative inverse masses. -/
theorem Solve_compliance_scaling (sqrt : F → F) (app : CApplication) (dt : F)
    (c : CConstraint F) (p1 p2 : CParticle F)
    (hsum : p1.m_InvMass + p2.m_InvMass ≠ 0)
    (hmode : eModePBD < app.m_Mode ∧ app.m_Mode < eModeMax) (hdt : dt ≠ 0) :
    ∃ mc : F, MODE_COMPLIANCE app.m_Mode = some mc ∧
      (∀ r, CConstraint.SolvePair sqrt app dt c p1 p2 = some r →
          r.1.m_Compliance = mc / (dt * dt)
          ∧ r.1.m_Lambda
              = (if app.m_OldMode ≠ app.m_Mode then 0 else c.m_Lambda)
                + (-(CConstraint.constraint sqrt c p1 p2)
                    - r.1.m_Compliance * (if app.m_OldMode ≠ app.m_Mode then 0 else c.m_Lambda))
                  / (p1.m_InvMass + p2.m_InvMass + r.1.m_Compliance))
      ∧ (∀ r, CConstraint.SolvePair sqrt app (dt / 2) c p1 p2 = some r →
          r.1.m_Compliance = 4 * (mc / (dt * dt)))
      ∧ (0 ≤ p1.m_InvMass → 0 ≤ p2.m_InvMass → IsSqrt sqrt →
          (CConstraint.SolvePair sqrt app dt c p1 p2).isSome = true
          ∧ (CConstraint.SolvePair sqrt app (dt / 2) c p1 p2).isSome = true) := by
  obtain ⟨mc, hmc, hpos⟩ := MODE_COMPLIANCE_pos (F := F) hmode.1 hmode.2
  have hm : app.m_Mode ≠ eModePBD := ne_of_gt hmode.1
  have key : ∀ t : F, t ≠ 0 → ∀ r, CConstraint.SolvePair sqrt app t c p1 p2 = some r →
      r.1.m_Compliance = mc / (t * t)
      ∧ r.1.m_Lambda
          = (if app.m_OldMode ≠ app.m_Mode then 0 else c.m_Lambda)
            + (-(CConstraint.constraint sqrt c p1 p2)
                - mc / (t * t) * (if app.m_OldMode ≠ app.m_Mode then 0 else c.m_Lambda))
              / (p1.m_InvMass + p2.m_InvMass + mc / (t * t)) := by
    intro t ht r hr
    unfold CConstraint.SolvePair at hr
    simp only [if_neg hsum] at hr
    rw [correction_vector_xpbd sqrt app t c _ _ _ _ mc hm hmc,
      fdiv_of_ne _ (mul_ne_zero ht ht)] at hr
    simp only [Option.some_bind, Option.map_eq_some', Option.bind_eq_some] at hr
    obtain ⟨x, ⟨dl, hdl, cv, hcv, hx⟩, hr⟩ := hr
    rw [fdiv_eq_some_iff] at hdl
    rw [← hr, ← hx, hdl.2]
    exact ⟨rfl, rfl⟩
  refine ⟨mc, hmc, ?_, ?_, ?_⟩
  · intro r hr
    obtain ⟨h1, h2⟩ := key dt hdt r hr
    rw [h1]
    exact ⟨rfl, h2⟩
  · intro r hr
    obtain ⟨h1, -⟩ := key (dt / 2) (div_ne_zero hdt two_ne_zero) r hr
    rw [h1]
    field_simp
    ring
  · intro hw1 hw2 hs
    exact ⟨(SolveDivisors_xpbd_ne_zero hs app dt c p1 p2 hw1 hw2 hsum hmode hdt).1,
      (SolveDivisors_xpbd_ne_zero hs app (dt / 2) c p1 p2 hw1 hw2 hsum hmode
        (div_ne_zero hdt two_ne_zero)).1⟩

/-- C13 after one RIGHT key (mode Concrete), time steps 1/30 and 1/60. -/
theorem Solve_compliance_scaling_witness :
    (CConstraint.SolvePair Real.sqrt (special CApplication.new GLUT_KEY_RIGHT) (1 / 30)
        ⟨1, 0, 1, 1 / 10, 0, 0⟩
        (CParticle.new 1 ⟨2, 0, 0⟩ ⟨0, 0, 0⟩) (CParticle.new 0 ⟨0, 0, 0⟩ ⟨0, 0, 0⟩)).isSome = true
    ∧ (CConstraint.SolvePair Real.sqrt (special CApplication.new GLUT_KEY_RIGHT) (1 / 30 / 2)
        ⟨1, 0, 1, 1 / 10, 0, 0⟩
        (CParticle.new 1 ⟨2, 0, 0⟩ ⟨0, 0, 0⟩)
        (CParticle.new 0 ⟨0, 0, 0⟩ ⟨0, 0, 0⟩)).isSome = true := by
  obtain ⟨_, -, -, -, h⟩ := Solve_compliance_scaling Real.sqrt
    (special CApplication.new GLUT_KEY_RIGHT) (1 / 30) ⟨1, 0, 1, 1 / 10, 0, 0⟩
    (CParticle.new 1 ⟨2, 0, 0⟩ ⟨0, 0, 0⟩) (CParticle.new 0 ⟨0, 0, 0⟩ ⟨0, 0, 0⟩)
    (by norm_num [CParticle.new]) (by decide) (by norm_num)
  exact h (by norm_num [CParticle.new]) (by norm_num [CParticle.new]) IsSqrt_real

end C13

/-! ### Finite results in a compliant mode -/

section SolveSome

variable {F : Type} [LinearOrderedField F]

/-- A finite result of `SolvePair` in a compliant mode: the three denominators are non-zero and
the result is the one of `SolvePair_xpbd`. -/
theorem SolvePair_xpbd_of_some {sqrt : F → F} {app : CApplication} {dt : F}
    {c : CConstraint F} {p1 p2 : CParticle F} {mc : F}
    {r : CConstraint F × CParticle F × CParticle F}
    (hsum : p1.m_InvMass + p2.m_InvMass ≠ 0)
    (hm : app.m_Mode ≠ eModePBD) (hmc : MODE_COMPLIANCE app.m_Mode = some mc)
    (hr : CConstraint.SolvePair sqrt app dt c p1 p2 = some r) :
    dt ≠ 0
    ∧ p1.m_InvMass + p2.m_InvMass + mc / (dt * dt) ≠ 0
    ∧ glm.length sqrt (Vec3.sub p1.m_Position p2.m_Position) + FLT_EPSILON ≠ 0 := by
  have h := (SolvePair_isSome_iff sqrt app dt c p1 p2).mp (by rw [hr]; rfl)
  have hd := h.2
  unfold CConstraint.SolveDivisors at hd
  simp only [if_neg hsum, if_pos hm, hmc] at hd
  by_cases h0 : dt * dt = 0
  · exfalso
    simp only [fdiv, h0, if_true] at hd
    exact hd 0 (by simp) rfl
  · have hdt : dt ≠ 0 := fun e => h0 (by rw [e, mul_zero])
    by_cases h1 : p1.m_InvMass + p2.m_InvMass + mc / (dt * dt) = 0
    · exfalso
      simp only [fdiv, h0, h1, if_true, if_false] at hd
      exact hd 0 (by simp) rfl
    · refine ⟨hdt, h1, ?_⟩
      simp only [fdiv, h0, h1, if_false] at hd
      exact hd _ (by simp)

end SolveSome

/-! ### Reachable application states -/

/-- One event keeps the previous mode different from the current mode. -/
theorem appStep_oldMode_ne (app : CApplication) (e : AppEvent)
    (h : app.m_OldMode ≠ app.m_Mode) :
    (appStep app e).m_OldMode ≠ (appStep app e).m_Mode := by
  cases e with
  | key k => exact special_oldMode_ne app k h
  | frame => exact h

/-- After any events the previous mode still differs from the current mode. -/
theorem appRun_oldMode_ne (events : List AppEvent) (app : CApplication)
    (h : app.m_OldMode ≠ app.m_Mode) :
    (appRun app events).m_OldMode ≠ (appRun app events).m_Mode := by
  induction events generalizing app with
  | nil => exact h
  | cons e es ih => exact ih (appStep app e) (appStep_oldMode_ne app e h)

section C18

variable {F : Type} [LinearOrderedField F]

/-- C18: in every application state reached from the constructor state by key events and
frames, `m_OldMode ≠ m_Mode`; so in a compliant mode a `Solve` with `wSum ≠ 0` takes the reset
branch: its outcome is its outcome on the same constraint with `m_Lambda = 0`, every finite
result has `m_Lambda = dLambda = −C / (wSum + α̃)`, and the result is finite for `dt ≠ 0` and
non-negative inverse masses. -/
theorem reachable_solve_resets (sqrt : F → F) (events : List AppEvent) (dt : F)
    (c : CConstraint F) (p1 p2 : CParticle F) :
    (appRun CApplication.new events).m_OldMode ≠ (appRun CApplication.new events).m_Mode
    ∧ (eModePBD < (appRun CApplication.new events).m_Mode →
        (appRun CApplication.new events).m_Mode < eModeMax →
        p1.m_InvMass + p2.m_InvMass ≠ 0 →
        CConstraint.SolvePair sqrt (appRun CApplication.new events) dt c p1 p2
          = CConstraint.SolvePair sqrt (appRun CApplication.new events) dt
              { c with m_Lambda := 0 } p1 p2
        ∧ (∃ mc : F, MODE_COMPLIANCE (appRun CApplication.new events).m_Mode = some mc
            ∧ ∀ r, CConstraint.SolvePair sqrt (appRun CApplication.new events) dt c p1 p2
                = some r →
              r.1.m_Lambda
                = -(CConstraint.constraint sqrt c p1 p2)
                  / (p1.m_InvMass + p2.m_InvMass + mc / (dt * dt)))
        ∧ (dt ≠ 0 → 0 ≤ p1.m_InvMass → 0 ≤ p2.m_InvMass → IsSqrt sqrt →
            (CConstraint.SolvePair sqrt (appRun CApplication.new events) dt c p1 p2).isSome
              = true)) := by
  have hold := appRun_oldMode_ne events CApplication.new (by decide)
  refine ⟨hold, ?_⟩
  intro hlo hhi hsum
  have hm : (appRun CApplication.new events).m_Mode ≠ eModePBD := ne_of_gt hlo
  obtain ⟨mc, hmc, -⟩ := MODE_COMPLIANCE_pos (F := F) hlo hhi
  refine ⟨?_, ⟨mc, hmc, ?_⟩, ?_⟩
  · unfold CConstraint.SolvePair
    simp only [if_neg hsum]
    rw [correction_vector_reset sqrt _ dt c _ _ _ _ hm hold]
  · intro r hr
    obtain ⟨hdt, h1, h2⟩ := SolvePair_xpbd_of_some hsum hm hmc hr
    rw [SolvePair_xpbd sqrt _ dt c p1 p2 mc hsum hm hmc hdt h1 h2, Option.some.injEq] at hr
    rw [← hr]
    simp only [if_pos hold, mul_zero, sub_zero, zero_add, CConstraint.constraint]
  · intro hdt hw1 hw2 hs
    exact (SolveDivisors_xpbd_ne_zero hs _ dt c p1 p2 hw1 hw2 hsum ⟨hlo, hhi⟩ hdt).1

/-- C18 after a frame, two RIGHT keys, a frame, a LEFT key and a frame (mode Concrete). -/
theorem reachable_solve_resets_witness :
    CConstraint.SolvePair Real.sqrt
        (appRun CApplication.new
          [.frame, .key GLUT_KEY_RIGHT, .key GLUT_KEY_RIGHT, .frame, .key GLUT_KEY_LEFT, .frame])
        (1 / 60) ⟨1, 0, 1, 1 / 10, 0, 5⟩
        (CParticle.new 1 ⟨2, 0, 0⟩ ⟨0, 0, 0⟩) (CParticle.new 0 ⟨0, 0, 0⟩ ⟨0, 0, 0⟩)
      = CConstraint.SolvePair Real.sqrt
        (appRun CApplication.new
          [.frame, .key GLUT_KEY_RIGHT, .key GLUT_KEY_RIGHT, .frame, .key GLUT_KEY_LEFT, .frame])
        (1 / 60) ⟨1, 0, 1, 1 / 10, 0, 0⟩
        (CParticle.new 1 ⟨2, 0, 0⟩ ⟨0, 0, 0⟩) (CParticle.new 0 ⟨0, 0, 0⟩ ⟨0, 0, 0⟩) :=
  ((reachable_solve_resets Real.sqrt
    [.frame, .key GLUT_KEY_RIGHT, .key GLUT_KEY_RIGHT, .frame, .key GLUT_KEY_LEFT, .frame]
    (1 / 60) ⟨1, 0, 1, 1 / 10, 0, 5⟩
    (CParticle.new 1 ⟨2, 0, 0⟩ ⟨0, 0, 0⟩) (CParticle.new 0 ⟨0, 0, 0⟩ ⟨0, 0, 0⟩)).2
      (by decide) (by decide) (by norm_num [CParticle.new])).1

end C18

/-! ### The mass-weighted centre of a pair -/

section C19

variable {F : Type} [LinearOrderedField F]

/-- C19: for two particles of strictly positive inverse masses `w1`, `w2` at distinct positions,
in plain-PBD or any compliant mode, for every `m_Lambda` and `dt ≠ 0`, `Solve` has a finite
result, the two displacements are `+w1 · c` and `−w2 · c` for one vector `c = t · (p1 − p2)`,
and `p1 / w1 + p2 / w2` is the same before and after. -/
theorem Solve_conserves_weighted_centre (sqrt : F → F) (hs : IsSqrt sqrt)
    (app : CApplication) (dt : F) (c : CConstraint F) (p1 p2 : CParticle F)
    (hw1 : 0 < p1.m_InvMass) (hw2 : 0 < p2.m_InvMass)
    (hmode : eModePBD ≤ app.m_Mode ∧ app.m_Mode < eModeMax)
    (hdt : dt ≠ 0)
    (hpos : p1.m_Position ≠ p2.m_Position) :
    ∃ (c' : CConstraint F) (q1 q2 : CParticle F),
      CConstraint.SolvePair sqrt app dt c p1 p2 = some (c', q1, q2)
      ∧ (∃ t : F,
          q1.m_Position = Vec3.add p1.m_Position
            (Vec3.smul p1.m_InvMass (Vec3.smul t (Vec3.sub p1.m_Position p2.m_Position)))
          ∧ q2.m_Position = Vec3.add p2.m_Position
            (Vec3.smul (-p2.m_InvMass) (Vec3.smul t (Vec3.sub p1.m_Position p2.m_Position))))
      ∧ Vec3.add (Vec3.mulS q1.m_Position (1 / p1.m_InvMass))
            (Vec3.mulS q2.m_Position (1 / p2.m_InvMass))
          = Vec3.add (Vec3.mulS p1.m_Position (1 / p1.m_InvMass))
            (Vec3.mulS p2.m_Position (1 / p2.m_InvMass)) := by
  have hsum : p1.m_InvMass + p2.m_InvMass ≠ 0 := ne_of_gt (by linarith)
  have h1 : p1.m_InvMass ≠ 0 := ne_of_gt hw1
  have h2 : p2.m_InvMass ≠ 0 := ne_of_gt hw2
  have centre : ∀ v : Vec3 F,
      Vec3.add
          (Vec3.mulS (Vec3.add p1.m_Position (Vec3.smul p1.m_InvMass v)) (1 / p1.m_InvMass))
          (Vec3.mulS (Vec3.add p2.m_Position (Vec3.smul (-p2.m_InvMass) v)) (1 / p2.m_InvMass))
        = Vec3.add (Vec3.mulS p1.m_Position (1 / p1.m_InvMass))
          (Vec3.mulS p2.m_Position (1 / p2.m_InvMass)) := by
    intro v
    simp only [Vec3.add, Vec3.mulS, Vec3.smul]
    ext <;> dsimp only <;> field_simp <;> ring
  by_cases hm : app.m_Mode = eModePBD
  · have hd : Vec3.sub p1.m_Position p2.m_Position ≠ ⟨0, 0, 0⟩ := fun h =>
      hpos ((Vec3.sub_eq_zero_iff _ _).mp h)
    have hlen : glm.length sqrt (Vec3.sub p1.m_Position p2.m_Position) ≠ 0 :=
      ne_of_gt (length_pos hs hd)
    refine ⟨_, _, _, SolvePair_pbd sqrt app dt c p1 p2 hsum hm hlen, ?_, ?_⟩
    · refine ⟨c.m_Stiffness * (1 / glm.length sqrt (Vec3.sub p1.m_Position p2.m_Position))
        * (-(glm.length sqrt (Vec3.sub p1.m_Position p2.m_Position) - c.m_RestLength))
        * (1 / (p1.m_InvMass + p2.m_InvMass)), ?_, ?_⟩
      · simp only [AddPosition_forced, Vec3.smul, Vec3.mulS, Vec3.add]
        ext <;> dsimp only <;> ring
      · simp only [AddPosition_forced, Vec3.smul, Vec3.mulS, Vec3.add]
        ext <;> dsimp only <;> ring
    · simp only [AddPosition_forced]
      exact centre _
  · obtain ⟨mc, hmc, hmcpos⟩ := MODE_COMPLIANCE_pos (F := F)
      (lt_of_le_of_ne hmode.1 (Ne.symm hm)) hmode.2
    have hα : 0 < mc / (dt * dt) := div_pos hmcpos (mul_self_pos.mpr hdt)
    have hden : p1.m_InvMass + p2.m_InvMass + mc / (dt * dt) ≠ 0 := ne_of_gt (by linarith)
    have heps : glm.length sqrt (Vec3.sub p1.m_Position p2.m_Position) + FLT_EPSILON ≠ 0 := by
      have := length_nonneg hs (Vec3.sub p1.m_Position p2.m_Position)
      have := FLT_EPSILON_pos (F := F)
      exact ne_of_gt (by linarith)
    refine ⟨_, _, _, SolvePair_xpbd sqrt app dt c p1 p2 mc hsum hm hmc hdt hden heps, ?_, ?_⟩
    · refine ⟨(-(glm.length sqrt (Vec3.sub p1.m_Position p2.m_Position) - c.m_RestLength)
          - mc / (dt * dt) * (if app.m_OldMode ≠ app.m_Mode then 0 else c.m_Lambda))
          / (p1.m_InvMass + p2.m_InvMass + mc / (dt * dt))
          * (1 / (glm.length sqrt (Vec3.sub p1.m_Position p2.m_Position) + FLT_EPSILON)),
        ?_, ?_⟩
      · simp only [AddPosition_forced, Vec3.smul, Vec3.mulS, Vec3.add]
        ext <;> dsimp only <;> ring
      · simp only [AddPosition_forced, Vec3.smul, Vec3.mulS, Vec3.add]
        ext <;> dsimp only <;> ring
    · simp only [AddPosition_forced]
      exact centre _

/-- C19 at inverse masses 1/10 and 1/5, positions (0,0,0) and (3,4,0), mode Concrete. -/
theorem Solve_conserves_weighted_centre_witness :
    ∃ (c' : CConstraint ℝ) (q1 q2 : CParticle ℝ),
      CConstraint.SolvePair Real.sqrt (special CApplication.new GLUT_KEY_RIGHT) (1 / 60)
          ⟨1, 0, 1, 1 / 10, 0, 0⟩
          (CParticle.new (1 / 10) ⟨0, 0, 0⟩ ⟨0, 0, 0⟩) (CParticle.new (1 / 5) ⟨3, 4, 0⟩ ⟨0, 0, 0⟩)
        = some (c', q1, q2)
      ∧ Vec3.add (Vec3.mulS q1.m_Position (1 / (1 / 10))) (Vec3.mulS q2.m_Position (1 / (1 / 5)))
          = Vec3.add (Vec3.mulS ⟨0, 0, 0⟩ (1 / (1 / 10))) (Vec3.mulS ⟨3, 4, 0⟩ (1 / (1 / 5))) := by
  obtain ⟨c', q1, q2, h, -, hc⟩ := Solve_conserves_weighted_centre Real.sqrt IsSqrt_real
    (special CApplication.new GLUT_KEY_RIGHT) (1 / 60) ⟨1, 0, 1, 1 / 10, 0, 0⟩
    (CParticle.new (1 / 10) ⟨0, 0, 0⟩ ⟨0, 0, 0⟩) (CParticle.new (1 / 5) ⟨3, 4, 0⟩ ⟨0, 0, 0⟩)
    (by norm_num [CParticle.new]) (by norm_num [CParticle.new]) (by decide) (by norm_num)
    (by norm_num [CParticle.new])
  exact ⟨c', q1, q2, h, hc⟩

end C19

/-! ### A compliant solve does not overshoot -/

section C20

variable {F : Type} [LinearOrderedField F]

/-- The difference `p1 − p2` after two displacements `+w1 · c`, `−w2 · c` with
`c = (t · (p1 − p2)) · s`. -/
theorem sub_after_displacements (p1 p2 : CParticle F) (t s : F) :
    Vec3.sub
        (p1.AddPosition (Vec3.smul p1.m_InvMass
          (Vec3.mulS (Vec3.smul t (Vec3.sub p1.m_Position p2.m_Position)) s)) true).m_Position
        (p2.AddPosition (Vec3.smul (-p2.m_InvMass)
          (Vec3.mulS (Vec3.smul t (Vec3.sub p1.m_Position p2.m_Position)) s)) true).m_Position
      = Vec3.smul (1 + (p1.m_InvMass + p2.m_InvMass) * t * s)
          (Vec3.sub p1.m_Position p2.m_Position) := by
  simp only [AddPosition_forced, Vec3.smul, Vec3.mulS, Vec3.add, Vec3.sub]
  ext <;> dsimp only <;> ring

/-- The scalar algebra of one compliant solve from `m_Lambda = 0`. -/
theorem xpbd_scalar_algebra (w α dist e L : F) (hw : 0 ≤ w) (hα : 0 < α) (hdist : 0 ≤ dist)
    (he : 0 < e) (hL : 0 ≤ L) :
    0 ≤ 1 + w * (-(dist - L) / (w + α)) * (1 / (dist + e))
    ∧ (1 + w * (-(dist - L) / (w + α)) * (1 / (dist + e))) * dist - L
        = (dist - L) * (1 - w / (w + α) * (dist / (dist + e)))
    ∧ 0 ≤ 1 - w / (w + α) * (dist / (dist + e))
    ∧ 1 - w / (w + α) * (dist / (dist + e)) ≤ 1 := by
  have hD : 0 < w + α := by linarith
  have hS : 0 < dist + e := by linarith
  have h1 : w / (w + α) ≤ 1 := (div_le_one hD).mpr (by linarith)
  have h2 : dist / (dist + e) ≤ 1 := (div_le_one hS).mpr (by linarith)
  have h3 : 0 ≤ w / (w + α) := div_nonneg hw hD.le
  have h4 : 0 ≤ dist / (dist + e) := div_nonneg hdist hS.le
  have h5 : (dist - L) / (dist + e) ≤ 1 := (div_le_one hS).mpr (by linarith)
  have e1 : 1 + w * (-(dist - L) / (w + α)) * (1 / (dist + e))
      = 1 - w / (w + α) * ((dist - L) / (dist + e)) := by
    field_simp
    ring
  refine ⟨?_, ?_, ?_, ?_⟩
  · rw [e1]
    by_cases hc : 0 ≤ (dist - L) / (dist + e)
    · nlinarith
    · have := mul_nonpos_of_nonneg_of_nonpos h3 (le_of_not_le hc)
      linarith
  · field_simp
    ring
  · nlinarith
  · have := mul_nonneg h3 h4
    linarith

/-- C20: for inverse masses with `wSum > 0` (so for non-negative ones), rest length ≥ 0, a compliant mode and
`dt ≠ 0`, a `Solve` entered with `m_Lambda = 0` or taking the reset branch has a finite result
whose constraint error is `C · (1 − (wSum / (wSum + α̃)) · dist / (dist + FLT_EPSILON))`, with
`C` and `dist` the error and the distance before the call; the new error has the sign of `C`
(or is 0) and is no larger in absolute value. -/
theorem Solve_xpbd_no_overshoot (sqrt : F → F) (hs : IsSqrt sqrt)
    (app : CApplication) (dt : F) (c : CConstraint F) (p1 p2 : CParticle F)
    (hsum : 0 < p1.m_InvMass + p2.m_InvMass)
    (hL : 0 ≤ c.m_RestLength)
    (hmode : eModePBD < app.m_Mode ∧ app.m_Mode < eModeMax)
    (hdt : dt ≠ 0)
    (hlam : c.m_Lambda = 0 ∨ app.m_OldMode ≠ app.m_Mode) :
    ∃ (mc : F) (c' : CConstraint F) (q1 q2 : CParticle F),
      MODE_COMPLIANCE app.m_Mode = some mc
      ∧ CConstraint.SolvePair sqrt app dt c p1 p2 = some (c', q1, q2)
      ∧ CConstraint.constraint sqrt c' q1 q2
          = CConstraint.constraint sqrt c p1 p2
            * (1 - (p1.m_InvMass + p2.m_InvMass)
                  / (p1.m_InvMass + p2.m_InvMass + mc / (dt * dt))
                * (glm.length sqrt (Vec3.sub p1.m_Position p2.m_Position)
                  / (glm.length sqrt (Vec3.sub p1.m_Position p2.m_Position) + FLT_EPSILON)))
      ∧ (0 ≤ CConstraint.constraint sqrt c p1 p2 → 0 ≤ CConstraint.constraint sqrt c' q1 q2)
      ∧ (CConstraint.constraint sqrt c p1 p2 ≤ 0 → CConstraint.constraint sqrt c' q1 q2 ≤ 0)
      ∧ |CConstraint.constraint sqrt c' q1 q2| ≤ |CConstraint.constraint sqrt c p1 p2| := by
  obtain ⟨mc, hmc, hmcpos⟩ := MODE_COMPLIANCE_pos (F := F) hmode.1 hmode.2
  have hm : app.m_Mode ≠ eModePBD := ne_of_gt hmode.1
  have hl0 : (if app.m_OldMode ≠ app.m_Mode then 0 else c.m_Lambda) = 0 := by
    split_ifs with h
    · rfl
    · rcases hlam with h' | h'
      · exact h'
      · exact absurd h' h
  have hα : 0 < mc / (dt * dt) := div_pos hmcpos (mul_self_pos.mpr hdt)
  have hdist : 0 ≤ glm.length sqrt (Vec3.sub p1.m_Position p2.m_Position) :=
    length_nonneg hs _
  have heps := FLT_EPSILON_pos (F := F)
  obtain ⟨hk, halg, hf0, hf1⟩ := xpbd_scalar_algebra (p1.m_InvMass + p2.m_InvMass)
    (mc / (dt * dt)) (glm.length sqrt (Vec3.sub p1.m_Position p2.m_Position)) FLT_EPSILON
    c.m_RestLength hsum.le hα hdist heps hL
  have hres := SolvePair_xpbd sqrt app dt c p1 p2 mc (ne_of_gt hsum) hm hmc hdt
    (ne_of_gt (by linarith)) (ne_of_gt (by linarith))
  rw [hl0] at hres
  simp only [mul_zero, sub_zero, zero_add] at hres
  have hC' : CConstraint.constraint sqrt
      { c with
        m_Compliance := mc / (dt * dt)
        m_Lambda := -(glm.length sqrt (Vec3.sub p1.m_Position p2.m_Position) - c.m_RestLength)
          / (p1.m_InvMass + p2.m_InvMass + mc / (dt * dt)) }
      (p1.AddPosition (Vec3.smul p1.m_InvMass (Vec3.mulS (Vec3.smul
        (-(glm.length sqrt (Vec3.sub p1.m_Position p2.m_Position) - c.m_RestLength)
          / (p1.m_InvMass + p2.m_InvMass + mc / (dt * dt)))
        (Vec3.sub p1.m_Position p2.m_Position))
        (1 / (glm.length sqrt (Vec3.sub p1.m_Position p2.m_Position) + FLT_EPSILON)))) true)
      (p2.AddPosition (Vec3.smul (-p2.m_InvMass) (Vec3.mulS (Vec3.smul
        (-(glm.length sqrt (Vec3.sub p1.m_Position p2.m_Position) - c.m_RestLength)
          / (p1.m_InvMass + p2.m_InvMass + mc / (dt * dt)))
        (Vec3.sub p1.m_Position p2.m_Position))
        (1 / (glm.length sqrt (Vec3.sub p1.m_Position p2.m_Position) + FLT_EPSILON)))) true)
      = CConstraint.constraint sqrt c p1 p2
        * (1 - (p1.m_InvMass + p2.m_InvMass)
              / (p1.m_InvMass + p2.m_InvMass + mc / (dt * dt))
            * (glm.length sqrt (Vec3.sub p1.m_Position p2.m_Position)
              / (glm.length sqrt (Vec3.sub p1.m_Position p2.m_Position) + FLT_EPSILON))) := by
    unfold CConstraint.constraint
    rw [sub_after_displacements, length_smul_of_nonneg hs hk]
    exact halg
  refine ⟨mc, _, _, _, hmc, hres, hC', ?_, ?_, ?_⟩
  · rw [hC']
    intro h
    exact mul_nonneg h hf0
  · rw [hC']
    intro h
    exact mul_nonpos_of_nonpos_of_nonneg h hf0
  · rw [hC', abs_mul, abs_of_nonneg hf0]
    exact mul_le_of_le_one_right (abs_nonneg _) hf1

/-- C20 after one RIGHT key (mode Concrete, reset branch), a stretched constraint. -/
theorem Solve_xpbd_no_overshoot_witness :
    ∃ (c' : CConstraint ℝ) (q1 q2 : CParticle ℝ),
      CConstraint.SolvePair Real.sqrt (special CApplication.new GLUT_KEY_RIGHT) (1 / 60)
          ⟨1, 0, 1, 1 / 10, 0, 5⟩
          (CParticle.new (1 / 10) ⟨2, 0, 0⟩ ⟨0, 0, 0⟩) (CParticle.new 0 ⟨0, 0, 0⟩ ⟨0, 0, 0⟩)
        = some (c', q1, q2)
      ∧ |CConstraint.constraint Real.sqrt c' q1 q2|
          ≤ |CConstraint.constraint Real.sqrt ⟨1, 0, 1, 1 / 10, 0, 5⟩
              (CParticle.new (1 / 10) ⟨2, 0, 0⟩ ⟨0, 0, 0⟩)
              (CParticle.new 0 ⟨0, 0, 0⟩ ⟨0, 0, 0⟩)| := by
  obtain ⟨_, c', q1, q2, -, h, -, -, -, habs⟩ := Solve_xpbd_no_overshoot Real.sqrt IsSqrt_real
    (special CApplication.new GLUT_KEY_RIGHT) (1 / 60) ⟨1, 0, 1, 1 / 10, 0, 5⟩
    (CParticle.new (1 / 10) ⟨2, 0, 0⟩ ⟨0, 0, 0⟩) (CParticle.new 0 ⟨0, 0, 0⟩ ⟨0, 0, 0⟩)
    (by norm_num [CParticle.new])
    (by norm_num) (by decide) (by norm_num) (Or.inr (by decide))
  exact ⟨c', q1, q2, h, habs⟩

end C20

/-! ### The sphere push of the collision pass -/

section C14

open CCloth

variable {F : Type} [LinearOrderedField F]

/-- Scaling a vector by `R / len` and then by `1 / R` scales it by `1 / len`. -/
theorem mulS_smul_div (v : Vec3 F) (R len : F) (hR : R ≠ 0) (hlen : len ≠ 0) :
    Vec3.mulS (Vec3.smul (R / len) v) (1 / R) = Vec3.mulS v (1 / len) := by
  simp only [Vec3.smul, Vec3.mulS]
  ext <;> dsimp only <;> field_simp <;> ring

/-- C14: in the collision pass, a particle at distance `d` from the collider centre with
`0 < d < R`, `R = 1.8 · radius`, movable or pinned, is moved to
`centre + R · normalize(position − centre)` and nothing else of it changes: its distance from
the centre is then exactly `R` and its direction from the centre is the same; a particle with
`d ≥ R` is left as it is.  The pass does this particle by particle. -/
theorem collide_push (sqrt : F → F) (hs : IsSqrt sqrt) (ball : CBall F) (p : CParticle F) :
    (0 < glm.length sqrt (Vec3.sub p.m_Position ball.m_Position) →
      glm.length sqrt (Vec3.sub p.m_Position ball.m_Position) < ball.m_Radius * (18 / 10) →
      ∃ (n : Vec3 F) (q : CParticle F),
        glm.normalize sqrt (Vec3.sub p.m_Position ball.m_Position) = some n
        ∧ collide sqrt ball p = some q
        ∧ q.m_Position = Vec3.add ball.m_Position (Vec3.smul (ball.m_Radius * (18 / 10)) n)
        ∧ q.m_InvMass = p.m_InvMass ∧ q.m_OldPosition = p.m_OldPosition
        ∧ q.m_Acceleration = p.m_Acceleration
        ∧ glm.length sqrt (Vec3.sub q.m_Position ball.m_Position) = ball.m_Radius * (18 / 10)
        ∧ glm.normalize sqrt (Vec3.sub q.m_Position ball.m_Position) = some n)
    ∧ (ball.m_Radius * (18 / 10) ≤ glm.length sqrt (Vec3.sub p.m_Position ball.m_Position) →
        collide sqrt ball p = some p)
    ∧ (∀ (ps qs : List (CParticle F)) (j : Nat), collideAll sqrt ball ps = some qs →
        ps[j]? = some p → ∃ q, collide sqrt ball p = some q ∧ qs[j]? = some q) := by
  refine ⟨?_, collide_of_not_lt sqrt ball p, ?_⟩
  · intro hpos hlt
    have hne : glm.length sqrt (Vec3.sub p.m_Position ball.m_Position) ≠ 0 := ne_of_gt hpos
    have hR : 0 < ball.m_Radius * (18 / 10) := lt_trans hpos hlt
    have hk : 0 ≤ ball.m_Radius * (18 / 10)
        / glm.length sqrt (Vec3.sub p.m_Position ball.m_Position) :=
      div_nonneg hR.le hpos.le
    have hq : Vec3.sub
        (p.AddPosition (Vec3.mulS
          (Vec3.mulS (Vec3.sub p.m_Position ball.m_Position)
            (1 / glm.length sqrt (Vec3.sub p.m_Position ball.m_Position)))
          (ball.m_Radius * (18 / 10)
            - glm.length sqrt (Vec3.sub p.m_Position ball.m_Position))) true).m_Position
        ball.m_Position
        = Vec3.smul (ball.m_Radius * (18 / 10)
            / glm.length sqrt (Vec3.sub p.m_Position ball.m_Position))
          (Vec3.sub p.m_Position ball.m_Position) := by
      generalize glm.length sqrt (Vec3.sub p.m_Position ball.m_Position) = len at hne
      simp only [AddPosition_forced, Vec3.smul, Vec3.mulS, Vec3.add, Vec3.sub]
      ext <;> dsimp only <;> field_simp <;> ring
    have hlen : glm.length sqrt (Vec3.sub
        (p.AddPosition (Vec3.mulS
          (Vec3.mulS (Vec3.sub p.m_Position ball.m_Position)
            (1 / glm.length sqrt (Vec3.sub p.m_Position ball.m_Position)))
          (ball.m_Radius * (18 / 10)
            - glm.length sqrt (Vec3.sub p.m_Position ball.m_Position))) true).m_Position
        ball.m_Position) = ball.m_Radius * (18 / 10) := by
      rw [hq, length_smul_of_nonneg hs hk, div_mul_cancel₀ _ hne]
    refine ⟨_, _, normalize_of_ne sqrt _ hne, collide_of_lt sqrt ball p hlt hne, ?_,
      by simp [AddPosition_forced], by simp [AddPosition_forced], by simp [AddPosition_forced],
      hlen, ?_⟩
    · generalize glm.length sqrt (Vec3.sub p.m_Position ball.m_Position) = len at hne
      simp only [AddPosition_forced, Vec3.smul, Vec3.mulS, Vec3.add, Vec3.sub]
      ext <;> dsimp only <;> field_simp <;> ring
    · rw [normalize_of_ne sqrt _ (by rw [hlen]; exact ne_of_gt hR), hlen, hq]
      rw [mulS_smul_div _ _ _ (ne_of_gt hR) hne]
  · intro ps qs j h hp
    exact collideAll_getElem? ps qs h j p hp

/-- C14 at a pinned particle at distance 1 from the centre of a ball of radius 1. -/
theorem collide_push_witness :
    ∃ q : CParticle ℝ,
      collide Real.sqrt (CBall.new 1) ⟨0, ⟨1, 0, 0⟩, ⟨1, 0, 0⟩, ⟨0, 0, 0⟩⟩ = some q
      ∧ glm.length Real.sqrt (Vec3.sub q.m_Position (CBall.new (1 : ℝ)).m_Position)
          = (CBall.new (1 : ℝ)).m_Radius * (18 / 10) := by
  have hA : glm.length Real.sqrt (Vec3.sub (⟨1, 0, 0⟩ : Vec3 ℝ) (CBall.new (1 : ℝ)).m_Position)
      = 1 := by
    rw [show Vec3.sub (⟨1, 0, 0⟩ : Vec3 ℝ) (CBall.new (1 : ℝ)).m_Position = ⟨1, 0, 0⟩ by
      simp [Vec3.sub, CBall.new], length_axis IsSqrt_real]
    norm_num
  obtain ⟨_, q, -, h1, -, -, -, -, h2, -⟩ :=
    (collide_push Real.sqrt IsSqrt_real (CBall.new 1)
      ⟨0, ⟨1, 0, 0⟩, ⟨1, 0, 0⟩, ⟨0, 0, 0⟩⟩).1
      (by rw [hA]; norm_num) (by rw [hA]; norm_num [CBall.new])
  exact ⟨q, h1, h2⟩

end C14

/-! ### Invariants of the key handler -/

/-- One key event keeps the mode inside the enumeration. -/
theorem special_mode_bounds (app : CApplication) (key : Int)
    (h : eModePBD ≤ app.m_Mode ∧ app.m_Mode ≤ eModeXPBD_Fat) :
    eModePBD ≤ (special app key).m_Mode ∧ (special app key).m_Mode ≤ eModeXPBD_Fat := by
  obtain ⟨h1, h2⟩ := h
  unfold special
  simp only [eModePBD, eModeMax, eModeXPBD_Fat] at h1 h2 ⊢
  split_ifs <;> (try dsimp only at *) <;> omega

/-- One key event moves the mode by at most one step. -/
theorem special_mode_step (app : CApplication) (key : Int) :
    (special app key).m_Mode - app.m_Mode ≤ 1 ∧ -1 ≤ (special app key).m_Mode - app.m_Mode := by
  unfold special
  simp only [eModePBD, eModeMax]
  split_ifs <;> (try dsimp only at *) <;> omega

/-- One key event keeps the iteration count at least 1 and raises it by at most 1. -/
theorem special_iteration (app : CApplication) (key : Int) (h : 1 ≤ app.m_IterationNum) :
    1 ≤ (special app key).m_IterationNum
    ∧ (special app key).m_IterationNum ≤ app.m_IterationNum + 1 := by
  unfold special
  simp only [eModePBD, eModeMax]
  split_ifs <;> (try dsimp only at *) <;> omega

/-- The invariants of the key handler along a sequence of key events. -/
theorem specialKeys_invariant (keys : List Int) (app : CApplication)
    (hm : eModePBD ≤ app.m_Mode ∧ app.m_Mode ≤ eModeXPBD_Fat) (hi : 1 ≤ app.m_IterationNum) :
    (eModePBD ≤ (specialKeys app keys).m_Mode ∧ (specialKeys app keys).m_Mode ≤ eModeXPBD_Fat)
    ∧ 1 ≤ (specialKeys app keys).m_IterationNum
    ∧ (specialKeys app keys).m_IterationNum ≤ app.m_IterationNum + keys.length := by
  induction keys generalizing app with
  | nil => exact ⟨hm, hi, by simp [specialKeys]⟩
  | cons k ks ih =>
    obtain ⟨h1, h2, h3⟩ := ih (special app k) (special_mode_bounds app k hm)
      (special_iteration app k hi).1
    refine ⟨h1, h2, ?_⟩
    have := (special_iteration app k hi).2
    have e : (specialKeys app (k :: ks)) = specialKeys (special app k) ks := rfl
    rw [e]
    simp only [List.length_cons, Nat.cast_add, Nat.cast_one]
    omega

/-- From the constructor state the iteration count is at most 20 plus the number of key
events, so below `2^31` in any run of fewer than `2^31 − 20` events. -/
theorem special_iteration_le (keys : List Int) :
    (specialKeys CApplication.new keys).m_IterationNum ≤ 20 + keys.length :=
  (specialKeys_invariant keys CApplication.new (by decide) (by decide)).2.2

section C16

/-- C16: from the constructor state and after every finite sequence of key events, the mode
is one of the enumeration (`eModePBD ≤ m_Mode ≤ eModeXPBD_Fat`), the lookup
`MODE_COMPLIANCE[m_Mode]` is inside the array, the iteration count is at least 1 (and at most
20 plus the number of events), and one more key event moves the mode by at most one step. -/
theorem special_respects_preconditions (F : Type) [LinearOrderedField F] (keys : List Int)
    (key : Int) :
    (eModePBD ≤ (specialKeys CApplication.new keys).m_Mode
      ∧ (specialKeys CApplication.new keys).m_Mode ≤ eModeXPBD_Fat)
    ∧ (MODE_COMPLIANCE (specialKeys CApplication.new keys).m_Mode : Option F).isSome = true
    ∧ 1 ≤ (specialKeys CApplication.new keys).m_IterationNum
    ∧ (specialKeys CApplication.new keys).m_IterationNum ≤ 20 + keys.length
    ∧ |(special (specialKeys CApplication.new keys) key).m_Mode
        - (specialKeys CApplication.new keys).m_Mode| ≤ 1 := by
  obtain ⟨hm, hi, hle⟩ := specialKeys_invariant keys CApplication.new (by decide) (by decide)
  refine ⟨hm, ?_, hi, hle, abs_le.mpr ⟨(special_mode_step _ key).2, (special_mode_step _ key).1⟩⟩
  obtain ⟨h1, h2⟩ := hm
  simp only [eModePBD, eModeXPBD_Fat] at h1 h2
  have hcases : (specialKeys CApplication.new keys).m_Mode = 0
      ∨ (specialKeys CApplication.new keys).m_Mode = 1
      ∨ (specialKeys CApplication.new keys).m_Mode = 2
      ∨ (specialKeys CApplication.new keys).m_Mode = 3
      ∨ (specialKeys CApplication.new keys).m_Mode = 4
      ∨ (specialKeys CApplication.new keys).m_Mode = 5
      ∨ (specialKeys CApplication.new keys).m_Mode = 6
      ∨ (specialKeys CApplication.new keys).m_Mode = 7 := by omega
  rcases hcases with h | h | h | h | h | h | h | h <;> rw [h] <;>
    simp [ MODE_COMPLIANCE, MODE_COMPLIANCE_TABLE]

end C16

section C17

variable {F : Type} [LinearOrderedField F]

/-- The time step of `idle` is between 0 and 0.033 when the clock does not run backwards. -/
theorem idle_dt_bounds (time m_Time : F) (h : m_Time ≤ time) :
    0 ≤ idle_dt time m_Time ∧ idle_dt time m_Time ≤ 33 / 1000 := by
  unfold idle_dt
  simp only
  split_ifs with h1
  · constructor <;> norm_num
  · exact ⟨by linarith, not_lt.mp h1⟩

/-- One `CBall::Update` with a clamped time step keeps the phase in `(0, 2 · 3.14]` and the
ball on the z axis, within `[−2, 2]`. -/
theorem CBall_Update_invariant (cos : F → F) (hcos : ∀ x, -1 ≤ cos x ∧ cos x ≤ 1)
    (b : CBall F) (dt : F) (hdt : 0 ≤ dt ∧ dt ≤ 33 / 1000)
    (hf : 0 < b.m_Frequency ∧ b.m_Frequency ≤ 314 / 100 * 2)
    (hxy : b.m_Position.x = 0 ∧ b.m_Position.y = 0) :
    (0 < (CBall.Update cos b dt).m_Frequency
      ∧ (CBall.Update cos b dt).m_Frequency ≤ 314 / 100 * 2)
    ∧ ((CBall.Update cos b dt).m_Position.x = 0 ∧ (CBall.Update cos b dt).m_Position.y = 0)
    ∧ (CBall.Update cos b dt).m_Position.z = 2 * cos b.m_Frequency
    ∧ (-2 ≤ (CBall.Update cos b dt).m_Position.z ∧ (CBall.Update cos b dt).m_Position.z ≤ 2)
    ∧ (CBall.Update cos b dt).m_Radius = b.m_Radius := by
  obtain ⟨hc1, hc2⟩ := hcos b.m_Frequency
  obtain ⟨hd1, hd2⟩ := hdt
  obtain ⟨hf1, hf2⟩ := hf
  have hz : (CBall.Update cos b dt).m_Position.z = 2 * cos b.m_Frequency := by
    simp only [CBall.Update]
    ring
  refine ⟨?_, hxy, hz, ⟨by rw [hz]; linarith, by rw [hz]; linarith⟩, rfl⟩
  show 0 < (if b.m_Frequency + dt / 5 > 314 / 100 * 2
      then b.m_Frequency + dt / 5 - 314 / 100 * 2 else b.m_Frequency + dt / 5)
    ∧ (if b.m_Frequency + dt / 5 > 314 / 100 * 2
      then b.m_Frequency + dt / 5 - 314 / 100 * 2 else b.m_Frequency + dt / 5) ≤ 314 / 100 * 2
  split_ifs with h
  · constructor <;> linarith
  · exact ⟨by linarith, not_lt.mp h⟩

/-- C17: from the constructed ball and after every sequence of `CBall::Update` calls with time
steps in `[0, 0.033]` (the values `idle` hands over when the clock does not run backwards), the
phase is in `(0, 2 · 3.14]`, the x and y coordinates are 0 and z is in `[−2, 2]`; and one more
call sets z to `2 · cos` of the phase before the call.  The function `cos` is any function with
values in `[−1, 1]`. -/
theorem CBall_phase_bounded (cos : F → F) (hcos : ∀ x, -1 ≤ cos x ∧ cos x ≤ 1) (radius : F)
    (dts : List F) (hdts : ∀ dt ∈ dts, 0 ≤ dt ∧ dt ≤ 33 / 1000)
    (dt : F) (hdt : 0 ≤ dt ∧ dt ≤ 33 / 1000) :
    (0 < (dts.foldl (CBall.Update cos) (CBall.new radius)).m_Frequency
      ∧ (dts.foldl (CBall.Update cos) (CBall.new radius)).m_Frequency ≤ 314 / 100 * 2)
    ∧ (dts.foldl (CBall.Update cos) (CBall.new radius)).m_Position.x = 0
    ∧ (dts.foldl (CBall.Update cos) (CBall.new radius)).m_Position.y = 0
    ∧ (-2 ≤ (dts.foldl (CBall.Update cos) (CBall.new radius)).m_Position.z
      ∧ (dts.foldl (CBall.Update cos) (CBall.new radius)).m_Position.z ≤ 2)
    ∧ (CBall.Update cos (dts.foldl (CBall.Update cos) (CBall.new radius)) dt).m_Position.z
        = 2 * cos (dts.foldl (CBall.Update cos) (CBall.new radius)).m_Frequency
    ∧ (∀ time m_Time : F, m_Time ≤ time →
        0 ≤ idle_dt time m_Time ∧ idle_dt time m_Time ≤ 33 / 1000) := by
  have inv : ∀ (l : List F) (b : CBall F), (∀ x ∈ l, 0 ≤ x ∧ x ≤ 33 / 1000) →
      (0 < b.m_Frequency ∧ b.m_Frequency ≤ 314 / 100 * 2) →
      (b.m_Position.x = 0 ∧ b.m_Position.y = 0) →
      (-2 ≤ b.m_Position.z ∧ b.m_Position.z ≤ 2) →
      (0 < (l.foldl (CBall.Update cos) b).m_Frequency
        ∧ (l.foldl (CBall.Update cos) b).m_Frequency ≤ 314 / 100 * 2)
      ∧ ((l.foldl (CBall.Update cos) b).m_Position.x = 0
        ∧ (l.foldl (CBall.Update cos) b).m_Position.y = 0)
      ∧ (-2 ≤ (l.foldl (CBall.Update cos) b).m_Position.z
        ∧ (l.foldl (CBall.Update cos) b).m_Position.z ≤ 2) := by
    intro l
    induction l with
    | nil => intro b _ hf hxy hz; exact ⟨hf, hxy, hz⟩
    | cons x xs ih =>
      intro b hl hf hxy hz
      obtain ⟨h1, h2, -, h4, -⟩ := CBall_Update_invariant cos hcos b x
        (hl x (List.mem_cons_self _ _)) hf hxy
      exact ih (CBall.Update cos b x) (fun y hy => hl y (List.mem_cons_of_mem _ hy)) h1 h2 h4
  obtain ⟨hf, hxy, hz⟩ := inv dts (CBall.new radius) hdts
    (by constructor <;> norm_num [CBall.new]) ⟨rfl, rfl⟩
    (by constructor <;> norm_num [CBall.new])
  exact ⟨hf, hxy.1, hxy.2, hz,
    (CBall_Update_invariant cos hcos _ dt hdt hf hxy).2.2.1, idle_dt_bounds⟩

/-- C17 with the real cosine, radius 0.1 and the time steps 0.033, 0.016. -/
theorem CBall_phase_bounded_witness :
    0 < ([33 / 1000, 16 / 1000].foldl (CBall.Update Real.cos)
        (CBall.new (1 / 10 : ℝ))).m_Frequency
    ∧ ([33 / 1000, 16 / 1000].foldl (CBall.Update Real.cos)
        (CBall.new (1 / 10 : ℝ))).m_Frequency ≤ 314 / 100 * 2 :=
  (CBall_phase_bounded Real.cos (fun x => ⟨Real.neg_one_le_cos x, Real.cos_le_one x⟩) (1 / 10)
    [33 / 1000, 16 / 1000] (by
      intro dt hdt
      simp only [List.mem_cons, List.mem_singleton, List.not_mem_nil, or_false] at hdt
      rcases hdt with h | h <;> rw [h] <;> constructor <;> norm_num)
    0 (by constructor <;> norm_num)).1

end C17

/-! ### The first loop of the constructor -/

section Loops

/-- Two nested loops threading a state are one loop over the pairs of loop values. -/
theorem foldl_foldl_eq_foldl_pairs {β γ σ : Type} (ws : List β) (hs : List γ)
    (g : σ → β → γ → σ) (init : σ) :
    ws.foldl (fun s w => hs.foldl (fun s h => g s w h) s) init
      = (ws.flatMap fun w => hs.map fun h => (w, h)).foldl (fun s p => g s p.1 p.2) init := by
  induction ws generalizing init with
  | nil => rfl
  | cons w ws ih =>
    rw [List.foldl_cons, ih, List.flatMap_cons, List.foldl_append, List.foldl_map]

/-- A loop of assignments `l[idx k] = val k`: an element that keeps its value `v` or is
assigned it, and is assigned nothing else, is `v` at the end. -/
theorem foldl_set_getElem? {K α : Type} (idx : K → Nat) (val : K → α) (ks : List K)
    (l : List α) (j : Nat) (v : α)
    (hv : ∀ k ∈ ks, idx k = j → val k = v)
    (hj : l[j]? = some v ∨ (j < l.length ∧ ∃ k ∈ ks, idx k = j)) :
    (ks.foldl (fun l k => l.set (idx k) (val k)) l)[j]? = some v := by
  induction ks generalizing l with
  | nil =>
    rcases hj with h | ⟨-, k, hk, -⟩
    · exact h
    · simp at hk
  | cons a ks ih =>
    rw [List.foldl_cons]
    apply ih _ (fun k hk => hv k (List.mem_cons_of_mem _ hk))
    have hlen : j < l.length := by
      rcases hj with h | ⟨h, -⟩
      · by_contra hc
        rw [List.getElem?_eq_none (not_lt.mp hc)] at h
        simp at h
      · exact h
    by_cases e : idx a = j
    · left
      rw [e, List.getElem?_set_self hlen, hv a (List.mem_cons_self _ _) e]
    · rcases hj with h | ⟨-, k, hk, hkj⟩
      · left
        rw [List.getElem?_set_ne e]
        exact h
      · right
        refine ⟨by rw [List.length_set]; exact hlen, k, ?_, hkj⟩
        rcases List.mem_cons.mp hk with rfl | hk'
        · exact absurd hkj e
        · exact hk'

end Loops

section GridIndex

open CCloth

/-- The index `h * W + w` of a cell of the grid is inside the vector. -/
theorem particleIndex_lt {W H w h : Int} (hw0 : 0 ≤ w) (hw : w < W) (hh0 : 0 ≤ h) (hh : h < H) :
    particleIndex W w h < (W * H).toNat := by
  unfold particleIndex
  have h1 : h * W + w < W * H := by nlinarith
  have h2 : 0 ≤ h * W + w := by nlinarith
  omega

/-- Different cells of the grid have different indices. -/
theorem particleIndex_inj {W w h w' h' : Int} (hw0 : 0 ≤ w) (hw : w < W) (hh0 : 0 ≤ h)
    (hw0' : 0 ≤ w') (hw' : w' < W) (hh0' : 0 ≤ h')
    (e : particleIndex W w h = particleIndex W w' h') : w = w' ∧ h = h' := by
  unfold particleIndex at e
  have hW : 0 < W := by omega
  have h2 : 0 ≤ h * W + w := by nlinarith
  have h2' : 0 ≤ h' * W + w' := by nlinarith
  have e' : h * W + w = h' * W + w' := by omega
  have hm : (h * W + w) % W = w := by
    rw [Int.add_comm, Int.add_mul_emod_self, Int.emod_eq_of_lt hw0 hw]
  have hm' : (h' * W + w') % W = w' := by
    rw [Int.add_comm, Int.add_mul_emod_self, Int.emod_eq_of_lt hw0' hw']
  have hww : w = w' := by rw [← hm, ← hm', e']
  refine ⟨hww, ?_⟩
  have : h * W = h' * W := by rw [hww] at e'; linarith
  exact Int.eq_of_mul_eq_mul_right (ne_of_gt hW) this

/-- Every index of the vector of a grid with at least one column is the index of a cell. -/
theorem exists_cell_of_lt {W H : Int} {j : Nat} (hW : 0 < W) (hj : j < (W * H).toNat) :
    ∃ w h : Int, 0 ≤ w ∧ w < W ∧ 0 ≤ h ∧ h < H ∧ j = particleIndex W w h := by
  refine ⟨(j : Int) % W, (j : Int) / W, Int.emod_nonneg _ (ne_of_gt hW),
    Int.emod_lt_of_pos _ hW, Int.ediv_nonneg (by omega) hW.le, ?_, ?_⟩
  · have hjlt : (j : Int) < H * W := by rw [mul_comm]; omega
    exact Int.ediv_lt_of_lt_mul hW hjlt
  · unfold particleIndex
    rw [Int.ediv_add_emod' (j : Int) W]
    simp

end GridIndex

section InitialParticles

open CCloth

variable {F : Type} [LinearOrderedField F]

/-- After the first loop of the constructor the particle at the index of cell `(w, h)` is the
one the loop body builds for that cell. -/
theorem initialParticles_getElem? (junk : CParticle F) (width height : F) {W H w h : Int}
    (hw0 : 0 ≤ w) (hw : w < W) (hh0 : 0 ≤ h) (hh : h < H) :
    (initialParticles junk width height W H)[particleIndex W w h]?
      = some (initialParticle width height W H w h) := by
  unfold initialParticles
  rw [foldl_foldl_eq_foldl_pairs (List.range W.toNat) (List.range H.toNat)
    (fun (ps : List (CParticle F)) (w : Nat) (h : Nat) =>
      ps.set (particleIndex W (w : Int) (h : Int))
        (initialParticle width height W H (w : Int) (h : Int)))]
  apply foldl_set_getElem? (fun p : Nat × Nat => particleIndex W p.1 p.2)
    (fun p : Nat × Nat => initialParticle width height W H p.1 p.2)
  · intro k hk e
    simp only [List.mem_flatMap, List.mem_range, List.mem_map] at hk
    obtain ⟨a, ha, b, hb, rfl⟩ := hk
    obtain ⟨e1, e2⟩ := particleIndex_inj (W := W) (by omega) (by omega) (by omega) hw0 hw hh0 e
    simp only [e1, e2]
  · right
    refine ⟨by rw [List.length_replicate]; exact particleIndex_lt hw0 hw hh0 hh,
      (w.toNat, h.toNat), ?_, ?_⟩
    · simp only [List.mem_flatMap, List.mem_range, List.mem_map]
      exact ⟨w.toNat, by omega, h.toNat, by omega, rfl⟩
    · simp only [Int.toNat_of_nonneg hw0, Int.toNat_of_nonneg hh0]

end InitialParticles

/-! ### Initial particle state -/

section C11

open CCloth

variable {F : Type} [LinearOrderedField F]

/-- C11: the particle vector the constructor builds for a grid of `W ≥ 2` columns and `H ≥ 1`
rows has `W · H` particles, each the particle of one cell `(w, h)`.  Its inverse mass is 0
exactly at the cells `(0, 0)` and `(W − 1, 0)` (two different particles, in row 0, which has
the largest y for positive physical height) and 1/10 at every other cell; its acceleration is
`(0, −9.8, 0)`, its z is 0 and its old position is its position.  The constructed cloth holds
this vector for the grid it stores. -/
theorem CCloth_new_initial_state (junk : CParticle F) (sqrt : F → F) (width height : F)
    (num_width num_height : Int) (W H : Int) (hW : 2 ≤ W) (hH : 1 ≤ H) :
    ((initialParticles junk width height W H).length = (W * H).toNat
      ∧ particleIndex W 0 0 ≠ particleIndex W (W - 1) 0
      ∧ ∀ j : Nat, j < (W * H).toNat →
          ∃ (w h : Int) (p : CParticle F),
            0 ≤ w ∧ w < W ∧ 0 ≤ h ∧ h < H ∧ j = particleIndex W w h
            ∧ (initialParticles junk width height W H)[j]? = some p
            ∧ (p.m_InvMass = 0 ↔ h = 0 ∧ (w = 0 ∨ w = W - 1))
            ∧ (p.m_InvMass ≠ 0 → p.m_InvMass = 1 / 10)
            ∧ p.m_Acceleration = ⟨0, -98 / 10, 0⟩
            ∧ p.m_Position.z = 0
            ∧ p.m_OldPosition = p.m_Position
            ∧ p.m_Position.y = -height * ((h : F) / (H : F)) + height * (1 / 2)
            ∧ (0 < height → p.m_Position.y ≤ height * (1 / 2)))
    ∧ (CCloth.new junk sqrt width height num_width num_height).m_Particles
        = initialParticles junk width height
            (CCloth.new junk sqrt width height num_width num_height).m_Width
            (CCloth.new junk sqrt width height num_width num_height).m_Height := by
  refine ⟨⟨initialParticles_length junk width height W H, ?_, ?_⟩, rfl⟩
  · intro e
    have := (particleIndex_inj (W := W) (le_refl 0) (by omega) (le_refl 0) (by omega)
      (by omega) (le_refl 0) e).1
    omega
  · intro j hj
    obtain ⟨w, h, hw0, hw, hh0, hh, rfl⟩ := exists_cell_of_lt (by omega) hj
    refine ⟨w, h, initialParticle width height W H w h, hw0, hw, hh0, hh, rfl,
      initialParticles_getElem? junk width height hw0 hw hh0 hh, ?_, ?_, rfl, rfl, rfl, rfl, ?_⟩
    · simp only [initialParticle, CParticle.new]
      constructor
      · intro h0
        by_contra hc
        have hne : ¬ ((h = 0 ∧ w = 0) ∨ (h = 0 ∧ w = W - 1)) := by
          intro hh
          apply hc
          rcases hh with ⟨a, b⟩ | ⟨a, b⟩
          · exact ⟨a, Or.inl b⟩
          · exact ⟨a, Or.inr b⟩
        rw [if_neg hne] at h0
        norm_num at h0
      · rintro ⟨a, b | b⟩
        · rw [if_pos (Or.inl ⟨a, b⟩)]
        · rw [if_pos (Or.inr ⟨a, b⟩)]
    · simp only [initialParticle, CParticle.new]
      intro hne
      split_ifs at hne ⊢ with hc
      · exact absurd rfl hne
      · rfl
    · intro hpos
      simp only [initialParticle, CParticle.new]
      have h1 : (0 : F) ≤ (h : F) := by exact_mod_cast hh0
      have h2 : (0 : F) < (H : F) := by exact_mod_cast (by omega : (0 : Int) < H)
      have h3 : 0 ≤ (h : F) / (H : F) := div_nonneg h1 h2.le
      nlinarith

/-- C11 for the grid of the program, 20 × 20. -/
theorem CCloth_new_initial_state_witness :
    (initialParticles (⟨0, ⟨0, 0, 0⟩, ⟨0, 0, 0⟩, ⟨0, 0, 0⟩⟩ : CParticle ℚ) 2 2 20 20).length
        = ((20 : Int) * 20).toNat
    ∧ particleIndex 20 0 0 ≠ particleIndex 20 (20 - 1) 0 :=
  ⟨(CCloth_new_initial_state (⟨0, ⟨0, 0, 0⟩, ⟨0, 0, 0⟩, ⟨0, 0, 0⟩⟩ : CParticle ℚ)
      (fun x => x) 2 2 20 20 20 20 (by decide) (by decide)).1.1,
    (CCloth_new_initial_state (⟨0, ⟨0, 0, 0⟩, ⟨0, 0, 0⟩, ⟨0, 0, 0⟩⟩ : CParticle ℚ)
      (fun x => x) 2 2 20 20 20 20 (by decide) (by decide)).1.2.1⟩

end C11

/-! ### The constraint loops of the constructor -/

section ConstraintLoops

open CCloth

theorem mem_forRange {α : Type} {n : Int} {body : Int → List α} {x : α} :
    x ∈ forRange n body ↔ ∃ i : Int, 0 ≤ i ∧ i < n ∧ x ∈ body i := by
  unfold forRange
  simp only [List.mem_flatMap, List.mem_range]
  constructor
  · rintro ⟨i, hi, hx⟩
    exact ⟨(i : Int), by omega, by omega, hx⟩
  · rintro ⟨i, h0, hn, hx⟩
    exact ⟨i.toNat, by omega, by rwa [Int.toNat_of_nonneg h0]⟩

theorem pairwise_forRange {α : Type} {R : α → α → Prop} {n : Int} {body : Int → List α}
    (hin : ∀ i : Int, 0 ≤ i → i < n → (body i).Pairwise R)
    (hout : ∀ i j : Int, 0 ≤ i → i < j → j < n → ∀ x ∈ body i, ∀ y ∈ body j, R x y) :
    (forRange n body).Pairwise R := by
  unfold forRange
  rw [List.pairwise_flatMap]
  constructor
  · intro i hi
    rw [List.mem_range] at hi
    exact hin i (by omega) (by omega)
  · have h := List.pairwise_lt_range n.toNat
    refine List.Pairwise.imp_of_mem ?_ h
    intro a b ha hb hab x hx y hy
    rw [List.mem_range] at ha hb
    exact hout a b (by omega) (by omega) (by omega) x hx y hy

theorem cell_call_coords {W H w h : Int} {k : MakeCall}
    (hw0 : 0 ≤ w) (hw : w < W) (hh0 : 0 ≤ h) (hh : h < H)
    (hk : k ∈ structuralShearCalls W H w h ++ bendCalls W H w h) :
    (0 ≤ k.w1 ∧ k.w1 < W ∧ 0 ≤ k.h1 ∧ k.h1 < H)
    ∧ (0 ≤ k.w2 ∧ k.w2 < W ∧ 0 ≤ k.h2 ∧ k.h2 < H)
    ∧ k.h1 = h ∧ min k.w1 k.w2 = w
    ∧ (k.h1 < k.h2 ∨ (k.h1 = k.h2 ∧ k.w1 < k.w2)) := by
  unfold structuralShearCalls bendCalls at hk
  simp only [List.mem_append] at hk
  rcases hk with ((hk | hk) | hk) | ((hk | hk) | hk) <;> split_ifs at hk with hc <;>
    simp only [List.mem_cons, List.mem_singleton, List.not_mem_nil, or_false] at hk <;>
    (first | subst hk | (rcases hk with rfl | rfl)) <;> dsimp only <;>
    refine ⟨⟨?_, ?_, ?_, ?_⟩, ⟨?_, ?_, ?_, ?_⟩, ?_, ?_, ?_⟩ <;> omega

theorem cell_calls_pairwise (W H w h : Int) :
    (structuralShearCalls W H w h ++ bendCalls W H w h).Pairwise
      (fun a b => ¬ (a.w1 = b.w1 ∧ a.h1 = b.h1 ∧ a.w2 = b.w2 ∧ a.h2 = b.h2)) := by
  unfold structuralShearCalls bendCalls
  split_ifs <;>
    simp only [List.pairwise_append, List.pairwise_cons, List.Pairwise.nil, List.mem_cons,
      List.mem_singleton, List.mem_append, List.not_mem_nil, List.append_nil, List.nil_append,
      forall_eq_or_imp, forall_eq, or_false, false_or, IsEmpty.forall_iff, implies_true,
      and_true, true_and, not_and, List.cons_append, List.singleton_append] <;>
    (try omega)

theorem same_pair_same_coords {W : Int} {a b : MakeCall}
    (ha1 : 0 ≤ a.w1 ∧ a.w1 < W ∧ 0 ≤ a.h1) (ha2 : 0 ≤ a.w2 ∧ a.w2 < W ∧ 0 ≤ a.h2)
    (hb1 : 0 ≤ b.w1 ∧ b.w1 < W ∧ 0 ≤ b.h1) (hb2 : 0 ≤ b.w2 ∧ b.w2 < W ∧ 0 ≤ b.h2)
    (hao : a.h1 < a.h2 ∨ (a.h1 = a.h2 ∧ a.w1 < a.w2))
    (hbo : b.h1 < b.h2 ∨ (b.h1 = b.h2 ∧ b.w1 < b.w2))
    (e : (particleIndex W a.w1 a.h1 = particleIndex W b.w1 b.h1
          ∧ particleIndex W a.w2 a.h2 = particleIndex W b.w2 b.h2)
        ∨ (particleIndex W a.w1 a.h1 = particleIndex W b.w2 b.h2
          ∧ particleIndex W a.w2 a.h2 = particleIndex W b.w1 b.h1)) :
    a.w1 = b.w1 ∧ a.h1 = b.h1 ∧ a.w2 = b.w2 ∧ a.h2 = b.h2 := by
  rcases e with ⟨e1, e2⟩ | ⟨e1, e2⟩
  · have h1 := particleIndex_inj ha1.1 ha1.2.1 ha1.2.2 hb1.1 hb1.2.1 hb1.2.2 e1
    have h2 := particleIndex_inj ha2.1 ha2.2.1 ha2.2.2 hb2.1 hb2.2.1 hb2.2.2 e2
    exact ⟨h1.1, h1.2, h2.1, h2.2⟩
  · have h1 := particleIndex_inj ha1.1 ha1.2.1 ha1.2.2 hb2.1 hb2.2.1 hb2.2.2 e1
    have h2 := particleIndex_inj ha2.1 ha2.2.1 ha2.2.2 hb1.1 hb1.2.1 hb1.2.2 e2
    omega

theorem cell_calls_distinct_pairs {W H w h w' h' : Int} {a b : MakeCall}
    (hw0 : 0 ≤ w) (hw : w < W) (hh0 : 0 ≤ h) (hh : h < H)
    (hw0' : 0 ≤ w') (hw' : w' < W) (hh0' : 0 ≤ h') (hh' : h' < H)
    (ha : a ∈ structuralShearCalls W H w h ++ bendCalls W H w h)
    (hb : b ∈ structuralShearCalls W H w' h' ++ bendCalls W H w' h')
    (hne : ¬ (a.w1 = b.w1 ∧ a.h1 = b.h1 ∧ a.w2 = b.w2 ∧ a.h2 = b.h2)) :
    ¬ ((particleIndex W a.w1 a.h1 = particleIndex W b.w1 b.h1
          ∧ particleIndex W a.w2 a.h2 = particleIndex W b.w2 b.h2)
        ∨ (particleIndex W a.w1 a.h1 = particleIndex W b.w2 b.h2
          ∧ particleIndex W a.w2 a.h2 = particleIndex W b.w1 b.h1)) := by
  intro e
  obtain ⟨a1, a2, -, -, ao⟩ := cell_call_coords hw0 hw hh0 hh ha
  obtain ⟨b1, b2, -, -, bo⟩ := cell_call_coords hw0' hw' hh0' hh' hb
  exact hne (same_pair_same_coords ⟨a1.1, a1.2.1, a1.2.2.1⟩ ⟨a2.1, a2.2.1, a2.2.2.1⟩
    ⟨b1.1, b1.2.1, b1.2.2.1⟩ ⟨b2.1, b2.2.1, b2.2.2.1⟩ ao bo e)

theorem cell_calls_coords_ne {W H w h w' h' : Int} {a b : MakeCall}
    (hw0 : 0 ≤ w) (hw : w < W) (hh0 : 0 ≤ h) (hh : h < H)
    (hw0' : 0 ≤ w') (hw' : w' < W) (hh0' : 0 ≤ h') (hh' : h' < H)
    (ha : a ∈ structuralShearCalls W H w h ++ bendCalls W H w h)
    (hb : b ∈ structuralShearCalls W H w' h' ++ bendCalls W H w' h')
    (hne : w ≠ w' ∨ h ≠ h') :
    ¬ (a.w1 = b.w1 ∧ a.h1 = b.h1 ∧ a.w2 = b.w2 ∧ a.h2 = b.h2) := by
  intro e
  obtain ⟨-, -, ah, aw, -⟩ := cell_call_coords hw0 hw hh0 hh ha
  obtain ⟨-, -, bh, bw, -⟩ := cell_call_coords hw0' hw' hh0' hh' hb
  obtain ⟨e1, e2, e3, e4⟩ := e
  rw [e1, e3] at aw
  omega

/-- No two `MakeConstraint` calls of the constructor join the same unordered pair of particle
indices. -/
theorem makeCalls_pairwise (W H : Int) :
    (makeCalls W H).Pairwise (fun a b =>
      ¬ ((particleIndex W a.w1 a.h1 = particleIndex W b.w1 b.h1
            ∧ particleIndex W a.w2 a.h2 = particleIndex W b.w2 b.h2)
          ∨ (particleIndex W a.w1 a.h1 = particleIndex W b.w2 b.h2
            ∧ particleIndex W a.w2 a.h2 = particleIndex W b.w1 b.h1))) := by
  have hcell : ∀ w h : Int, 0 ≤ w → w < W → 0 ≤ h → h < H →
      (structuralShearCalls W H w h ++ bendCalls W H w h).Pairwise (fun a b =>
        ¬ ((particleIndex W a.w1 a.h1 = particleIndex W b.w1 b.h1
              ∧ particleIndex W a.w2 a.h2 = particleIndex W b.w2 b.h2)
            ∨ (particleIndex W a.w1 a.h1 = particleIndex W b.w2 b.h2
              ∧ particleIndex W a.w2 a.h2 = particleIndex W b.w1 b.h1))) := by
    intro w h hw0 hw hh0 hh
    refine List.Pairwise.imp_of_mem ?_ (cell_calls_pairwise W H w h)
    intro a b ha hb hne
    exact cell_calls_distinct_pairs hw0 hw hh0 hh hw0 hw hh0 hh ha hb hne
  have hdiff : ∀ w h w' h' : Int, 0 ≤ w → w < W → 0 ≤ h → h < H →
      0 ≤ w' → w' < W → 0 ≤ h' → h' < H → (w ≠ w' ∨ h ≠ h') →
      ∀ a ∈ structuralShearCalls W H w h ++ bendCalls W H w h,
      ∀ b ∈ structuralShearCalls W H w' h' ++ bendCalls W H w' h',
        ¬ ((particleIndex W a.w1 a.h1 = particleIndex W b.w1 b.h1
              ∧ particleIndex W a.w2 a.h2 = particleIndex W b.w2 b.h2)
            ∨ (particleIndex W a.w1 a.h1 = particleIndex W b.w2 b.h2
              ∧ particleIndex W a.w2 a.h2 = particleIndex W b.w1 b.h1)) := by
    intro w h w' h' hw0 hw hh0 hh hw0' hw' hh0' hh' hne a ha b hb
    exact cell_calls_distinct_pairs hw0 hw hh0 hh hw0' hw' hh0' hh' ha hb
      (cell_calls_coords_ne hw0 hw hh0 hh hw0' hw' hh0' hh' ha hb hne)
  unfold makeCalls
  rw [List.pairwise_append]
  refine ⟨?_, ?_, ?_⟩
  · refine pairwise_forRange ?_ ?_
    · intro w hw0 hw
      refine pairwise_forRange ?_ ?_
      · intro h hh0 hh
        exact (List.pairwise_append.1 (hcell w h hw0 hw hh0 hh)).1
      · intro h h' hh0 hlt hh' a ha b hb
        exact hdiff w h w h' hw0 hw hh0 (by omega) hw0 hw (by omega) hh' (Or.inr (by omega))
          a (List.mem_append_left _ ha) b (List.mem_append_left _ hb)
    · intro w w' hw0 hlt hw' a ha b hb
      obtain ⟨h, hh0, hh, ha⟩ := mem_forRange.1 ha
      obtain ⟨h', hh0', hh', hb⟩ := mem_forRange.1 hb
      exact hdiff w h w' h' hw0 (by omega) hh0 hh (by omega) hw' hh0' hh' (Or.inl (by omega))
        a (List.mem_append_left _ ha) b (List.mem_append_left _ hb)
  · refine pairwise_forRange ?_ ?_
    · intro w hw0 hw
      refine pairwise_forRange ?_ ?_
      · intro h hh0 hh
        exact (List.pairwise_append.1 (hcell w h hw0 hw hh0 hh)).2.1
      · intro h h' hh0 hlt hh' a ha b hb
        exact hdiff w h w h' hw0 hw hh0 (by omega) hw0 hw (by omega) hh' (Or.inr (by omega))
          a (List.mem_append_right _ ha) b (List.mem_append_right _ hb)
    · intro w w' hw0 hlt hw' a ha b hb
      obtain ⟨h, hh0, hh, ha⟩ := mem_forRange.1 ha
      obtain ⟨h', hh0', hh', hb⟩ := mem_forRange.1 hb
      exact hdiff w h w' h' hw0 (by omega) hh0 hh (by omega) hw' hh0' hh' (Or.inl (by omega))
        a (List.mem_append_right _ ha) b (List.mem_append_right _ hb)
  · intro a ha b hb
    obtain ⟨w, hw0, hw, ha⟩ := mem_forRange.1 ha
    obtain ⟨h, hh0, hh, ha⟩ := mem_forRange.1 ha
    obtain ⟨w', hw0', hw', hb⟩ := mem_forRange.1 hb
    obtain ⟨h', hh0', hh', hb⟩ := mem_forRange.1 hb
    by_cases hc : w = w' ∧ h = h'
    · obtain ⟨rfl, rfl⟩ := hc
      exact (List.pairwise_append.1 (hcell w h hw0 hw hh0 hh)).2.2 a ha b hb
    · exact hdiff w h w' h' hw0 hw hh0 hh hw0' hw' hh0' hh' (by omega)
        a (List.mem_append_left _ ha) b (List.mem_append_right _ hb)

/-- Every `MakeConstraint` call of the constructor names two different cells of the grid. -/
theorem makeCalls_cells {W H : Int} {k : MakeCall} (hk : k ∈ makeCalls W H) :
    (0 ≤ k.w1 ∧ k.w1 < W ∧ 0 ≤ k.h1 ∧ k.h1 < H)
    ∧ (0 ≤ k.w2 ∧ k.w2 < W ∧ 0 ≤ k.h2 ∧ k.h2 < H)
    ∧ (k.w1 ≠ k.w2 ∨ k.h1 ≠ k.h2) := by
  unfold makeCalls at hk
  rw [List.mem_append] at hk
  have key : ∃ w h : Int, 0 ≤ w ∧ w < W ∧ 0 ≤ h ∧ h < H
      ∧ k ∈ structuralShearCalls W H w h ++ bendCalls W H w h := by
    rcases hk with hk | hk
    · obtain ⟨w, hw0, hw, hk⟩ := mem_forRange.1 hk
      obtain ⟨h, hh0, hh, hk⟩ := mem_forRange.1 hk
      exact ⟨w, h, hw0, hw, hh0, hh, List.mem_append_left _ hk⟩
    · obtain ⟨w, hw0, hw, hk⟩ := mem_forRange.1 hk
      obtain ⟨h, hh0, hh, hk⟩ := mem_forRange.1 hk
      exact ⟨w, h, hw0, hw, hh0, hh, List.mem_append_right _ hk⟩
  obtain ⟨w, h, hw0, hw, hh0, hh, hk⟩ := key
  obtain ⟨k1, k2, -, -, ko⟩ := cell_call_coords hw0 hw hh0 hh hk
  exact ⟨k1, k2, by omega⟩

theorem cell_index_bounds {W H w h : Int} (hw0 : 0 ≤ w) (hw : w < W) (hh0 : 0 ≤ h)
    (hh : h < H) : 0 ≤ h * W + w ∧ h * W + w < W * H := by
  constructor
  · nlinarith
  · nlinarith

end ConstraintLoops

section C15

open CCloth

variable {F : Type} [LinearOrderedField F]

/-- C15: for every grid size `W × H`, every `MakeConstraint` call of the constructor names two
cells inside the grid, so that both indices `h · W + w` lie in `[0, W · H)`, the two indices
are different, and no two calls join the same unordered pair of indices.  The constraints of
the constructed cloth therefore hold two different indices inside its particle vector, and no
two of them hold the same unordered pair. -/
theorem CCloth_constraints_well_formed (junk : CParticle F) (sqrt : F → F) (width height : F)
    (num_width num_height : Int) (W H : Int) :
    (∀ k ∈ makeCalls W H,
        (0 ≤ k.w1 ∧ k.w1 < W ∧ 0 ≤ k.h1 ∧ k.h1 < H)
        ∧ (0 ≤ k.w2 ∧ k.w2 < W ∧ 0 ≤ k.h2 ∧ k.h2 < H)
        ∧ (0 ≤ k.h1 * W + k.w1 ∧ k.h1 * W + k.w1 < W * H)
        ∧ (0 ≤ k.h2 * W + k.w2 ∧ k.h2 * W + k.w2 < W * H)
        ∧ particleIndex W k.w1 k.h1 < (W * H).toNat
        ∧ particleIndex W k.w2 k.h2 < (W * H).toNat
        ∧ particleIndex W k.w1 k.h1 ≠ particleIndex W k.w2 k.h2)
    ∧ (makeCalls W H).Pairwise (fun a b =>
        ¬ ((particleIndex W a.w1 a.h1 = particleIndex W b.w1 b.h1
              ∧ particleIndex W a.w2 a.h2 = particleIndex W b.w2 b.h2)
            ∨ (particleIndex W a.w1 a.h1 = particleIndex W b.w2 b.h2
              ∧ particleIndex W a.w2 a.h2 = particleIndex W b.w1 b.h1)))
    ∧ (∀ c ∈ (CCloth.new junk sqrt width height num_width num_height).m_Constraints,
        c.m_Particle1
            < (CCloth.new junk sqrt width height num_width num_height).m_Particles.length
        ∧ c.m_Particle2
            < (CCloth.new junk sqrt width height num_width num_height).m_Particles.length
        ∧ c.m_Particle1 ≠ c.m_Particle2)
    ∧ (CCloth.new junk sqrt width height num_width num_height).m_Constraints.Pairwise
        (fun a b =>
          ¬ ((a.m_Particle1 = b.m_Particle1 ∧ a.m_Particle2 = b.m_Particle2)
              ∨ (a.m_Particle1 = b.m_Particle2 ∧ a.m_Particle2 = b.m_Particle1))) := by
  have hcalls : ∀ (W H : Int), ∀ k ∈ makeCalls W H,
      (0 ≤ k.w1 ∧ k.w1 < W ∧ 0 ≤ k.h1 ∧ k.h1 < H)
      ∧ (0 ≤ k.w2 ∧ k.w2 < W ∧ 0 ≤ k.h2 ∧ k.h2 < H)
      ∧ (0 ≤ k.h1 * W + k.w1 ∧ k.h1 * W + k.w1 < W * H)
      ∧ (0 ≤ k.h2 * W + k.w2 ∧ k.h2 * W + k.w2 < W * H)
      ∧ particleIndex W k.w1 k.h1 < (W * H).toNat
      ∧ particleIndex W k.w2 k.h2 < (W * H).toNat
      ∧ particleIndex W k.w1 k.h1 ≠ particleIndex W k.w2 k.h2 := by
    intro W H k hk
    obtain ⟨k1, k2, kne⟩ := makeCalls_cells hk
    refine ⟨k1, k2, cell_index_bounds k1.1 k1.2.1 k1.2.2.1 k1.2.2.2,
      cell_index_bounds k2.1 k2.2.1 k2.2.2.1 k2.2.2.2,
      particleIndex_lt k1.1 k1.2.1 k1.2.2.1 k1.2.2.2,
      particleIndex_lt k2.1 k2.2.1 k2.2.2.1 k2.2.2.2, ?_⟩
    intro e
    have := particleIndex_inj k1.1 k1.2.1 k1.2.2.1 k2.1 k2.2.1 k2.2.2.1 e
    omega
  refine ⟨hcalls W H, makeCalls_pairwise W H, ?_, ?_⟩
  · intro c hc
    have hc' : c ∈ (makeCalls num_height num_height).map
        (MakeConstraint junk sqrt num_height
          (initialParticles junk width height num_height num_height)) := hc
    obtain ⟨k, hk, rfl⟩ := List.mem_map.1 hc'
    obtain ⟨-, -, -, -, l1, l2, ne⟩ := hcalls num_height num_height k hk
    have hlen : (CCloth.new junk sqrt width height num_width num_height).m_Particles.length
        = (num_height * num_height).toNat :=
      initialParticles_length junk width height num_height num_height
    rw [hlen]
    exact ⟨l1, l2, ne⟩
  · show ((makeCalls num_height num_height).map
        (MakeConstraint junk sqrt num_height
          (initialParticles junk width height num_height num_height))).Pairwise _
    rw [List.pairwise_map]
    exact makeCalls_pairwise num_height num_height

end C15

end XPBD
